import Mathlib

/-!
# A shallow embedding of the PIC32MX graphic display library

The development models two C++ classes of the repository:

* `GraphicDisplay` (`Keypad.X/display.cpp`, `SSD1306.X/display.h`): the
  device independent drawing engine with its cursor and dirty rectangle;
* `SSD1306` (`SSD1306.X/ssd1306.cpp`, `Keypad.X/ssd1306.h`): the paged 128x64
  one bit per pixel frame buffer.

All `uint8_t` values are natural numbers below 256 and every operation that
can leave that range is reduced modulo 256 explicitly.  The engine talks to
its backend only through the three virtual functions `setPixelInternal`,
`setHBarInternal` and `setVBarInternal`; an engine operation is therefore
modelled as a function returning the new engine state together with the list
of backend calls it issued, in order.
-/

namespace PIC32MX

/-! ## Machine integers -/

/-- Conversion of a C `int` to `uint8_t`. -/
def toU8 (v : Int) : Nat := (v % 256).toNat

/-- Conversion of a C `int` to `int8_t` (two's complement). -/
def toI8 (v : Int) : Int := (v + 128) % 256 - 128

/-- Conversion of a C `int` to `int16_t` (two's complement). -/
def toI16 (v : Int) : Int := (v + 32768) % 65536 - 32768

/-- Conversion of a C `int` to `int32_t` (two's complement). -/
def toI32 (v : Int) : Int := (v + 2147483648) % 4294967296 - 2147483648

/-! ## Geometry and font records (`display.h`) -/

/-- The record `GDPoint`: a 2D point with `uint8_t` coordinates. -/
structure GDPoint where
  x : Nat
  y : Nat
deriving DecidableEq

/-- The record `GDSize`: a 2D size with `uint8_t` components. -/
structure GDSize where
  width : Nat
  height : Nat
deriving DecidableEq

/-- The record `GDRect`: origin and size. -/
structure GDRect where
  origin : GDPoint
  size : GDSize
deriving DecidableEq

/-- The record `GFXglyph`: per glyph font data. -/
structure GFXglyph where
  bitmapOffset : Nat
  width : Nat
  height : Nat
  xAdvance : Nat
  xOffset : Int
  yOffset : Int
deriving DecidableEq

/-- The record `GFXfont`: the bitmap bytes, the glyph table and the range of
codes the table covers. -/
structure GFXfont where
  bitmap : List Nat
  glyph : List GFXglyph
  first : Nat
  last : Nat
  yAdvance : Nat
deriving DecidableEq

/-- The data members of `GraphicDisplay`: `font` (`none` for `NULL`), the
cursor `pos`, the display `size` and the `dirty` rectangle. -/
structure GraphicDisplay where
  font : Option GFXfont
  pos : GDPoint
  size : GDSize
  dirty : GDRect
deriving DecidableEq

/-- A call of one of the three virtual drawing functions of `GraphicDisplay`. -/
inductive SinkCall where
  | setPixel (x y : Nat)
  | setHBar (left right y : Nat)
  | setVBar (x top bottom : Nat)
deriving DecidableEq

/-- The pixels a backend call addresses: the pixel itself, or the run with
both ends included (`right is inclusive, so left == right draws 1 pixel`,
`bottom is inclusive`). -/
def SinkCall.covers : SinkCall → Nat → Nat → Bool
  | .setPixel x y, px, py => decide (px = x ∧ py = y)
  | .setHBar left right y, px, py => decide (left ≤ px ∧ px ≤ right ∧ py = y)
  | .setVBar x top bottom, px, py => decide (px = x ∧ top ≤ py ∧ py ≤ bottom)

/-- Some call of the list addresses pixel `(px, py)`. -/
def covered (calls : List SinkCall) (px py : Nat) : Bool :=
  calls.any fun c => c.covers px py

/-- Pixel `(px, py)` lies in the rectangle, the right and bottom bounds being
exclusive. -/
def GDRect.contains (r : GDRect) (px py : Nat) : Bool :=
  decide (r.origin.x ≤ px ∧ px < r.origin.x + r.size.width ∧
    r.origin.y ≤ py ∧ py < r.origin.y + r.size.height)

/-- A rectangle is empty when its width or its height is zero. -/
def GDRect.isEmpty (r : GDRect) : Bool :=
  decide (r.size.width = 0 ∨ r.size.height = 0)

namespace GraphicDisplay

/-! ## Dirty rectangle management (`display.cpp`, lines 85 to 127) -/

/-- `GraphicDisplay::invalidate`. -/
def invalidate (s : GraphicDisplay) : GraphicDisplay :=
  { s with dirty := ⟨⟨0, 0⟩, s.size⟩ }

/-- `GraphicDisplay::validate`. -/
def validate (s : GraphicDisplay) : GraphicDisplay :=
  { s with dirty := ⟨⟨0, 0⟩, ⟨0, 0⟩⟩ }

/-- `GraphicDisplay::markDirty`.  The four locals `right`, `bottom`, `dright`
and `dbottom` are `uint8_t`; the two origin updates happen before the two size
updates, which read the updated origin. -/
def markDirty (s : GraphicDisplay) (left top width height : Nat) : GraphicDisplay :=
  if width = 0 ∨ height = 0 then s
  else if s.dirty.size.width = 0 ∨ s.dirty.size.height = 0 then
    { s with dirty := ⟨⟨left, top⟩, ⟨width, height⟩⟩ }
  else
    let right := (left + width) % 256
    let bottom := (top + height) % 256
    let dright := (s.dirty.origin.x + s.dirty.size.width) % 256
    let dbottom := (s.dirty.origin.y + s.dirty.size.height) % 256
    let ox := if s.dirty.origin.x > left then left else s.dirty.origin.x
    let oy := if s.dirty.origin.y > top then top else s.dirty.origin.y
    let w := if dright < right then toU8 ((right : Int) - ox) else s.dirty.size.width
    let h := if dbottom < bottom then toU8 ((bottom : Int) - oy) else s.dirty.size.height
    { s with dirty := ⟨⟨ox, oy⟩, ⟨w, h⟩⟩ }

/-! ## Basic drawing (`display.cpp`, lines 177 to 181) -/

/-- `GraphicDisplay::setPixel`. -/
def setPixel (s : GraphicDisplay) (x y : Nat) : GraphicDisplay × List SinkCall :=
  (markDirty s x y 1 1, [SinkCall.setPixel x y])

/-! ## Character drawing (`display.cpp`, lines 141 to 261) -/

/-- `GraphicDisplay::width(uint16_t)`.  A code inside the range whose table
entry is missing would read outside the glyph table; the model has no value
for that. -/
def width (s : GraphicDisplay) (c : Nat) : Option Nat :=
  match s.font with
  | none => some 0
  | some font =>
    if c < font.first then some 0
    else if c > font.last then some 0
    else (font.glyph[c - font.first]?).map fun g => g.xAdvance

/-- The two nested `for` loops of `drawChar` over `y < height` and
`x < width`.  The state threaded through the loops is the `uint16_t` counter
`bitIndex` and the calls issued so far. -/
def drawCharBits (font : GFXfont) (g : GFXglyph) (xo yo : Nat) : List SinkCall :=
  ((List.range g.height).foldl (fun (st : Nat × List SinkCall) y =>
    (List.range g.width).foldl (fun (st : Nat × List SinkCall) x =>
      let bitIndex := st.1
      let b := 0x80 >>> (bitIndex &&& 7)
      let n := ((bitIndex >>> 3) + g.bitmapOffset) % 65536
      let calls :=
        if font.bitmap.getD n 0 &&& b ≠ 0 then
          st.2 ++ [SinkCall.setPixel ((x + xo) % 256) ((y + yo) % 256)]
        else st.2
      ((bitIndex + 1) % 65536, calls)) st) (0, [])).2

/-- `GraphicDisplay::drawChar`.  The result is `none` when the code is inside
`[first, last]` but the glyph table has no such entry (a read outside the
table in the source). -/
def drawChar (s : GraphicDisplay) (c : Nat) : Option (GraphicDisplay × List SinkCall) :=
  match s.font with
  | none => some (s, [])
  | some font =>
    if c < font.first then some (s, [])
    else if c > font.last then some (s, [])
    else
      match font.glyph[c - font.first]? with
      | none => none
      | some g =>
        let xo := toU8 ((s.pos.x : Int) + g.xOffset)
        let yo := toU8 ((s.pos.y : Int) + g.yOffset)
        let s1 := markDirty s xo yo g.width g.height
        some ({ s1 with pos := ⟨(s1.pos.x + g.xAdvance) % 256, s1.pos.y⟩ },
          drawCharBits font g xo yo)

/-! ## Lines (`display.cpp`, lines 274 to 372) -/

/-- The `for (;;)` loop of `lineTo`.  `dx`, `dy` are `uint8_t`, `sx`, `sy`
are `int8_t`, `err` is `int16_t`, `p` is the running point.  The result is
`none` when the fuel runs out before the loop leaves through a `break`. -/
def lineLoop : Nat → Nat → Nat → Int → Int → Int → GDPoint → GDPoint → Option (List SinkCall)
  | 0, _, _, _, _, _, _, _ => none
  | fuel + 1, dx, dy, sx, sy, err, p, pt =>
    let call := SinkCall.setPixel p.x p.y
    let err2 := toI16 (err * 2)
    if err2 ≥ -(dy : Int) ∧ p.x = pt.x then some [call]
    else
      let err1 := if err2 ≥ -(dy : Int) then toI16 (err - dy) else err
      let p1 : GDPoint := if err2 ≥ -(dy : Int) then ⟨toU8 (p.x + sx), p.y⟩ else p
      if err2 ≤ (dx : Int) then
        if p1.y = pt.y then some [call]
        else
          (lineLoop fuel dx dy sx sy (toI16 (err1 + dx)) ⟨p1.x, toU8 (p1.y + sy)⟩ pt).map
            fun rest => call :: rest
      else
        (lineLoop fuel dx dy sx sy err1 p1 pt).map fun rest => call :: rest

/-- Fuel handed to the loop of `lineTo`; every iteration that does not leave
the loop moves the running point, so 512 iterations cover every pair of
`uint8_t` end points. -/
def lineFuel : Nat := 512

/-- `GraphicDisplay::lineTo`. -/
def lineTo (s : GraphicDisplay) (pt : GDPoint) : Option (GraphicDisplay × List SinkCall) :=
  let minx := if pt.x > s.pos.x then s.pos.x else pt.x
  let maxx := if pt.x > s.pos.x then pt.x else s.pos.x
  let miny := if pt.y > s.pos.y then s.pos.y else pt.y
  let maxy := if pt.y > s.pos.y then pt.y else s.pos.y
  if pt.x = s.pos.x then
    some ({ markDirty s pt.x miny 1 (toU8 ((maxy : Int) - miny + 1)) with pos := pt },
      [SinkCall.setVBar pt.x miny maxy])
  else if pt.y = s.pos.y then
    some ({ markDirty s minx pt.y (toU8 ((maxx : Int) - minx + 1)) 1 with pos := pt },
      [SinkCall.setHBar minx maxx pt.y])
  else
    let s1 := markDirty s minx miny (toU8 ((maxx : Int) - minx + 1))
      (toU8 ((maxy : Int) - miny + 1))
    let dx := if pt.x > s.pos.x then pt.x - s.pos.x else s.pos.x - pt.x
    let sx : Int := if pt.x > s.pos.x then 1 else -1
    let dy := if pt.y > s.pos.y then pt.y - s.pos.y else s.pos.y - pt.y
    let sy : Int := if pt.y > s.pos.y then 1 else -1
    let err := toI16 ((dx : Int) - dy)
    (lineLoop lineFuel dx dy sx sy err s.pos pt).map fun calls =>
      ({ s1 with pos := pt }, calls)

/-! ## Rectangles (`display.cpp`, lines 379 to 421) -/

/-- `GraphicDisplay::paintRect`.  The loop `for (x = origin.x; x < right; ++x)`
runs over the columns `origin.x, ..., right - 1` (none when
`right <= origin.x`); `x` stays below `right <= 255`, so `++x` never wraps. -/
def paintRect (s : GraphicDisplay) (r : GDRect) : GraphicDisplay × List SinkCall :=
  let right := (r.origin.x + r.size.width) % 256
  let bottom := toU8 ((r.origin.y : Int) + r.size.height - 1)
  let calls := (List.range' r.origin.x (right - r.origin.x)).map fun x =>
    SinkCall.setVBar x r.origin.y bottom
  (markDirty s r.origin.x r.origin.y r.size.width r.size.height, calls)

/-- `GraphicDisplay::frameRect`. -/
def frameRect (s : GraphicDisplay) (r : GDRect) : GraphicDisplay × List SinkCall :=
  if r.size.width = 0 ∨ r.size.height = 0 then (s, [])
  else
    let s1 := markDirty s r.origin.x r.origin.y r.size.width r.size.height
    if r.size.width = 1 then
      (s1, [SinkCall.setVBar r.origin.x r.origin.y
        (toU8 ((r.origin.y : Int) + r.size.height - 1))])
    else if r.size.height = 1 then
      (s1, [SinkCall.setHBar r.origin.x (toU8 ((r.origin.x : Int) + r.size.width - 1))
        r.origin.y])
    else
      let bottom := toU8 ((r.origin.y : Int) + r.size.height - 1)
      let right := toU8 ((r.origin.x : Int) + r.size.width)
      let sides := [SinkCall.setVBar r.origin.x r.origin.y bottom,
        SinkCall.setVBar (toU8 ((right : Int) - 1)) r.origin.y bottom]
      if r.size.width > 2 then
        (s1, sides ++
          [SinkCall.setHBar (toU8 ((r.origin.x : Int) + 1)) (toU8 ((right : Int) - 2)) r.origin.y,
           SinkCall.setHBar (toU8 ((r.origin.x : Int) + 1)) (toU8 ((right : Int) - 2)) bottom])
      else (s1, sides)

/-! ## Ovals (`display.cpp`, lines 428 to 544) -/

/-- The locals of the oval loops that change while they run: the `uint8_t`
values `x0`, `y0`, `x1`, `y1` and the `int32_t` values `dx`, `dy`, `err`. -/
structure OvalState where
  x0 : Nat
  y0 : Nat
  x1 : Nat
  y1 : Nat
  dx : Int
  dy : Int
  err : Int
deriving DecidableEq

/-- The locals after the preflight block shared by `frameOval` and
`paintOval`; `a` and `b1` are the values after `a *= 8 * a; b1 = 8 * b * b`. -/
def ovalInit (r : GDRect) : OvalState × Int × Int :=
  let x0 := r.origin.x
  let y0 := r.origin.y
  let x1 := (x0 + r.size.width) % 256
  let a : Int := r.size.width
  let b : Int := r.size.height
  let b1 : Int := b % 2
  let dx := toI32 (4 * (1 - a) * b * b)
  let dy := toI32 (4 * (b1 + 1) * a * a)
  let err := toI32 (dx + dy + b1 * a * a)
  let y0 := toU8 ((y0 : Int) + (b + 1) / 2)
  let y1 := toU8 ((y0 : Int) - b1)
  (⟨x0, y0, x1, y1, dx, dy, err⟩, toI32 (a * (8 * a)), toI32 (8 * b * b))

/-- The error update at the end of the body of the first oval loop. -/
def ovalStep (a b1 : Int) (st : OvalState) : OvalState :=
  let e2 := toI32 (2 * st.err)
  let st1 : OvalState :=
    if e2 ≤ st.dy then
      { st with
        y0 := (st.y0 + 1) % 256
        y1 := toU8 ((st.y1 : Int) - 1)
        dy := toI32 (st.dy + a)
        err := toI32 (st.err + toI32 (st.dy + a)) }
    else st
  if e2 ≥ st1.dx ∨ toI32 (2 * st1.err) > st1.dy then
    { st1 with
      x0 := (st1.x0 + 1) % 256
      x1 := toU8 ((st1.x1 : Int) - 1)
      dx := toI32 (st1.dx + b1)
      err := toI32 (st1.err + toI32 (st1.dx + b1)) }
  else st1

/-- The loop `do ... while (x0 <= x1)` of `frameOval`; returns the calls and
the locals on exit, `none` when the fuel runs out. -/
def frameOvalLoop : Nat → Int → Int → OvalState → Option (List SinkCall × OvalState)
  | 0, _, _, _ => none
  | fuel + 1, a, b1, st =>
    let calls := [SinkCall.setPixel st.x1 st.y0, SinkCall.setPixel st.x0 st.y0,
      SinkCall.setPixel st.x0 st.y1, SinkCall.setPixel st.x1 st.y1]
    let st1 := ovalStep a b1 st
    if st1.x0 ≤ st1.x1 then
      (frameOvalLoop fuel a b1 st1).map fun res => (calls ++ res.1, res.2)
    else some (calls, st1)

/-- The loop `while (y0 - y1 <= b)` of `frameOval`. -/
def frameOvalTail : Nat → Int → OvalState → Option (List SinkCall)
  | 0, _, _ => none
  | fuel + 1, b, st =>
    if (st.y0 : Int) - st.y1 ≤ b then
      let calls := [SinkCall.setPixel (toU8 ((st.x0 : Int) - 1)) st.y0,
        SinkCall.setPixel (toU8 ((st.x1 : Int) + 1)) st.y0,
        SinkCall.setPixel (toU8 ((st.x0 : Int) - 1)) st.y1,
        SinkCall.setPixel (toU8 ((st.x1 : Int) + 1)) st.y1]
      (frameOvalTail fuel b
        { st with y0 := (st.y0 + 1) % 256, y1 := toU8 ((st.y1 : Int) - 1) }).map
        fun rest => calls ++ rest
    else some []

/-- Fuel handed to each loop of the oval and corner routines. -/
def curveFuel : Nat := 1024

/-- `GraphicDisplay::frameOval`. -/
def frameOval (s : GraphicDisplay) (r : GDRect) : Option (GraphicDisplay × List SinkCall) :=
  if r.size.width = 0 ∨ r.size.height = 0 then some (s, [])
  else
    let s1 := markDirty s r.origin.x r.origin.y r.size.width r.size.height
    let init := ovalInit r
    (frameOvalLoop curveFuel init.2.1 init.2.2 init.1).bind fun res =>
      (frameOvalTail curveFuel r.size.height res.2).map fun rest =>
        (s1, res.1 ++ rest)

/-- The loop `do ... while (x0 <= x1)` of `paintOval`. -/
def paintOvalLoop : Nat → Int → Int → OvalState → Option (List SinkCall × OvalState)
  | 0, _, _, _ => none
  | fuel + 1, a, b1, st =>
    let calls := [SinkCall.setVBar st.x0 st.y1 st.y0, SinkCall.setVBar st.x1 st.y1 st.y0]
    let st1 := ovalStep a b1 st
    if st1.x0 ≤ st1.x1 then
      (paintOvalLoop fuel a b1 st1).map fun res => (calls ++ res.1, res.2)
    else some (calls, st1)

/-- The loop `while (y0 - y1 <= b)` of `paintOval`. -/
def paintOvalTail : Nat → Int → OvalState → Option (List SinkCall)
  | 0, _, _ => none
  | fuel + 1, b, st =>
    if (st.y0 : Int) - st.y1 ≤ b then
      let calls := [SinkCall.setVBar (toU8 ((st.x0 : Int) - 1)) st.y1 st.y0,
        SinkCall.setVBar (toU8 ((st.x1 : Int) + 1)) st.y1 st.y0]
      (paintOvalTail fuel b
        { st with y0 := (st.y0 + 1) % 256, y1 := toU8 ((st.y1 : Int) - 1) }).map
        fun rest => calls ++ rest
    else some []

/-- `GraphicDisplay::paintOval`. -/
def paintOval (s : GraphicDisplay) (r : GDRect) : Option (GraphicDisplay × List SinkCall) :=
  if r.size.width = 0 ∨ r.size.height = 0 then some (s, [])
  else
    let s1 := markDirty s r.origin.x r.origin.y r.size.width r.size.height
    let init := ovalInit r
    (paintOvalLoop curveFuel init.2.1 init.2.2 init.1).bind fun res =>
      (paintOvalTail curveFuel r.size.height res.2).map fun rest =>
        (s1, res.1 ++ rest)

/-! ## Rounded rectangles (`display.cpp`, lines 551 to 644) -/

/-- The calls of one pass through the body of the loop of `drawCorner`: bit 4
of `cmask` selects vertical runs instead of pixels, bits 0 to 3 select the
quadrants. -/
def cornerCalls (xm ym cmask : Nat) (x y : Int) : List SinkCall :=
  if cmask &&& 0x10 ≠ 0 then
    (if cmask &&& 1 ≠ 0 then
      [SinkCall.setVBar (toU8 ((xm : Int) - x)) ym (toU8 ((ym : Int) + y))] else []) ++
    (if cmask &&& 2 ≠ 0 then
      [SinkCall.setVBar (toU8 ((xm : Int) - y)) ym (toU8 ((ym : Int) - x))] else []) ++
    (if cmask &&& 4 ≠ 0 then
      [SinkCall.setVBar (toU8 ((xm : Int) + x)) (toU8 ((ym : Int) - y)) ym] else []) ++
    (if cmask &&& 8 ≠ 0 then
      [SinkCall.setVBar (toU8 ((xm : Int) + y)) (toU8 ((ym : Int) + x)) ym] else [])
  else
    (if cmask &&& 1 ≠ 0 then
      [SinkCall.setPixel (toU8 ((xm : Int) - x)) (toU8 ((ym : Int) + y))] else []) ++
    (if cmask &&& 2 ≠ 0 then
      [SinkCall.setPixel (toU8 ((xm : Int) - y)) (toU8 ((ym : Int) - x))] else []) ++
    (if cmask &&& 4 ≠ 0 then
      [SinkCall.setPixel (toU8 ((xm : Int) + x)) (toU8 ((ym : Int) - y))] else []) ++
    (if cmask &&& 8 ≠ 0 then
      [SinkCall.setPixel (toU8 ((xm : Int) + y)) (toU8 ((ym : Int) + x))] else [])

/-- The loop `do ... while (x <= 0)` of `drawCorner`; `x`, `y` and `err` are
`int8_t`.  The result is `none` when the fuel runs out. -/
def drawCornerLoop : Nat → Nat → Nat → Nat → Int → Int → Int → Option (List SinkCall)
  | 0, _, _, _, _, _, _ => none
  | fuel + 1, xm, ym, cmask, x, y, err =>
    let calls := cornerCalls xm ym cmask x y
    let tmp := err
    let y1 := if tmp ≤ y then toI8 (y + 1) else y
    let err1 := if tmp ≤ y then toI8 (err + (y1 * 2 + 1)) else err
    let x1 := if tmp > x ∨ err1 > y1 then toI8 (x + 1) else x
    let err2 := if tmp > x ∨ err1 > y1 then toI8 (err1 + (x1 * 2 + 1)) else err1
    if x1 ≤ 0 then
      (drawCornerLoop fuel xm ym cmask x1 y1 err2).map fun rest => calls ++ rest
    else some calls

/-- `GraphicDisplay::drawCorner`. -/
def drawCorner (xm ym r cmask : Nat) : Option (List SinkCall) :=
  drawCornerLoop curveFuel xm ym cmask (toI8 (-(r : Int))) 0 (toI8 (2 - 2 * (r : Int)))

/-- The clamp at the head of both rounded rectangle routines. -/
def clampCorner (r : GDRect) (corner : Nat) : Nat :=
  let maxr := if r.size.width > r.size.height then r.size.height else r.size.width
  let maxr := maxr >>> 1
  if corner > maxr then maxr else corner

/-- `GraphicDisplay::frameRoundRect`.  The routine never touches the data
members of the display, so only the calls are returned with the state. -/
def frameRoundRect (s : GraphicDisplay) (r : GDRect) (corner : Nat) :
    Option (GraphicDisplay × List SinkCall) :=
  let corner := clampCorner r corner
  let ox : Int := r.origin.x
  let oy : Int := r.origin.y
  let w : Int := r.size.width
  let h : Int := r.size.height
  let c : Int := corner
  (drawCorner (toU8 (ox + c)) (toU8 (oy + c)) corner 0x04).bind fun c1 =>
  (drawCorner (toU8 (ox + w - c - 1)) (toU8 (oy + c)) corner 0x08).bind fun c2 =>
  (drawCorner (toU8 (ox + w - c - 1)) (toU8 (oy + h - c - 1)) corner 0x01).bind fun c3 =>
  (drawCorner (toU8 (ox + c)) (toU8 (oy + h - c - 1)) corner 0x02).map fun c4 =>
    (s,
      c1 ++ [SinkCall.setHBar (toU8 (ox + c + 1)) (toU8 (ox + w - c - 2)) r.origin.y] ++
      c2 ++ [SinkCall.setVBar (toU8 (ox + w - 1)) (toU8 (oy + c + 1)) (toU8 (oy + h - c - 2))] ++
      c3 ++ [SinkCall.setHBar (toU8 (ox + c + 1)) (toU8 (ox + w - c - 2)) (toU8 (oy + h - 1))] ++
      c4 ++ [SinkCall.setVBar r.origin.x (toU8 (oy + c + 1)) (toU8 (oy + h - c - 2))])

/-- `GraphicDisplay::paintRoundRect`. -/
def paintRoundRect (s : GraphicDisplay) (r : GDRect) (corner : Nat) :
    Option (GraphicDisplay × List SinkCall) :=
  let corner := clampCorner r corner
  let ox : Int := r.origin.x
  let oy : Int := r.origin.y
  let w : Int := r.size.width
  let h : Int := r.size.height
  let c : Int := corner
  (drawCorner (toU8 (ox + c)) (toU8 (oy + c)) corner 0x14).bind fun c1 =>
  (drawCorner (toU8 (ox + w - c - 1)) (toU8 (oy + c)) corner 0x18).bind fun c2 =>
  (drawCorner (toU8 (ox + w - c - 1)) (toU8 (oy + h - c - 1)) corner 0x11).bind fun c3 =>
  (drawCorner (toU8 (ox + c)) (toU8 (oy + h - c - 1)) corner 0x12).map fun c4 =>
    let p1 := paintRect s
      ⟨⟨r.origin.x, toU8 (oy + c + 1)⟩, ⟨r.size.width, toU8 (h - c * 2 - 2)⟩⟩
    let p2 := paintRect p1.1
      ⟨⟨toU8 (ox + c + 1), r.origin.y⟩, ⟨toU8 (w - c * 2 - 2), toU8 (c + 1)⟩⟩
    let p3 := paintRect p2.1
      ⟨⟨toU8 (ox + c + 1), toU8 (oy + h - c - 1)⟩, ⟨toU8 (w - c * 2 - 2), toU8 (c + 1)⟩⟩
    (p3.1, c1 ++ c2 ++ c3 ++ c4 ++ p1.2 ++ p2.2 ++ p3.2)

end GraphicDisplay

/-! ## The SSD1306 frame buffer (`ssd1306.cpp`, lines 294 to 426) -/

/-- The drawing mode `GL_BLACK`. -/
def GL_BLACK : Nat := 0

/-- The drawing mode `GL_WHITE`. -/
def GL_WHITE : Nat := 1

/-- The drawing mode `GL_XOR`. -/
def GL_XOR : Nat := 2

/-- The constant `SSD1306_WIDTH`. -/
def SSD1306_WIDTH : Nat := 128

/-- The constant `SSD1306_NUMPAGES`. -/
def SSD1306_NUMPAGES : Nat := 8

/-- The constant `SSD1306_MEMORY`. -/
def SSD1306_MEMORY : Nat := 1024

/-- The data members of `SSD1306`: the inherited `GraphicDisplay` members, the
`display` byte array and the drawing `mode`. -/
structure SSD1306 where
  gd : GraphicDisplay
  display : List Nat
  mode : Nat
deriving DecidableEq

namespace SSD1306

/-- The `switch (mode)` that occurs in every drawing routine of the backend,
applied to the old value of the byte: `&= ~mask` for `GL_BLACK`, `^= mask`
for `GL_XOR` and `|= mask` for `GL_WHITE` and for every other mode value (the
`default` label).  The array element is a `uint8_t`, so of `~mask` only the
low eight bits count. -/
def blend (mode old mask : Nat) : Nat :=
  match mode with
  | 0 => old &&& (255 ^^^ mask)
  | 2 => old ^^^ mask
  | _ => old ||| mask

/-- The statement `switch (mode) ...` on `display[offset]`.  A write at an
offset outside the array has no defined meaning in the source and leaves the
list unchanged. -/
def applyMask (mode : Nat) (display : List Nat) (offset mask : Nat) : List Nat :=
  display.set offset (blend mode (display.getD offset 0) mask)

/-- The byte offset `x + page * SSD1306_WIDTH` of column `x` in the page of
row `y`. -/
def pixelOffset (x y : Nat) : Nat :=
  (x + ((SSD1306_NUMPAGES - 1) &&& (y >>> 3)) * SSD1306_WIDTH) % 65536

/-- The mask `1 << (0x07 & y)` stored in a `uint8_t`. -/
def pixelBit (y : Nat) : Nat := (1 <<< (0x07 &&& y)) % 256

/-- `SSD1306::setPixelInternal`. -/
def setPixelInternal (mode : Nat) (display : List Nat) (x y : Nat) : List Nat :=
  applyMask mode display (pixelOffset x y) (pixelBit y)

/-- The writes of `SSD1306::setVBarInternal` as pairs of offset and mask, in
the order of the source: one write when both ends lie in the same page,
otherwise the top page, the bottom page and then the pages strictly between
them (the loop `for (i = pageTop + 1; i < pageBottom; ++i)`). -/
def setVBarWrites (x top bottom : Nat) : List (Nat × Nat) :=
  let pageTop := (SSD1306_NUMPAGES - 1) &&& (top >>> 3)
  let pageBottom := (SSD1306_NUMPAGES - 1) &&& (bottom >>> 3)
  let topPattern := (0xFF <<< (top &&& 0x07)) % 256
  let bottomPattern := toU8 (((0x02 <<< (bottom &&& 0x07) : Nat) : Int) - 1)
  if pageTop = pageBottom then
    [((x + pageTop * SSD1306_WIDTH) % 65536, topPattern &&& bottomPattern)]
  else
    [((x + pageTop * SSD1306_WIDTH) % 65536, topPattern),
     ((x + pageBottom * SSD1306_WIDTH) % 65536, bottomPattern)] ++
    (List.range' (pageTop + 1) (pageBottom - (pageTop + 1))).map fun i =>
      ((x + i * SSD1306_WIDTH) % 65536, 0xFF)

/-- `SSD1306::setVBarInternal`. -/
def setVBarInternal (mode : Nat) (display : List Nat) (x top bottom : Nat) : List Nat :=
  (setVBarWrites x top bottom).foldl (fun d w => applyMask mode d w.1 w.2) display

/-- The loop `do ... while (i++ < right)` of `SSD1306::setHBarInternal`: the
body writes at `offset` and advances it; the test compares the old value of
the `uint8_t` counter `i` with `right` and then increments it.  The counter
strictly increases towards `right <= 255`, so the 256 iterations handed over
by `setHBarInternal` are never used up. -/
def setHBarLoop (mode bit right : Nat) : Nat → Nat → Nat → List Nat → List Nat
  | 0, _, _, display => display
  | fuel + 1, i, offset, display =>
    let d1 := applyMask mode display offset bit
    if i < right then setHBarLoop mode bit right fuel ((i + 1) % 256) ((offset + 1) % 65536) d1
    else d1

/-- `SSD1306::setHBarInternal`. -/
def setHBarInternal (mode : Nat) (display : List Nat) (left right y : Nat) : List Nat :=
  setHBarLoop mode (pixelBit y) right 256 left (pixelOffset left y) display

/-- The backend routine a call of a virtual function dispatches to. -/
def apply (mode : Nat) (display : List Nat) : SinkCall → List Nat
  | .setPixel x y => setPixelInternal mode display x y
  | .setHBar left right y => setHBarInternal mode display left right y
  | .setVBar x top bottom => setVBarInternal mode display x top bottom

/-- The frame buffer after a sequence of calls. -/
def run (mode : Nat) (display : List Nat) (calls : List SinkCall) : List Nat :=
  calls.foldl (apply mode) display

/-- The device after an engine operation that returned the new engine state and
the calls it issued. -/
def exec (dev : SSD1306) (res : GraphicDisplay × List SinkCall) : SSD1306 :=
  { dev with gd := res.1, display := run dev.mode dev.display res.2 }

/-- The device after an engine operation that may fail to return. -/
def exec? (dev : SSD1306) (res : Option (GraphicDisplay × List SinkCall)) : Option SSD1306 :=
  res.map dev.exec

/-- `SSD1306::clear`: `memset(display, 0, SSD1306_MEMORY)` and `invalidate()`. -/
def clear (dev : SSD1306) : SSD1306 :=
  { dev with gd := dev.gd.invalidate, display := List.replicate SSD1306_MEMORY 0 }

/-- The device right after construction (`mode = GL_WHITE`, cursor at the
origin, the whole display dirty) with a cleared frame buffer. -/
def blank : SSD1306 :=
  { gd := GraphicDisplay.invalidate ⟨none, ⟨0, 0⟩, ⟨128, 64⟩, ⟨⟨0, 0⟩, ⟨0, 0⟩⟩⟩
    display := List.replicate SSD1306_MEMORY 0
    mode := GL_WHITE }

/-- Value of the pixel `(x, y)` in the frame buffer: bit `y mod 8` of the byte
at `x + (y / 8) * 128`. -/
def pixel (display : List Nat) (x y : Nat) : Bool :=
  (display.getD (x + (y / 8) * 128) 0).testBit (y % 8)

end SSD1306

/-- The call addresses only pixels of the 128x64 display, and the first end of a
run is not beyond its second end. -/
def SinkCall.inDisplay : SinkCall → Bool
  | .setPixel x y => decide (x < 128 ∧ y < 64)
  | .setHBar left right y => decide (left ≤ right ∧ right < 128 ∧ y < 64)
  | .setVBar x top bottom => decide (x < 128 ∧ top ≤ bottom ∧ bottom < 64)

/-- The rectangle lies inside the 128x64 display. -/
def GDRect.inDisplay (r : GDRect) : Bool :=
  decide (r.origin.x + r.size.width ≤ 128 ∧ r.origin.y + r.size.height ≤ 64)

/-- The point is a pixel of the 128x64 display. -/
def GDPoint.inDisplay (p : GDPoint) : Bool :=
  decide (p.x < 128 ∧ p.y < 64)

/-- Pixel `(px, py)` lies on the outer ring of the rectangle: inside it and in
its first or last column or its first or last row. -/
def GDRect.onBorder (r : GDRect) (px py : Nat) : Bool :=
  r.contains px py &&
    decide (px = r.origin.x ∨ px + 1 = r.origin.x + r.size.width ∨
      py = r.origin.y ∨ py + 1 = r.origin.y + r.size.height)

/-- The inherited `validate()` on the device. -/
def SSD1306.validate (dev : SSD1306) : SSD1306 :=
  { dev with gd := dev.gd.validate }

/-- The inherited `moveTo(pt)` on the device (`pos = pt`). -/
def SSD1306.moveTo (dev : SSD1306) (pt : GDPoint) : SSD1306 :=
  { dev with gd := { dev.gd with pos := pt } }

/-- What the loop of `lineTo` returns when started `a` steps in `x` and `b`
steps in `y` away from the target `t`: the pixels from the running point to
the target, each `a1 <= a` and `b1 <= b` steps away from the target. -/
def GraphicDisplay.LineRun (sx sy : Int) (t : GDPoint) (a b : Nat) (q : GDPoint) (calls : List SinkCall) :
    Prop :=
  calls.head? = some (SinkCall.setPixel q.x q.y) ∧
  calls.getLast? = some (SinkCall.setPixel t.x t.y) ∧
  ∀ c ∈ calls, ∃ x y a1 b1, c = SinkCall.setPixel x y ∧ a1 ≤ a ∧ b1 ≤ b ∧
    (x : Int) = t.x - sx * a1 ∧ (y : Int) = t.y - sy * b1

/-- The rectangle is the smallest axis-aligned box containing every pixel the
calls address: it contains them all, and every rectangle that contains them
all contains it. -/
def IsBoundingBox (calls : List SinkCall) (r : GDRect) : Prop :=
  (∀ px py, covered calls px py = true → r.contains px py = true) ∧
  ∀ r2 : GDRect, (∀ px py, covered calls px py = true → r2.contains px py = true) →
    ∀ px py, r.contains px py = true → r2.contains px py = true

/-- A drawing call of the public interface, with its arguments. -/
inductive DrawCall where
  | setPixel (x y : Nat)
  | lineTo (pt : GDPoint)
  | paintRect (r : GDRect)
  | frameRect (r : GDRect)
  | paintRoundRect (r : GDRect) (corner : Nat)
  | drawChar (c : Nat)
deriving DecidableEq

/-- The engine routine a drawing call stands for. -/
def DrawCall.run (s : GraphicDisplay) : DrawCall → Option (GraphicDisplay × List SinkCall)
  | .setPixel x y => some (s.setPixel x y)
  | .lineTo pt => s.lineTo pt
  | .paintRect r => some (s.paintRect r)
  | .frameRect r => some (s.frameRect r)
  | .paintRoundRect r corner => s.paintRoundRect r corner
  | .drawChar c => s.drawChar c

/-- The arguments of the call lie inside the 128x64 display: the pixel, the
cursor and the target of a line, the rectangle (for `paintRect` with width
and height at least 1, for `paintRoundRect` with width and height at least
`2 * corner + 3`), the render box of the glyph placed at the cursor.  A code
inside the range of the font must have its entry in the glyph table. -/
def DrawCall.inDisplay (s : GraphicDisplay) : DrawCall → Prop
  | .setPixel x y => x < 128 ∧ y < 64
  | .lineTo pt => s.pos.inDisplay = true ∧ pt.inDisplay = true
  | .paintRect r => r.inDisplay = true ∧ 1 ≤ r.size.width ∧ 1 ≤ r.size.height
  | .frameRect r => r.inDisplay = true
  | .paintRoundRect r corner =>
    r.inDisplay = true ∧ 2 * corner + 3 ≤ r.size.width ∧ 2 * corner + 3 ≤ r.size.height
  | .drawChar c =>
    match s.font with
    | none => True
    | some font =>
      c < font.first ∨ c > font.last ∨
        ∃ g, font.glyph[c - font.first]? = some g ∧
          0 ≤ (s.pos.x : Int) + g.xOffset ∧ (s.pos.x : Int) + g.xOffset + g.width ≤ 128 ∧
          0 ≤ (s.pos.y : Int) + g.yOffset ∧ (s.pos.y : Int) + g.yOffset + g.height ≤ 64

/-- The call is one of the five that mark exactly the box of the pixels they
write (`drawChar` marks the whole render box of the glyph instead). -/
def DrawCall.marksExactBox : DrawCall → Bool
  | .drawChar _ => false
  | _ => true

/-- A font with the single code 65 used in the examples: a glyph two pixels
wide and two pixels high that advances the cursor by 3 and whose bitmap byte
`0x80` has only the bit of its top left pixel set. -/
def sampleFont : GFXfont :=
  { bitmap := [0x80]
    glyph := [⟨0, 2, 2, 3, 0, 0⟩]
    first := 65
    last := 65
    yAdvance := 8 }

/-- A 128x64 display with `sampleFont`, the cursor at the origin and an empty
dirty rectangle. -/
def sampleDisplay : GraphicDisplay :=
  { font := some sampleFont
    pos := ⟨0, 0⟩
    size := ⟨128, 64⟩
    dirty := ⟨⟨0, 0⟩, ⟨0, 0⟩⟩ }

/-! ## The default run routines (`display.cpp`, lines 55 to 72) -/

/-- The loop `for (uint8_t i = first; i <= last; ++i)` shared by the two
default run routines: the values the counter takes in the body, in order.
The result is `none` when the fuel runs out before the test fails. -/
def barLoop : Nat → Nat → Nat → Option (List Nat)
  | 0, _, _ => none
  | fuel + 1, i, last =>
    if i ≤ last then (barLoop fuel ((i + 1) % 256) last).map fun rest => i :: rest
    else some []

/-- Fuel handed to the default run loops: the counter has 256 values. -/
def barFuel : Nat := 512

/-- `GraphicDisplay::setHBarInternal`, the default of the engine: the calls of
`setPixelInternal` it issues. -/
def GraphicDisplay.setHBarInternal (left right y : Nat) : Option (List SinkCall) :=
  (barLoop barFuel left right).map fun cols => cols.map fun i => SinkCall.setPixel i y

/-- `GraphicDisplay::setVBarInternal`, the default of the engine: the calls of
`setPixelInternal` it issues. -/
def GraphicDisplay.setVBarInternal (x top bottom : Nat) : Option (List SinkCall) :=
  (barLoop barFuel top bottom).map fun rows => rows.map fun i => SinkCall.setPixel x i

/-! ## The writes of the SSD1306 routines -/

/-- The write of `SSD1306::setPixelInternal` as a pair of offset and mask. -/
def SSD1306.setPixelWrites (x y : Nat) : List (Nat × Nat) :=
  [(SSD1306.pixelOffset x y, SSD1306.pixelBit y)]

/-- The writes of `SSD1306::setHBarInternal` as pairs of offset and mask, in
order: the body of the do/while loop runs `right - left + 1` times when
`left <= right` and once otherwise, and each pass advances the offset by one. -/
def SSD1306.setHBarWrites (left right y : Nat) : List (Nat × Nat) :=
  (List.range (right - left + 1)).map fun k =>
    ((SSD1306.pixelOffset left y + k) % 65536, SSD1306.pixelBit y)

/-- The writes of the backend routine a call dispatches to. -/
def SSD1306.writes : SinkCall → List (Nat × Nat)
  | .setPixel x y => SSD1306.setPixelWrites x y
  | .setHBar left right y => SSD1306.setHBarWrites left right y
  | .setVBar x top bottom => SSD1306.setVBarWrites x top bottom

/-- The frame buffer after a list of writes, each the `switch (mode)` statement
on one byte. -/
def SSD1306.writeAll (mode : Nat) (display : List Nat) (ws : List (Nat × Nat)) : List Nat :=
  ws.foldl (fun d w => SSD1306.applyMask mode d w.1 w.2) display

/-- The masks of the writes at offset `j`, combined. -/
def SSD1306.maskAt (ws : List (Nat × Nat)) (j : Nat) : Nat :=
  ws.foldl (fun m w => if w.1 = j then m ||| w.2 else m) 0

/-- Bit `addr` of the bitmap of the font: the bytes are taken in order and the
bits of a byte from the most significant one down. -/
def GFXfont.bitAt (font : GFXfont) (addr : Nat) : Bool :=
  (font.bitmap.getD (addr / 8) 0).testBit (7 - addr % 8)

/-- Every argument of the call is a `uint8_t` value. -/
def SinkCall.isU8 : SinkCall → Bool
  | .setPixel x y => decide (x < 256 ∧ y < 256)
  | .setHBar left right y => decide (left < 256 ∧ right < 256 ∧ y < 256)
  | .setVBar x top bottom => decide (x < 256 ∧ top < 256 ∧ bottom < 256)

/-- The test `font->bitmap[n] & b` of `drawChar` at the value `bitIndex` of its
counter: byte `(bitIndex >> 3) + bitmapOffset`, mask `0x80 >> (bitIndex & 7)`. -/
def GraphicDisplay.glyphBitSet (font : GFXfont) (g : GFXglyph) (bitIndex : Nat) : Bool :=
  decide (font.bitmap.getD (((bitIndex >>> 3) + g.bitmapOffset) % 65536) 0 &&&
    (0x80 >>> (bitIndex &&& 7)) ≠ 0)

/-- The calls of the bit loops of `drawChar` listed row by row: the pixel of
column `x` in row `y` is written when the test succeeds at
`bitIndex = y * width + x`. -/
def GraphicDisplay.drawCharRows (font : GFXfont) (g : GFXglyph) (xo yo : Nat) : List SinkCall :=
  (List.range g.height).flatMap fun y =>
    (List.range g.width).filterMap fun x =>
      if GraphicDisplay.glyphBitSet font g (y * g.width + x) then
        some (SinkCall.setPixel ((x + xo) % 256) ((y + yo) % 256))
      else none

/-- A font whose only glyph, for the code 65, is one pixel wide and high and has
`bitmapOffset = 1`: its bit is the top bit of the second bitmap byte. -/
def offsetFont : GFXfont :=
  { bitmap := [0x00, 0x80]
    glyph := [⟨1, 1, 1, 1, 0, 0⟩]
    first := 65
    last := 65
    yAdvance := 8 }

/-- The pairs `(x, y)` with which the body of the loop of `drawCorner` runs, in
order; the result is `none` when the fuel runs out. -/
def GraphicDisplay.cornerStepsLoop : Nat → Int → Int → Int → Option (List (Int × Int))
  | 0, _, _, _ => none
  | fuel + 1, x, y, err =>
    let tmp := err
    let y1 := if tmp ≤ y then toI8 (y + 1) else y
    let err1 := if tmp ≤ y then toI8 (err + (y1 * 2 + 1)) else err
    let x1 := if tmp > x ∨ err1 > y1 then toI8 (x + 1) else x
    let err2 := if tmp > x ∨ err1 > y1 then toI8 (err1 + (x1 * 2 + 1)) else err1
    if x1 ≤ 0 then
      (GraphicDisplay.cornerStepsLoop fuel x1 y1 err2).map fun rest => (x, y) :: rest
    else some [(x, y)]

/-- The pairs `(x, y)` the loop of `drawCorner` passes through for the radius
`r`. -/
def GraphicDisplay.cornerSteps (r : Nat) : Option (List (Int × Int)) :=
  GraphicDisplay.cornerStepsLoop curveFuel (toI8 (-(r : Int))) 0 (toI8 (2 - 2 * (r : Int)))

/-- Pixel `(px, py)` lies in the box of the columns `x0` to `x1` and the rows
`y0` to `y1`, all four included. -/
def inBox (box : Nat × Nat × Nat × Nat) (px py : Nat) : Prop :=
  box.1 ≤ px ∧ px ≤ box.2.1 ∧ box.2.2.1 ≤ py ∧ py ≤ box.2.2.2

/-- Two boxes with no pixel in common: one lies wholly to one side of the
other. -/
def boxesApart (a b : Nat × Nat × Nat × Nat) : Prop :=
  a.2.1 < b.1 ∨ b.2.1 < a.1 ∨ a.2.2.2 < b.2.2.1 ∨ b.2.2.2 < a.2.2.1

/-- No pixel is addressed by both lists of calls. -/
def DisjointCover (a b : List SinkCall) : Prop :=
  ∀ px py, ¬ (covered a px py = true ∧ covered b px py = true)

/-! ## Text width (`display.cpp`, lines 156 to 163) -/

/-- The loop `while (0 != (c = *str++)) len += width(c)` of
`GraphicDisplay::width(const char *)`; `len` is a `uint8_t`.  The string is the
list of its characters, each as the `uint16_t` value handed to
`width(uint16_t)`; it ends at the first zero, or with the list. -/
def GraphicDisplay.widthLoop (s : GraphicDisplay) : List Nat → Nat → Option Nat
  | [], len => some len
  | c :: str, len =>
    if c = 0 then some len
    else
      match s.width c with
      | none => none
      | some w => GraphicDisplay.widthLoop s str ((len + w) % 256)

/-- `GraphicDisplay::width(const char *)`. -/
def GraphicDisplay.widthStr (s : GraphicDisplay) (str : List Nat) : Option Nat :=
  s.widthLoop str 0

/-- The characters of a string: those before its first zero. -/
def textChars (str : List Nat) : List Nat :=
  str.takeWhile fun c => decide (c ≠ 0)

/-- A font whose only glyph, for the code 32, has no pixels (width and height
0) and advances the cursor by 6. -/
def spaceFont : GFXfont :=
  { bitmap := []
    glyph := [⟨0, 0, 0, 6, 0, 0⟩]
    first := 32
    last := 32
    yAdvance := 8 }

/-! ## Writing the frame buffer to the device (`ssd1306.cpp`, lines 211 to 280) -/

/-- One call `TWIWrite(address, buffer, pos, 1)` followed by the test
`err < 0`.  The transport is given by the values `twi k` its successive calls
return (`k` counts the calls of this flush from 0), stored in the `int8_t`
variable `err`; `sent` lists the payloads written so far.  The result is the
outcome of the test and the extended list. -/
def SSD1306.twiWrite (twi : Nat → Int) (sent : List (List Nat)) (payload : List Nat) :
    Bool × List (List Nat) :=
  (decide (toI8 (twi sent.length) < 0), sent ++ [payload])

/-- The loop `for (x = left; x < right; ++x)` of `writeDisplay` with `n`
columns still to go: `ptr` is the offset of the next byte of `display`, `buf`
holds `buffer[0 .. pos)`.  The result is `false` when a write failed (the
routine returns at once), together with the buffer and the payloads written. -/
def SSD1306.flushRow (twi : Nat → Int) (display : List Nat) :
    Nat → Nat → List Nat → List (List Nat) → Bool × List Nat × List (List Nat)
  | 0, _, buf, sent => (true, buf, sent)
  | n + 1, ptr, buf, sent =>
    let buf1 := if buf.length = 0 then [0x40] else buf
    let buf2 := buf1 ++ [display.getD ptr 0]
    if buf2.length ≥ 32 then
      let w := SSD1306.twiWrite twi sent buf2
      if w.1 then (false, buf2, w.2)
      else SSD1306.flushRow twi display n (ptr + 1) [] w.2
    else SSD1306.flushRow twi display n (ptr + 1) buf2 sent

/-- The loop `for (p = top; p < bottom; ++p)` of `writeDisplay` with `n` pages
still to go.  The result is `false` when a write failed, together with the
payloads written. -/
def SSD1306.flushPages (twi : Nat → Int) (display : List Nat) (left right : Nat) :
    Nat → Nat → List (List Nat) → Bool × List (List Nat)
  | 0, _, sent => (true, sent)
  | n + 1, p, sent =>
    let header := [0, (0xB0 ||| p) % 256, (0x10 ||| (left >>> 4)) % 256,
      (0x00 ||| (0x0F &&& left)) % 256]
    let w := SSD1306.twiWrite twi sent header
    if w.1 then (false, w.2)
    else
      let r := SSD1306.flushRow twi display (right - left) (left + p * SSD1306_WIDTH) [] w.2
      if r.1 = false then (false, r.2.2)
      else if r.2.1.length > 0 then
        let w2 := SSD1306.twiWrite twi r.2.2 r.2.1
        if w2.1 then (false, w2.2)
        else SSD1306.flushPages twi display left right n (p + 1) w2.2
      else SSD1306.flushPages twi display left right n (p + 1) r.2.2

/-- `SSD1306::writeDisplay`: the value returned, the device afterwards and the
payloads of the transport writes in order.  `top`, `bottom`, `left` and `right`
are `uint8_t`; both loops count upwards below a bound of at most 8 and 128, so
their counters do not wrap. -/
def SSD1306.writeDisplay (twi : Nat → Int) (dev : SSD1306) : Bool × SSD1306 × List (List Nat) :=
  if dev.gd.dirty.size.width = 0 ∨ dev.gd.dirty.size.height = 0 then
    (true, dev.validate, [])
  else
    let top := (dev.gd.dirty.origin.y / 8) % 256
    let bottom0 := (1 + (dev.gd.dirty.origin.y + dev.gd.dirty.size.height) / 8) % 256
    let bottom := if bottom0 > SSD1306_NUMPAGES then SSD1306_NUMPAGES else bottom0
    let left := dev.gd.dirty.origin.x
    let right0 := (dev.gd.dirty.origin.x + dev.gd.dirty.size.width) % 256
    let right := if right0 > SSD1306_WIDTH then SSD1306_WIDTH else right0
    let r := SSD1306.flushPages twi dev.display left right (bottom - top) top []
    if r.1 then (true, dev.validate, r.2) else (false, dev, r.2)

/-- What the list of payloads looks like when a flush loop ends: with `ok` every
write so far returned a value that is not negative; without it the last write
returned a negative value and those before it did not. -/
def SSD1306.FlushLog (twi : Nat → Int) (ok : Bool) (sent : List (List Nat)) : Prop :=
  (ok = true → ∀ k, k < sent.length → ¬ toI8 (twi k) < 0) ∧
  (ok = false → 0 < sent.length ∧ (∀ k, k + 1 < sent.length → ¬ toI8 (twi k) < 0) ∧
    toI8 (twi (sent.length - 1)) < 0)

/-! ## Strings (`display.cpp`, lines 256 to 261) -/

/-- The loop `while (0 != (c = *str++)) drawChar(c)` of
`GraphicDisplay::drawString`, with the string given as for `widthLoop`.  The
result is `none` when a call of `drawChar` has none. -/
def GraphicDisplay.drawStringLoop : List Nat → GraphicDisplay →
    Option (GraphicDisplay × List SinkCall)
  | [], s => some (s, [])
  | c :: str, s =>
    if c = 0 then some (s, [])
    else
      match s.drawChar c with
      | none => none
      | some r =>
        (GraphicDisplay.drawStringLoop str r.1).map fun r2 => (r2.1, r.2 ++ r2.2)

/-- `GraphicDisplay::drawString`. -/
def GraphicDisplay.drawString (s : GraphicDisplay) (str : List Nat) :
    Option (GraphicDisplay × List SinkCall) :=
  GraphicDisplay.drawStringLoop str s

/-- The routine `drawChar` applied to each character of a list in order: the
state is handed from one call to the next and the backend calls are
collected. -/
def GraphicDisplay.drawChars (s : GraphicDisplay) (chars : List Nat) :
    Option (GraphicDisplay × List SinkCall) :=
  chars.foldlM (fun acc c => (acc.1.drawChar c).map fun r => (r.1, acc.2 ++ r.2)) (s, [])

/-! ## Properties of sequences of calls -/

/-- Two single pixel calls whose pixels differ by at most 1 in each
coordinate. -/
def SinkCall.adjacent (c d : SinkCall) : Prop :=
  ∃ x y x2 y2 : Nat, c = SinkCall.setPixel x y ∧ d = SinkCall.setPixel x2 y2 ∧
    x ≤ x2 + 1 ∧ x2 ≤ x + 1 ∧ y ≤ y2 + 1 ∧ y2 ≤ y + 1

/-- The call with every coordinate moved by `(dx, dy)`. -/
def SinkCall.shift (dx dy : Nat) : SinkCall → SinkCall
  | .setPixel x y => .setPixel (x + dx) (y + dy)
  | .setHBar left right y => .setHBar (left + dx) (right + dx) (y + dy)
  | .setVBar x top bottom => .setVBar (x + dx) (top + dy) (bottom + dy)

/-- The walk of `drawCorner` computed with unbounded integers: `x = -r`,
`y = 0`, `err = 2 - 2r`, the loop body as in the source without any reduction
to eight bits, `while (x <= 0)`.  The result lists the pairs `(x, y)` the body
runs with. -/
def cornerWalkLoop : Nat → Int → Int → Int → Option (List (Int × Int))
  | 0, _, _, _ => none
  | fuel + 1, x, y, err =>
    let tmp := err
    let y1 := if tmp ≤ y then y + 1 else y
    let err1 := if tmp ≤ y then err + (y1 * 2 + 1) else err
    let x1 := if tmp > x ∨ err1 > y1 then x + 1 else x
    let err2 := if tmp > x ∨ err1 > y1 then err1 + (x1 * 2 + 1) else err1
    if x1 ≤ 0 then (cornerWalkLoop fuel x1 y1 err2).map fun rest => (x, y) :: rest
    else some [(x, y)]

/-- The unbounded walk for the radius `r`. -/
def cornerWalk (r : Nat) : Option (List (Int × Int)) :=
  cornerWalkLoop GraphicDisplay.curveFuel (-(r : Int)) 0 (2 - 2 * (r : Int))

/-! # Properties of the frame buffer -/

namespace SSD1306

theorem and7 (y : Nat) : 0x07 &&& y = y % 8 := by
  rw [Nat.and_comm]
  exact Nat.and_pow_two_sub_one_eq_mod y 3

theorem and7r (y : Nat) : y &&& 0x07 = y % 8 := Nat.and_pow_two_sub_one_eq_mod y 3

theorem page_eq (y : Nat) : (SSD1306_NUMPAGES - 1) &&& (y >>> 3) = (y / 8) % 8 := by
  have h : (SSD1306_NUMPAGES - 1) = 2 ^ 3 - 1 := by decide
  rw [h, Nat.and_comm, Nat.and_pow_two_sub_one_eq_mod, Nat.shiftRight_eq_div_pow]

theorem pixelBit_eq (y : Nat) : pixelBit y = 2 ^ (y % 8) := by
  unfold pixelBit
  rw [and7, Nat.one_shiftLeft]
  have h : y % 8 < 8 := Nat.mod_lt _ (by decide)
  have : 2 ^ (y % 8) < 2 ^ 8 := Nat.pow_lt_pow_right (by decide) h
  exact Nat.mod_eq_of_lt this

theorem pixelOffset_eq (x y : Nat) (hx : x < 256) :
    pixelOffset x y = x + ((y / 8) % 8) * 128 := by
  unfold pixelOffset
  rw [page_eq]
  simp only [SSD1306_WIDTH]
  omega

theorem length_applyMask (mode : Nat) (d : List Nat) (off m : Nat) :
    (applyMask mode d off m).length = d.length := by
  simp [applyMask]

theorem getD_applyMask (mode : Nat) (d : List Nat) (off m j : Nat) :
    (applyMask mode d off m).getD j 0 =
      if j = off ∧ off < d.length then blend mode (d.getD off 0) m
      else d.getD j 0 := by
  unfold applyMask
  simp only [List.getD_eq_getElem?_getD, List.getElem?_set]
  by_cases h : off = j
  · subst h
    by_cases h2 : off < d.length
    · simp [h2]
    · simp [h2]
      have : d[off]? = none := by simp; omega
      simp [this]
  · have h' : ¬ j = off := fun e => h e.symm
    simp [h, h']

theorem blend_white (old m : Nat) : blend GL_WHITE old m = old ||| m := rfl

/-- A set mode write turns on the pixels of its byte selected by the mask. -/
theorem pixel_applyMask_white (d : List Nat) (off m x y : Nat) (hoff : off < d.length) :
    pixel (applyMask GL_WHITE d off m) x y =
      (pixel d x y || (decide (x + (y / 8) * 128 = off) && m.testBit (y % 8))) := by
  unfold pixel
  rw [getD_applyMask, blend_white]
  by_cases h : x + (y / 8) * 128 = off
  · simp [h, hoff]
  · simp [h]

theorem topPattern_testBit : ∀ k, k < 8 → ∀ j, j < 8 →
    ((0xFF <<< k) % 256).testBit j = decide (k ≤ j) := by decide

theorem bottomPattern_testBit : ∀ k, k < 8 → ∀ j, j < 8 →
    (toU8 (((0x02 <<< k : Nat) : Int) - 1)).testBit j = decide (j ≤ k) := by decide

theorem fullPattern_testBit : ∀ j, j < 8 → (0xFF : Nat).testBit j = true := by decide

end SSD1306

namespace SSD1306

/-- Pixels after a sequence of set mode writes. -/
theorem pixel_foldl_white (ws : List (Nat × Nat)) (x y : Nat) :
    ∀ d : List Nat, (∀ w ∈ ws, w.1 < d.length) →
    pixel (ws.foldl (fun d w => applyMask GL_WHITE d w.1 w.2) d) x y =
      (pixel d x y ||
        ws.any fun w => decide (x + (y / 8) * 128 = w.1) && w.2.testBit (y % 8)) := by
  induction ws with
  | nil => intro d _; simp
  | cons w ws ih =>
    intro d h
    have hw : w.1 < d.length := h w (List.mem_cons_self _ _)
    rw [List.foldl_cons, ih]
    · rw [pixel_applyMask_white d w.1 w.2 x y hw, List.any_cons, Bool.or_assoc]
    · intro v hv
      rw [length_applyMask]
      exact h v (List.mem_cons_of_mem _ hv)

theorem length_foldl_applyMask (mode : Nat) (ws : List (Nat × Nat)) :
    ∀ d : List Nat, (ws.foldl (fun d w => applyMask mode d w.1 w.2) d).length = d.length := by
  induction ws with
  | nil => intro d; rfl
  | cons w ws ih => intro d; rw [List.foldl_cons, ih, length_applyMask]

theorem length_setVBarInternal (mode : Nat) (d : List Nat) (x top bottom : Nat) :
    (setVBarInternal mode d x top bottom).length = d.length :=
  length_foldl_applyMask mode _ d

/-- In set mode a vertical run inside the display turns on exactly its pixels. -/
theorem pixel_setVBarInternal_white (d : List Nat) (x top bottom px py : Nat)
    (hlen : d.length = SSD1306_MEMORY) (hx : x < 128) (htb : top ≤ bottom) (hb : bottom < 64)
    (hpx : px < 128) (hpy : py < 64) :
    pixel (setVBarInternal GL_WHITE d x top bottom) px py =
      (pixel d px py || decide (px = x ∧ top ≤ py ∧ py ≤ bottom)) := by
  have hlen' : d.length = 1024 := hlen
  have hpt : (SSD1306_NUMPAGES - 1) &&& (top >>> 3) = top / 8 := by rw [page_eq]; omega
  have hpb : (SSD1306_NUMPAGES - 1) &&& (bottom >>> 3) = bottom / 8 := by rw [page_eq]; omega
  have ht := topPattern_testBit (top % 8) (by omega) (py % 8) (by omega)
  have hbp := bottomPattern_testBit (bottom % 8) (by omega) (py % 8) (by omega)
  have hf := fullPattern_testBit (py % 8) (by omega)
  unfold setVBarInternal
  rw [pixel_foldl_white]
  · congr 1
    unfold setVBarWrites
    simp only [hpt, hpb, and7r, SSD1306_WIDTH]
    by_cases hpg : top / 8 = bottom / 8
    · rw [if_pos hpg]
      simp only [List.any_cons, List.any_nil, Bool.or_false, Nat.testBit_and, ht, hbp]
      rw [Bool.eq_iff_iff]
      simp only [Bool.and_eq_true, decide_eq_true_eq]
      omega
    · rw [if_neg hpg]
      simp only [List.any_append, List.any_cons, List.any_nil, Bool.or_false, List.any_map,
        ht, hbp]
      rw [Bool.eq_iff_iff]
      simp only [Bool.or_eq_true, Bool.and_eq_true, decide_eq_true_eq, List.any_eq_true,
        List.mem_range'_1, List.mem_map, exists_exists_and_eq_and, hf, and_true]
      constructor
      · rintro ((h | h) | ⟨i, hi, h⟩) <;> omega
      · intro h
        by_cases h1 : py / 8 = top / 8
        · left; left; omega
        · by_cases h2 : py / 8 = bottom / 8
          · left; right; omega
          · right; exact ⟨py / 8, by omega, by omega⟩
  · intro w hw
    unfold setVBarWrites at hw
    simp only [hpt, hpb, SSD1306_WIDTH] at hw
    rw [hlen']
    by_cases hpg : top / 8 = bottom / 8
    · rw [if_pos hpg] at hw
      simp only [List.mem_singleton] at hw
      subst hw
      show (x + top / 8 * 128) % 65536 < 1024
      omega
    · rw [if_neg hpg] at hw
      simp only [List.mem_append, List.mem_cons, List.mem_map, List.mem_range'_1,
        List.mem_singleton, List.not_mem_nil, or_false] at hw
      rcases hw with (h | h) | ⟨i, hi, h⟩
      · subst h; show (x + top / 8 * 128) % 65536 < 1024; omega
      · subst h; show (x + bottom / 8 * 128) % 65536 < 1024; omega
      · subst h; show (x + i * 128) % 65536 < 1024; omega

end SSD1306

namespace SSD1306

theorem length_setHBarLoop (mode bit right : Nat) :
    ∀ fuel i offset (d : List Nat),
      (setHBarLoop mode bit right fuel i offset d).length = d.length := by
  intro fuel
  induction fuel with
  | zero => intro i offset d; rfl
  | succ n ih =>
    intro i offset d
    unfold setHBarLoop
    by_cases h : i < right
    · simp only [h, if_true]; rw [ih, length_applyMask]
    · simp only [h, if_false]; rw [length_applyMask]

theorem length_setHBarInternal (mode : Nat) (d : List Nat) (left right y : Nat) :
    (setHBarInternal mode d left right y).length = d.length :=
  length_setHBarLoop _ _ _ _ _ _ _

theorem length_setPixelInternal (mode : Nat) (d : List Nat) (x y : Nat) :
    (setPixelInternal mode d x y).length = d.length :=
  length_applyMask _ _ _ _

/-- The loop of the horizontal run in set mode, started at column `i` of the
row `y`: it turns on the pixels `i, ..., right` of that row and nothing else. -/
theorem pixel_setHBarLoop_white (right y px py : Nat) (hr : right < 128) (hy : y < 64)
    (hpx : px < 128) (hpy : py < 64) :
    ∀ fuel i (d : List Nat), d.length = SSD1306_MEMORY → i ≤ right → right - i < fuel →
      pixel (setHBarLoop GL_WHITE (pixelBit y) right fuel i (i + (y / 8) * 128) d) px py =
        (pixel d px py || decide (i ≤ px ∧ px ≤ right ∧ py = y)) := by
  intro fuel
  induction fuel with
  | zero => intro i d _ _ h; omega
  | succ n ih =>
    intro i d hlen hi hfuel
    have hlen' : d.length = 1024 := hlen
    unfold setHBarLoop
    by_cases h : i < right
    · simp only [h, if_true]
      have e1 : (i + 1) % 256 = i + 1 := by omega
      have e2 : (i + y / 8 * 128 + 1) % 65536 = (i + 1) + y / 8 * 128 := by omega
      rw [e1, e2, ih (i + 1) _ (by rw [length_applyMask]; exact hlen) (by omega) (by omega),
        pixel_applyMask_white _ _ _ _ _ (by omega), pixelBit_eq, Nat.testBit_two_pow,
        Bool.or_assoc]
      congr 1
      rw [Bool.eq_iff_iff]
      simp only [Bool.or_eq_true, Bool.and_eq_true, decide_eq_true_eq]
      omega
    · simp only [h, if_false]
      rw [pixel_applyMask_white _ _ _ _ _ (by omega), pixelBit_eq, Nat.testBit_two_pow]
      congr 1
      rw [Bool.eq_iff_iff]
      simp only [Bool.or_eq_true, Bool.and_eq_true, decide_eq_true_eq]
      omega

/-- In set mode a horizontal run inside the display turns on exactly its
pixels. -/
theorem pixel_setHBarInternal_white (d : List Nat) (left right y px py : Nat)
    (hlen : d.length = SSD1306_MEMORY) (hlr : left ≤ right) (hr : right < 128) (hy : y < 64)
    (hpx : px < 128) (hpy : py < 64) :
    pixel (setHBarInternal GL_WHITE d left right y) px py =
      (pixel d px py || decide (left ≤ px ∧ px ≤ right ∧ py = y)) := by
  unfold setHBarInternal
  have e : pixelOffset left y = left + y / 8 * 128 := by
    rw [pixelOffset_eq left y (by omega)]; omega
  rw [e]
  exact pixel_setHBarLoop_white right y px py hr hy hpx hpy 256 left d hlen hlr (by omega)

/-- In set mode a single pixel write inside the display turns on exactly that
pixel. -/
theorem pixel_setPixelInternal_white (d : List Nat) (x y px py : Nat)
    (hlen : d.length = SSD1306_MEMORY) (hx : x < 128) (hy : y < 64) (hpx : px < 128) :
    pixel (setPixelInternal GL_WHITE d x y) px py =
      (pixel d px py || decide (px = x ∧ py = y)) := by
  have hlen' : d.length = 1024 := hlen
  unfold setPixelInternal
  have e : pixelOffset x y = x + y / 8 * 128 := by
    rw [pixelOffset_eq x y (by omega)]; omega
  rw [e, pixel_applyMask_white _ _ _ _ _ (by omega), pixelBit_eq, Nat.testBit_two_pow]
  congr 1
  rw [Bool.eq_iff_iff]
  simp only [Bool.or_eq_true, Bool.and_eq_true, decide_eq_true_eq]
  omega

end SSD1306

namespace SSD1306

theorem length_apply (mode : Nat) (d : List Nat) (c : SinkCall) :
    (apply mode d c).length = d.length := by
  cases c with
  | setPixel x y => exact length_setPixelInternal _ _ _ _
  | setHBar l r y => exact length_setHBarInternal _ _ _ _ _
  | setVBar x t b => exact length_setVBarInternal _ _ _ _ _

theorem length_run (mode : Nat) (calls : List SinkCall) :
    ∀ d : List Nat, (run mode d calls).length = d.length := by
  induction calls with
  | nil => intro d; rfl
  | cons c cs ih =>
    intro d
    show (run mode (apply mode d c) cs).length = _
    rw [ih, length_apply]

/-- In set mode a call inside the display turns on exactly the pixels it
addresses. -/
theorem pixel_apply_white (d : List Nat) (c : SinkCall) (px py : Nat)
    (hlen : d.length = SSD1306_MEMORY) (hc : c.inDisplay = true)
    (hpx : px < 128) (hpy : py < 64) :
    pixel (apply GL_WHITE d c) px py = (pixel d px py || c.covers px py) := by
  cases c with
  | setPixel x y =>
    simp only [SinkCall.inDisplay, decide_eq_true_eq] at hc
    exact pixel_setPixelInternal_white d x y px py hlen hc.1 hc.2 hpx
  | setHBar l r y =>
    simp only [SinkCall.inDisplay, decide_eq_true_eq] at hc
    exact pixel_setHBarInternal_white d l r y px py hlen hc.1 hc.2.1 hc.2.2 hpx hpy
  | setVBar x t b =>
    simp only [SinkCall.inDisplay, decide_eq_true_eq] at hc
    exact pixel_setVBarInternal_white d x t b px py hlen hc.1 hc.2.1 hc.2.2 hpx hpy

/-- In set mode a sequence of calls inside the display turns on exactly the
pixels the calls address. -/
theorem pixel_run_white (calls : List SinkCall) (px py : Nat) (hpx : px < 128) (hpy : py < 64) :
    ∀ d : List Nat, d.length = SSD1306_MEMORY → (∀ c ∈ calls, c.inDisplay = true) →
      pixel (run GL_WHITE d calls) px py = (pixel d px py || covered calls px py) := by
  induction calls with
  | nil => intro d _ _; simp [run, covered]
  | cons c cs ih =>
    intro d hlen hall
    show pixel (run GL_WHITE (apply GL_WHITE d c) cs) px py = _
    rw [ih _ (by rw [length_apply]; exact hlen) (fun c hc => hall c (List.mem_cons_of_mem _ hc)),
      pixel_apply_white d c px py hlen (hall c (List.mem_cons_self _ _)) hpx hpy]
    simp [covered, Bool.or_assoc]

theorem pixel_blank (px py : Nat) : pixel (List.replicate SSD1306_MEMORY 0) px py = false := by
  unfold pixel
  have : (List.replicate SSD1306_MEMORY 0).getD (px + py / 8 * 128) 0 = 0 := by
    rw [List.getD_eq_getElem?_getD, List.getElem?_replicate]
    split <;> rfl
  rw [this]
  exact Nat.zero_testBit _

end SSD1306

/-! # The claims and the lemmas they rest on -/

/-- C2: `markDirty` on the tracked rectangle `{(5,5),(3,3)}` with the box
`(2,5,1,1)` moves the origin to `x = 2` but keeps the width 3, so the right
edge drops from 8 to 5 and the pixel `(7,5)`, inside before, is outside
afterwards. -/
theorem markDirty_left_extension_drops_right_edge :
    (GraphicDisplay.markDirty ⟨none, ⟨0, 0⟩, ⟨128, 64⟩, ⟨⟨5, 5⟩, ⟨3, 3⟩⟩⟩ 2 5 1 1).dirty
        = ⟨⟨2, 5⟩, ⟨3, 3⟩⟩ ∧
      GDRect.contains ⟨⟨5, 5⟩, ⟨3, 3⟩⟩ 7 5 = true ∧
      (GraphicDisplay.markDirty ⟨none, ⟨0, 0⟩, ⟨128, 64⟩, ⟨⟨5, 5⟩, ⟨3, 3⟩⟩⟩ 2 5 1 1).dirty.contains
        7 5 = false := by
  decide

/-- C7: on the cleared device in set mode, `paintRect` of the rectangle with
origin `(0,8)`, width 1 and height 0 issues the run `setVBarInternal(0, 8, 7)`,
which fills the bytes 0 and 128 of the frame buffer (the pixels `(0,0)` to
`(0,15)`); the dirty rectangle is unchanged. -/
theorem paintRect_zero_height_writes :
    (SSD1306.blank.gd.paintRect ⟨⟨0, 8⟩, ⟨1, 0⟩⟩).2 = [SinkCall.setVBar 0 8 7] ∧
      (SSD1306.blank.exec (SSD1306.blank.gd.paintRect ⟨⟨0, 8⟩, ⟨1, 0⟩⟩)).display.getD 0 0 = 255 ∧
      (SSD1306.blank.exec (SSD1306.blank.gd.paintRect ⟨⟨0, 8⟩, ⟨1, 0⟩⟩)).display.getD 128 0 = 255 ∧
      SSD1306.blank.display.getD 0 0 = 0 ∧
      (SSD1306.blank.exec (SSD1306.blank.gd.paintRect ⟨⟨0, 8⟩, ⟨1, 0⟩⟩)).gd.dirty
        = SSD1306.blank.gd.dirty := by
  decide

/-- C8: for a rectangle of width 0 or height 0, `frameRect`, `frameOval` and
`paintOval` return at their first statement: the device (cursor, dirty
rectangle, font, size, mode and every byte of the frame buffer) is the same
afterwards. -/
theorem degenerate_frame_and_ovals_unchanged (dev : SSD1306) (r : GDRect)
    (h : r.size.width = 0 ∨ r.size.height = 0) :
    dev.exec (dev.gd.frameRect r) = dev ∧
      dev.exec? (dev.gd.frameOval r) = some dev ∧
      dev.exec? (dev.gd.paintOval r) = some dev := by
  refine ⟨?_, ?_, ?_⟩
  · simp [GraphicDisplay.frameRect, h, SSD1306.exec, SSD1306.run]
  · simp [GraphicDisplay.frameOval, h, SSD1306.exec?, SSD1306.exec, SSD1306.run]
  · simp [GraphicDisplay.paintOval, h, SSD1306.exec?, SSD1306.exec, SSD1306.run]

theorem degenerate_frame_and_ovals_unchanged_witness :
    ((⟨⟨3, 4⟩, ⟨0, 5⟩⟩ : GDRect).size.width = 0 ∨ (⟨⟨3, 4⟩, ⟨0, 5⟩⟩ : GDRect).size.height = 0) ∧
      (SSD1306.blank.exec (SSD1306.blank.gd.frameRect ⟨⟨3, 4⟩, ⟨0, 5⟩⟩) = SSD1306.blank ∧
        SSD1306.blank.exec? (SSD1306.blank.gd.frameOval ⟨⟨3, 4⟩, ⟨0, 5⟩⟩) = some SSD1306.blank ∧
        SSD1306.blank.exec? (SSD1306.blank.gd.paintOval ⟨⟨3, 4⟩, ⟨0, 5⟩⟩) = some SSD1306.blank) :=
  ⟨Or.inl rfl, degenerate_frame_and_ovals_unchanged SSD1306.blank ⟨⟨3, 4⟩, ⟨0, 5⟩⟩ (Or.inl rfl)⟩

/-- C9: on the cleared device, `frameRoundRect` of the rectangle with origin
`(10,10)`, width 0 and height 0 (corner 0) issues eight backend calls and turns
on the pixel `(10,10)`; `paintRoundRect` of the same rectangle issues four runs,
turns on the same pixel and, started with an empty dirty rectangle, leaves the
dirty rectangle `{(11,9),(254,1)}`. -/
theorem roundRect_zero_size_writes :
    (SSD1306.blank.gd.frameRoundRect ⟨⟨10, 10⟩, ⟨0, 0⟩⟩ 0).map (fun res => res.2) =
        some [SinkCall.setPixel 10 10, SinkCall.setHBar 11 8 10, SinkCall.setPixel 9 10,
          SinkCall.setVBar 9 11 8, SinkCall.setPixel 9 9, SinkCall.setHBar 11 8 9,
          SinkCall.setPixel 10 9, SinkCall.setVBar 10 11 8] ∧
      (SSD1306.blank.exec? (SSD1306.blank.gd.frameRoundRect ⟨⟨10, 10⟩, ⟨0, 0⟩⟩ 0)).map
        (fun dev => SSD1306.pixel dev.display 10 10) = some true ∧
      SSD1306.pixel SSD1306.blank.display 10 10 = false ∧
      (SSD1306.blank.exec? (SSD1306.blank.gd.paintRoundRect ⟨⟨10, 10⟩, ⟨0, 0⟩⟩ 0)).map
        (fun dev => SSD1306.pixel dev.display 10 10) = some true ∧
      (SSD1306.blank.gd.validate.paintRoundRect ⟨⟨10, 10⟩, ⟨0, 0⟩⟩ 0).map
        (fun res => res.1.dirty) = some ⟨⟨11, 9⟩, ⟨254, 1⟩⟩ := by
  decide

/-- Byte level effect of a set mode pixel write inside the display. -/
theorem SSD1306.setPixelInternal_white_bytes (d : List Nat) (x y : Nat)
    (hlen : d.length = SSD1306_MEMORY) (hx : x < 128) (hy : y < 64) :
    (SSD1306.setPixelInternal GL_WHITE d x y).length = SSD1306_MEMORY ∧
    ((SSD1306.setPixelInternal GL_WHITE d x y).getD (x + (y >>> 3) * 128) 0).testBit (y &&& 7)
      = true ∧
    (∀ i, i ≠ y &&& 7 →
      ((SSD1306.setPixelInternal GL_WHITE d x y).getD (x + (y >>> 3) * 128) 0).testBit i =
        (d.getD (x + (y >>> 3) * 128) 0).testBit i) ∧
    (∀ j, j ≠ x + (y >>> 3) * 128 →
      (SSD1306.setPixelInternal GL_WHITE d x y).getD j 0 = d.getD j 0) := by
  have hsh : y >>> 3 = y / 8 := Nat.shiftRight_eq_div_pow y 3
  have hoff : SSD1306.pixelOffset x y = x + (y >>> 3) * 128 := by
    rw [SSD1306.pixelOffset_eq x y (by omega), hsh]
    omega
  have hbit : y &&& 7 = y % 8 := SSD1306.and7r y
  have hlen' : d.length = 1024 := hlen
  have hlt : x + (y >>> 3) * 128 < d.length := by rw [hsh]; omega
  have hget : ∀ j, (SSD1306.setPixelInternal GL_WHITE d x y).getD j 0 =
      if j = x + (y >>> 3) * 128 then d.getD (x + (y >>> 3) * 128) 0 ||| 2 ^ (y % 8)
      else d.getD j 0 := by
    intro j
    show (SSD1306.applyMask GL_WHITE d (SSD1306.pixelOffset x y) (SSD1306.pixelBit y)).getD j 0 = _
    rw [SSD1306.getD_applyMask, hoff, SSD1306.pixelBit_eq, SSD1306.blend_white]
    simp [hlt]
  refine ⟨?_, ?_, ?_, ?_⟩
  · rw [SSD1306.length_setPixelInternal, hlen]
  · rw [hget, if_pos rfl, hbit, Nat.testBit_or, Nat.testBit_two_pow_self, Bool.or_true]
  · intro i hi
    rw [hget, if_pos rfl, Nat.testBit_or, Nat.testBit_two_pow_of_ne, Bool.or_false]
    rw [hbit] at hi
    exact fun e => hi e.symm
  · intro j hj
    rw [hget, if_neg hj]

/-- C10: for `x < 128` and `y < 64`, `setPixel(x, y)` on a device in set mode
sets bit `y & 7` of the byte at `x + (y >> 3) * 128`, leaves the other bits of
that byte and every other byte as they were, and the array keeps its 1024
bytes. -/
theorem setPixel_framebuffer_mapping (dev : SSD1306) (x y : Nat)
    (hmode : dev.mode = GL_WHITE) (hlen : dev.display.length = SSD1306_MEMORY)
    (hx : x < 128) (hy : y < 64) :
    (dev.exec (dev.gd.setPixel x y)).display.length = SSD1306_MEMORY ∧
    (((dev.exec (dev.gd.setPixel x y)).display.getD (x + (y >>> 3) * 128) 0).testBit (y &&& 7)
      = true) ∧
    (∀ i, i ≠ y &&& 7 →
      ((dev.exec (dev.gd.setPixel x y)).display.getD (x + (y >>> 3) * 128) 0).testBit i =
        (dev.display.getD (x + (y >>> 3) * 128) 0).testBit i) ∧
    (∀ j, j ≠ x + (y >>> 3) * 128 →
      (dev.exec (dev.gd.setPixel x y)).display.getD j 0 = dev.display.getD j 0) := by
  have e : (dev.exec (dev.gd.setPixel x y)).display =
      SSD1306.setPixelInternal GL_WHITE dev.display x y := by
    simp [SSD1306.exec, GraphicDisplay.setPixel, SSD1306.run, SSD1306.apply, hmode]
  rw [e]
  exact SSD1306.setPixelInternal_white_bytes dev.display x y hlen hx hy

theorem setPixel_framebuffer_mapping_witness :
    (SSD1306.blank.mode = GL_WHITE ∧ SSD1306.blank.display.length = SSD1306_MEMORY ∧
      3 < 128 ∧ 10 < 64) ∧
    ((SSD1306.blank.exec (SSD1306.blank.gd.setPixel 3 10)).display.length = SSD1306_MEMORY ∧
    (((SSD1306.blank.exec (SSD1306.blank.gd.setPixel 3 10)).display.getD
      (3 + (10 >>> 3) * 128) 0).testBit (10 &&& 7) = true) ∧
    (∀ i, i ≠ 10 &&& 7 →
      ((SSD1306.blank.exec (SSD1306.blank.gd.setPixel 3 10)).display.getD
        (3 + (10 >>> 3) * 128) 0).testBit i =
        (SSD1306.blank.display.getD (3 + (10 >>> 3) * 128) 0).testBit i) ∧
    (∀ j, j ≠ 3 + (10 >>> 3) * 128 →
      (SSD1306.blank.exec (SSD1306.blank.gd.setPixel 3 10)).display.getD j 0 =
        SSD1306.blank.display.getD j 0)) :=
  ⟨⟨rfl, List.length_replicate _ _, by decide, by decide⟩,
    setPixel_framebuffer_mapping SSD1306.blank 3 10 rfl (List.length_replicate _ _)
      (by decide) (by decide)⟩

theorem toU8_eq (v : Int) (n : Nat) (h : v = n) (hn : n < 256) : toU8 v = n := by
  unfold toU8
  omega

theorem toU8_lt (v : Int) : toU8 v < 256 := by
  unfold toU8
  omega

theorem covers_iff_setVBar (x t b px py : Nat) :
    (SinkCall.setVBar x t b).covers px py = true ↔ px = x ∧ t ≤ py ∧ py ≤ b := by
  simp [SinkCall.covers]

theorem covered_iff (calls : List SinkCall) (px py : Nat) :
    covered calls px py = true ↔ ∃ c ∈ calls, c.covers px py = true := by
  simp [covered]

namespace GraphicDisplay

/-- The dirty rectangle after `markDirty` on an empty one. -/
theorem markDirty_of_empty (s : GraphicDisplay) (left top width height : Nat)
    (he : s.dirty.isEmpty = true) (hw : 1 ≤ width) (hh : 1 ≤ height) :
    (markDirty s left top width height).dirty = ⟨⟨left, top⟩, ⟨width, height⟩⟩ := by
  simp only [GDRect.isEmpty, decide_eq_true_eq] at he
  unfold markDirty
  rw [if_neg (by omega), if_pos he]

/-- The calls of `paintRect` for a non-empty rectangle of the display are the
columns of the rectangle, each a vertical run over its rows. -/
theorem paintRect_calls (s : GraphicDisplay) (r : GDRect) (hh : 1 ≤ r.size.height)
    (hin : r.inDisplay = true) :
    (paintRect s r).2 = (List.range' r.origin.x r.size.width).map fun x =>
      SinkCall.setVBar x r.origin.y (r.origin.y + r.size.height - 1) := by
  simp only [GDRect.inDisplay, decide_eq_true_eq] at hin
  unfold paintRect
  have e1 : (r.origin.x + r.size.width) % 256 - r.origin.x = r.size.width := by omega
  have e2 : toU8 ((r.origin.y : Int) + r.size.height - 1) = r.origin.y + r.size.height - 1 :=
    toU8_eq _ _ (by omega) (by omega)
  simp only [e1, e2]

end GraphicDisplay

/-- C6: for a rectangle `r` of width and height at least 1 inside the display,
`paintRect(r)` on a cleared device in set mode turns on exactly the pixels
`(x, y)` with `origin.x <= x < origin.x + width` and
`origin.y <= y < origin.y + height`, and an empty dirty rectangle becomes `r`. -/
theorem paintRect_fills_rectangle (dev : SSD1306) (r : GDRect)
    (hmode : dev.mode = GL_WHITE) (hblank : dev.display = List.replicate SSD1306_MEMORY 0)
    (hdirty : dev.gd.dirty.isEmpty = true)
    (hw : 1 ≤ r.size.width) (hh : 1 ≤ r.size.height) (hin : r.inDisplay = true) :
    (∀ px py, px < 128 → py < 64 →
      SSD1306.pixel (dev.exec (dev.gd.paintRect r)).display px py = r.contains px py) ∧
    (dev.exec (dev.gd.paintRect r)).display.length = SSD1306_MEMORY ∧
    (dev.exec (dev.gd.paintRect r)).gd.dirty = r := by
  have hin' := hin
  simp only [GDRect.inDisplay, decide_eq_true_eq] at hin'
  refine ⟨?_, ?_, ?_⟩
  · intro px py hpx hpy
    show SSD1306.pixel (SSD1306.run dev.mode dev.display (dev.gd.paintRect r).2) px py = _
    rw [hmode, hblank, SSD1306.pixel_run_white _ px py hpx hpy _ (List.length_replicate _ _),
      SSD1306.pixel_blank, Bool.false_or, GraphicDisplay.paintRect_calls _ r hh hin]
    · rw [Bool.eq_iff_iff, covered_iff]
      simp only [List.mem_map, List.mem_range'_1, exists_exists_and_eq_and, covers_iff_setVBar,
        GDRect.contains, decide_eq_true_eq]
      constructor
      · rintro ⟨x, hx, h⟩; omega
      · intro h; exact ⟨px, by omega, by omega⟩
    · intro c hc
      rw [GraphicDisplay.paintRect_calls _ r hh hin] at hc
      simp only [List.mem_map, List.mem_range'_1] at hc
      obtain ⟨x, hx, rfl⟩ := hc
      simp only [SinkCall.inDisplay, decide_eq_true_eq]
      omega
  · show (SSD1306.run dev.mode dev.display _).length = _
    rw [SSD1306.length_run, hblank]
    exact List.length_replicate _ _
  · show (GraphicDisplay.markDirty dev.gd _ _ _ _).dirty = r
    rw [GraphicDisplay.markDirty_of_empty _ _ _ _ _ hdirty hw hh]

theorem paintRect_fills_rectangle_witness :
    (SSD1306.blank.validate.mode = GL_WHITE ∧
      SSD1306.blank.validate.display = List.replicate SSD1306_MEMORY 0 ∧
      SSD1306.blank.validate.gd.dirty.isEmpty = true ∧
      1 ≤ (⟨⟨2, 3⟩, ⟨4, 10⟩⟩ : GDRect).size.width ∧ 1 ≤ (⟨⟨2, 3⟩, ⟨4, 10⟩⟩ : GDRect).size.height ∧
      (⟨⟨2, 3⟩, ⟨4, 10⟩⟩ : GDRect).inDisplay = true) ∧
    ((∀ px py, px < 128 → py < 64 →
      SSD1306.pixel (SSD1306.blank.validate.exec
        (SSD1306.blank.validate.gd.paintRect ⟨⟨2, 3⟩, ⟨4, 10⟩⟩)).display px py =
        (⟨⟨2, 3⟩, ⟨4, 10⟩⟩ : GDRect).contains px py) ∧
    (SSD1306.blank.validate.exec
        (SSD1306.blank.validate.gd.paintRect ⟨⟨2, 3⟩, ⟨4, 10⟩⟩)).display.length = SSD1306_MEMORY ∧
    (SSD1306.blank.validate.exec
        (SSD1306.blank.validate.gd.paintRect ⟨⟨2, 3⟩, ⟨4, 10⟩⟩)).gd.dirty = ⟨⟨2, 3⟩, ⟨4, 10⟩⟩) :=
  ⟨⟨rfl, rfl, by decide, by decide, by decide, by decide⟩,
    paintRect_fills_rectangle SSD1306.blank.validate
      ⟨⟨2, 3⟩, ⟨4, 10⟩⟩ rfl rfl (by decide) (by decide) (by decide) (by decide)⟩

theorem covers_iff_setHBar (l r y px py : Nat) :
    (SinkCall.setHBar l r y).covers px py = true ↔ l ≤ px ∧ px ≤ r ∧ py = y := by
  simp [SinkCall.covers]

theorem covers_iff_setPixel (x y px py : Nat) :
    (SinkCall.setPixel x y).covers px py = true ↔ px = x ∧ py = y := by
  simp [SinkCall.covers]

namespace GraphicDisplay

/-- The calls of `frameRect` for a non-empty rectangle of the display address
exactly the outer ring of the rectangle, and each lies inside the display. -/
theorem frameRect_calls (s : GraphicDisplay) (r : GDRect)
    (hw : 1 ≤ r.size.width) (hh : 1 ≤ r.size.height) (hin : r.inDisplay = true) :
    (∀ c ∈ (frameRect s r).2, c.inDisplay = true) ∧
    ∀ px py, covered (frameRect s r).2 px py = r.onBorder px py := by
  simp only [GDRect.inDisplay, decide_eq_true_eq] at hin
  have e1 : toU8 ((r.origin.y : Int) + r.size.height - 1) = r.origin.y + r.size.height - 1 :=
    toU8_eq _ _ (by omega) (by omega)
  have e2 : toU8 ((r.origin.x : Int) + r.size.width - 1) = r.origin.x + r.size.width - 1 :=
    toU8_eq _ _ (by omega) (by omega)
  have e3 : toU8 ((r.origin.x : Int) + r.size.width) = r.origin.x + r.size.width :=
    toU8_eq _ _ (by omega) (by omega)
  have e4 : toU8 (((r.origin.x + r.size.width : Nat) : Int) - 1) = r.origin.x + r.size.width - 1 :=
    toU8_eq _ _ (by omega) (by omega)
  have e5 : toU8 ((r.origin.x : Int) + 1) = r.origin.x + 1 :=
    toU8_eq _ _ (by omega) (by omega)
  unfold frameRect
  rw [if_neg (by omega)]
  by_cases h1 : r.size.width = 1
  · rw [if_pos h1]
    simp only [e1, List.mem_singleton, forall_eq, SinkCall.inDisplay, decide_eq_true_eq]
    refine ⟨by omega, fun px py => ?_⟩
    rw [Bool.eq_iff_iff, covered_iff]
    simp only [List.mem_singleton, exists_eq_left, covers_iff_setVBar, GDRect.onBorder,
      GDRect.contains, Bool.and_eq_true, decide_eq_true_eq]
    omega
  · rw [if_neg h1]
    by_cases h2 : r.size.height = 1
    · rw [if_pos h2]
      simp only [e2, List.mem_singleton, forall_eq, SinkCall.inDisplay, decide_eq_true_eq]
      refine ⟨by omega, fun px py => ?_⟩
      rw [Bool.eq_iff_iff, covered_iff]
      simp only [List.mem_singleton, exists_eq_left, covers_iff_setHBar, GDRect.onBorder,
        GDRect.contains, Bool.and_eq_true, decide_eq_true_eq]
      omega
    · rw [if_neg h2]
      by_cases h3 : r.size.width > 2
      · have e6 : toU8 (((r.origin.x + r.size.width : Nat) : Int) - 2)
            = r.origin.x + r.size.width - 2 := toU8_eq _ _ (by omega) (by omega)
        simp only [if_pos h3, e1, e3, e4, e5, e6]
        constructor
        · intro c hc
          simp only [List.cons_append, List.nil_append, List.mem_cons, List.mem_singleton,
            List.not_mem_nil, or_false] at hc
          rcases hc with rfl | rfl | rfl | rfl <;>
            simp only [SinkCall.inDisplay, decide_eq_true_eq] <;> omega
        · intro px py
          rw [Bool.eq_iff_iff]
          simp only [covered, List.cons_append, List.nil_append, List.any_cons, List.any_nil,
            Bool.or_false, Bool.or_eq_true, covers_iff_setVBar, covers_iff_setHBar,
            GDRect.onBorder, GDRect.contains, Bool.and_eq_true, decide_eq_true_eq]
          constructor
          · rintro (h | h | h | h) <;> refine ⟨by omega, ?_⟩ <;> omega
          · rintro ⟨hc, hring⟩
            by_cases ha : px = r.origin.x
            · exact Or.inl (by omega)
            · by_cases hb : px + 1 = r.origin.x + r.size.width
              · exact Or.inr (Or.inl (by omega))
              · by_cases hd : py = r.origin.y
                · exact Or.inr (Or.inr (Or.inl (by omega)))
                · exact Or.inr (Or.inr (Or.inr (by omega)))
      · simp only [if_neg h3, e1, e3, e4]
        constructor
        · intro c hc
          simp only [List.mem_cons, List.mem_singleton, List.not_mem_nil, or_false] at hc
          rcases hc with rfl | rfl <;>
            simp only [SinkCall.inDisplay, decide_eq_true_eq] <;> omega
        · intro px py
          rw [Bool.eq_iff_iff]
          simp only [covered, List.any_cons, List.any_nil,
            Bool.or_false, Bool.or_eq_true, covers_iff_setVBar,
            GDRect.onBorder, GDRect.contains, Bool.and_eq_true, decide_eq_true_eq]
          omega

end GraphicDisplay

/-- C5: for a rectangle `r` of width and height at least 1 inside the display,
`frameRect(r)` on a cleared device in set mode turns on exactly the pixels of
`r` that lie in its first or last column or in its first or last row, and no
other pixel. -/
theorem frameRect_draws_border (dev : SSD1306) (r : GDRect)
    (hmode : dev.mode = GL_WHITE) (hblank : dev.display = List.replicate SSD1306_MEMORY 0)
    (hw : 1 ≤ r.size.width) (hh : 1 ≤ r.size.height) (hin : r.inDisplay = true) :
    (∀ px py, px < 128 → py < 64 →
      SSD1306.pixel (dev.exec (dev.gd.frameRect r)).display px py = r.onBorder px py) ∧
    (dev.exec (dev.gd.frameRect r)).display.length = SSD1306_MEMORY := by
  obtain ⟨hc, hcov⟩ := GraphicDisplay.frameRect_calls dev.gd r hw hh hin
  refine ⟨?_, ?_⟩
  · intro px py hpx hpy
    show SSD1306.pixel (SSD1306.run dev.mode dev.display (dev.gd.frameRect r).2) px py = _
    rw [hmode, hblank, SSD1306.pixel_run_white _ px py hpx hpy _ (List.length_replicate _ _) hc,
      SSD1306.pixel_blank, Bool.false_or, hcov]
  · show (SSD1306.run dev.mode dev.display _).length = _
    rw [SSD1306.length_run, hblank]
    exact List.length_replicate _ _

theorem frameRect_draws_border_witness :
    (SSD1306.blank.mode = GL_WHITE ∧ SSD1306.blank.display = List.replicate SSD1306_MEMORY 0 ∧
      1 ≤ (⟨⟨2, 2⟩, ⟨4, 3⟩⟩ : GDRect).size.width ∧ 1 ≤ (⟨⟨2, 2⟩, ⟨4, 3⟩⟩ : GDRect).size.height ∧
      (⟨⟨2, 2⟩, ⟨4, 3⟩⟩ : GDRect).inDisplay = true) ∧
    ((∀ px py, px < 128 → py < 64 →
      SSD1306.pixel (SSD1306.blank.exec (SSD1306.blank.gd.frameRect ⟨⟨2, 2⟩, ⟨4, 3⟩⟩)).display
        px py = (⟨⟨2, 2⟩, ⟨4, 3⟩⟩ : GDRect).onBorder px py) ∧
    (SSD1306.blank.exec (SSD1306.blank.gd.frameRect ⟨⟨2, 2⟩, ⟨4, 3⟩⟩)).display.length
      = SSD1306_MEMORY) ∧
    (⟨⟨2, 2⟩, ⟨4, 3⟩⟩ : GDRect).onBorder 3 3 = false ∧
    (((List.range 8).flatMap fun py => (List.range 8).filter fun px =>
      (⟨⟨2, 2⟩, ⟨4, 3⟩⟩ : GDRect).onBorder px py).length = 10) :=
  ⟨⟨rfl, rfl, by decide, by decide, by decide⟩,
    frameRect_draws_border SSD1306.blank ⟨⟨2, 2⟩, ⟨4, 3⟩⟩ rfl rfl (by decide) (by decide)
      (by decide), by decide, by decide⟩

namespace GraphicDisplay

/-- The fast paths of `lineTo`: when the target shares a coordinate with the
cursor and both lie in the display, the routine issues one run between the two
points, marks the box of that run and moves the cursor. -/
theorem lineTo_axis (s : GraphicDisplay) (pt : GDPoint)
    (hp : s.pos.inDisplay = true) (ht : pt.inDisplay = true)
    (hax : pt.x = s.pos.x ∨ pt.y = s.pos.y) :
    lineTo s pt = some
      ({ markDirty s (min s.pos.x pt.x) (min s.pos.y pt.y)
            (max s.pos.x pt.x - min s.pos.x pt.x + 1)
            (max s.pos.y pt.y - min s.pos.y pt.y + 1) with pos := pt },
        [if pt.x = s.pos.x then SinkCall.setVBar pt.x (min s.pos.y pt.y) (max s.pos.y pt.y)
         else SinkCall.setHBar (min s.pos.x pt.x) (max s.pos.x pt.x) pt.y]) := by
  simp only [GDPoint.inDisplay, decide_eq_true_eq] at hp ht
  have hminx : (if pt.x > s.pos.x then s.pos.x else pt.x) = min s.pos.x pt.x := by
    split <;> omega
  have hmaxx : (if pt.x > s.pos.x then pt.x else s.pos.x) = max s.pos.x pt.x := by
    split <;> omega
  have hminy : (if pt.y > s.pos.y then s.pos.y else pt.y) = min s.pos.y pt.y := by
    split <;> omega
  have hmaxy : (if pt.y > s.pos.y then pt.y else s.pos.y) = max s.pos.y pt.y := by
    split <;> omega
  have ew : toU8 (((max s.pos.x pt.x : Nat) : Int) - (min s.pos.x pt.x : Nat) + 1)
      = max s.pos.x pt.x - min s.pos.x pt.x + 1 := toU8_eq _ _ (by omega) (by omega)
  have eh : toU8 (((max s.pos.y pt.y : Nat) : Int) - (min s.pos.y pt.y : Nat) + 1)
      = max s.pos.y pt.y - min s.pos.y pt.y + 1 := toU8_eq _ _ (by omega) (by omega)
  unfold lineTo
  simp only [hminx, hmaxx, hminy, hmaxy, ew, eh]
  by_cases hx : pt.x = s.pos.x
  · rw [if_pos hx, if_pos hx]
    have e1 : min s.pos.x pt.x = pt.x := by omega
    have e2 : max s.pos.x pt.x - min s.pos.x pt.x + 1 = 1 := by omega
    rw [e2, e1]
  · have hy : pt.y = s.pos.y := by omega
    rw [if_neg hx, if_pos hy, if_neg hx]
    have e1 : min s.pos.y pt.y = pt.y := by omega
    have e2 : max s.pos.y pt.y - min s.pos.y pt.y + 1 = 1 := by omega
    rw [e2, e1]

end GraphicDisplay

set_option maxRecDepth 20000 in
/-- C4 (as stated): with the cursor at `(0,0)` on a cleared device in set mode,
`lineTo((130,0))` issues the single run `setHBarInternal(0, 130, 0)`; the
backend writes the bytes 0 to 130, so the pixel `(0,8)` (bit 0 of byte 128),
which is not on the run, is turned on.  From the same cursor `lineTo((0,64))`
issues `setVBarInternal(0, 0, 64)`, which turns on the pixel `(0,0)` only: the
pixel `(0,1)` of the run stays off.  And `lineTo((255,0))` passes the width
`255 - 0 + 1`, which is 0 as a `uint8_t`, to `markDirty`: the empty dirty
rectangle stays empty. -/
theorem lineTo_axis_beyond_display_sets_other_pixel :
    ((SSD1306.blank.validate.moveTo ⟨0, 0⟩).gd.lineTo ⟨130, 0⟩).map (fun res => res.2)
        = some [SinkCall.setHBar 0 130 0] ∧
      (SinkCall.setHBar 0 130 0).covers 0 8 = false ∧
      ((SSD1306.blank.validate.moveTo ⟨0, 0⟩).exec?
          ((SSD1306.blank.validate.moveTo ⟨0, 0⟩).gd.lineTo ⟨130, 0⟩)).map
        (fun dev => SSD1306.pixel dev.display 0 8) = some true ∧
      ((SSD1306.blank.validate.moveTo ⟨0, 0⟩).gd.lineTo ⟨0, 64⟩).map (fun res => res.2)
        = some [SinkCall.setVBar 0 0 64] ∧
      (SinkCall.setVBar 0 0 64).covers 0 1 = true ∧
      ((SSD1306.blank.validate.moveTo ⟨0, 0⟩).exec?
          ((SSD1306.blank.validate.moveTo ⟨0, 0⟩).gd.lineTo ⟨0, 64⟩)).map
        (fun dev => SSD1306.pixel dev.display 0 1) = some false ∧
      ((SSD1306.blank.validate.moveTo ⟨0, 0⟩).gd.lineTo ⟨255, 0⟩).map
        (fun res => (res.2, res.1.dirty)) = some ([SinkCall.setHBar 0 255 0], ⟨⟨0, 0⟩, ⟨0, 0⟩⟩) := by
  decide

/-- C4 (amended): when cursor and target both lie inside the 128x64 display and
share the `x` (or the `y`) coordinate, `lineTo` issues exactly one vertical (or
horizontal) run between the two points, both ends included; on a cleared
device in set mode exactly the pixels of that run are on afterwards, an empty
dirty rectangle becomes the bounding box of the run, and the cursor is the
target. -/
theorem lineTo_axis_aligned (dev : SSD1306) (pt : GDPoint)
    (hmode : dev.mode = GL_WHITE) (hblank : dev.display = List.replicate SSD1306_MEMORY 0)
    (hdirty : dev.gd.dirty.isEmpty = true)
    (hp : dev.gd.pos.inDisplay = true) (ht : pt.inDisplay = true)
    (hax : pt.x = dev.gd.pos.x ∨ pt.y = dev.gd.pos.y) :
    ∃ dev1, dev.exec? (dev.gd.lineTo pt) = some dev1 ∧
      (dev.gd.lineTo pt).map (fun res => res.2) = some
        [if pt.x = dev.gd.pos.x then
          SinkCall.setVBar pt.x (min dev.gd.pos.y pt.y) (max dev.gd.pos.y pt.y)
         else SinkCall.setHBar (min dev.gd.pos.x pt.x) (max dev.gd.pos.x pt.x) pt.y] ∧
      (∀ px py, px < 128 → py < 64 →
        SSD1306.pixel dev1.display px py =
          decide (min dev.gd.pos.x pt.x ≤ px ∧ px ≤ max dev.gd.pos.x pt.x ∧
            min dev.gd.pos.y pt.y ≤ py ∧ py ≤ max dev.gd.pos.y pt.y)) ∧
      dev1.display.length = SSD1306_MEMORY ∧
      dev1.gd.dirty = ⟨⟨min dev.gd.pos.x pt.x, min dev.gd.pos.y pt.y⟩,
        ⟨max dev.gd.pos.x pt.x - min dev.gd.pos.x pt.x + 1,
         max dev.gd.pos.y pt.y - min dev.gd.pos.y pt.y + 1⟩⟩ ∧
      dev1.gd.pos = pt := by
  have hline := GraphicDisplay.lineTo_axis dev.gd pt hp ht hax
  simp only [GDPoint.inDisplay, decide_eq_true_eq] at hp ht
  rw [hline]
  refine ⟨_, rfl, rfl, ?_, ?_, ?_, rfl⟩
  · intro px py hpx hpy
    show SSD1306.pixel (SSD1306.run dev.mode dev.display _) px py = _
    rw [hmode, hblank, SSD1306.pixel_run_white _ px py hpx hpy _ (List.length_replicate _ _),
      SSD1306.pixel_blank, Bool.false_or]
    · rw [Bool.eq_iff_iff, covered_iff]
      simp only [List.mem_singleton, exists_eq_left, decide_eq_true_eq]
      by_cases hx : pt.x = dev.gd.pos.x
      · rw [if_pos hx, covers_iff_setVBar]; omega
      · rw [if_neg hx, covers_iff_setHBar]; omega
    · intro c hc
      simp only [List.mem_singleton] at hc
      subst hc
      by_cases hx : pt.x = dev.gd.pos.x
      · rw [if_pos hx]; simp only [SinkCall.inDisplay, decide_eq_true_eq]; omega
      · rw [if_neg hx]; simp only [SinkCall.inDisplay, decide_eq_true_eq]; omega
  · show (SSD1306.run dev.mode dev.display _).length = _
    rw [SSD1306.length_run, hblank]
    exact List.length_replicate _ _
  · show (GraphicDisplay.markDirty dev.gd _ _ _ _).dirty = _
    rw [GraphicDisplay.markDirty_of_empty _ _ _ _ _ hdirty (by omega) (by omega)]

theorem lineTo_axis_aligned_witness :
    ((SSD1306.blank.validate.moveTo ⟨0, 0⟩).mode = GL_WHITE ∧
      (SSD1306.blank.validate.moveTo ⟨0, 0⟩).display = List.replicate SSD1306_MEMORY 0 ∧
      (SSD1306.blank.validate.moveTo ⟨0, 0⟩).gd.dirty.isEmpty = true ∧
      (SSD1306.blank.validate.moveTo ⟨0, 0⟩).gd.pos.inDisplay = true ∧
      (⟨5, 0⟩ : GDPoint).inDisplay = true ∧
      ((⟨5, 0⟩ : GDPoint).x = (SSD1306.blank.validate.moveTo ⟨0, 0⟩).gd.pos.x ∨
        (⟨5, 0⟩ : GDPoint).y = (SSD1306.blank.validate.moveTo ⟨0, 0⟩).gd.pos.y)) ∧
    ∃ dev1, (SSD1306.blank.validate.moveTo ⟨0, 0⟩).exec?
        ((SSD1306.blank.validate.moveTo ⟨0, 0⟩).gd.lineTo ⟨5, 0⟩) = some dev1 ∧
      ((SSD1306.blank.validate.moveTo ⟨0, 0⟩).gd.lineTo ⟨5, 0⟩).map (fun res => res.2) = some
        [SinkCall.setHBar 0 5 0] ∧
      (∀ px py, px < 128 → py < 64 →
        SSD1306.pixel dev1.display px py = decide (0 ≤ px ∧ px ≤ 5 ∧ 0 ≤ py ∧ py ≤ 0)) ∧
      dev1.display.length = SSD1306_MEMORY ∧
      dev1.gd.dirty = ⟨⟨0, 0⟩, ⟨6, 1⟩⟩ ∧
      dev1.gd.pos = ⟨5, 0⟩ :=
  ⟨⟨rfl, rfl, by decide, by decide, by decide, Or.inr rfl⟩,
    lineTo_axis_aligned (SSD1306.blank.validate.moveTo ⟨0, 0⟩) ⟨5, 0⟩ rfl rfl (by decide)
      (by decide) (by decide) (Or.inr rfl)⟩

theorem toI16_eq (v : Int) (h1 : -32768 ≤ v) (h2 : v < 32768) : toI16 v = v := by
  unfold toI16
  omega

namespace GraphicDisplay

theorem LineRun.cons {sx sy : Int} {t : GDPoint} {a b a0 b0 : Nat} {q q0 : GDPoint}
    {calls : List SinkCall} (h : LineRun sx sy t a b q calls) (ha : a ≤ a0) (hb : b ≤ b0)
    (hx : (q0.x : Int) = t.x - sx * a0) (hy : (q0.y : Int) = t.y - sy * b0) :
    LineRun sx sy t a0 b0 q0 (SinkCall.setPixel q0.x q0.y :: calls) := by
  obtain ⟨h1, h2, h3⟩ := h
  refine ⟨rfl, ?_, ?_⟩
  · cases calls with
    | nil => simp at h1
    | cons c cs => simpa using h2
  · intro c hc
    rcases List.mem_cons.1 hc with rfl | hc
    · exact ⟨q0.x, q0.y, a0, b0, rfl, le_refl _, le_refl _, hx, hy⟩
    · obtain ⟨x, y, a1, b1, e, h4, h5, h6, h7⟩ := h3 c hc
      exact ⟨x, y, a1, b1, e, by omega, by omega, h6, h7⟩

theorem LineRun.single {sx sy : Int} {t : GDPoint} {a b : Nat} {q : GDPoint}
    (hx : q.x = t.x) (hy : q.y = t.y) :
    LineRun sx sy t a b q [SinkCall.setPixel q.x q.y] := by
  refine ⟨rfl, by simp [hx, hy], ?_⟩
  intro c hc
  rw [List.mem_singleton] at hc
  exact ⟨q.x, q.y, 0, 0, hc, Nat.zero_le _, Nat.zero_le _, by simp [hx], by simp [hy]⟩

/-- The running coordinate next to a coordinate `a >= 1` steps before the
target is `a - 1` steps before it, and differs from the target beforehand. -/
theorem line_step (d : Nat) (s : Int) (tc qc a : Nat)
    (hs : (s = 1 ∧ d ≤ tc ∧ tc < 256) ∨ (s = -1 ∧ tc + d < 256))
    (ha : a ≤ d) (hq : (qc : Int) = tc - s * a) (h1 : 1 ≤ a) :
    ¬ qc = tc ∧ ((toU8 ((qc : Int) + s) : Nat) : Int) = tc - s * ((a - 1 : Nat) : Int) := by
  rcases hs with ⟨h, h2, h3⟩ | ⟨h, h2⟩ <;> subst h <;> unfold toU8 <;> omega

theorem line_at_target (s : Int) (tc qc : Nat) (hq : (qc : Int) = tc - s * (0 : Nat)) :
    qc = tc := by
  simp at hq
  exact_mod_cast hq

/-- The loop of `lineTo` leaves through a `break` exactly at the target: started
`a <= dx` steps in `x` and `b <= dy` steps in `y` before the target with the
error term `a * dy - b * dx + dx - dy`, it needs at most `a + b + 1` passes. -/
theorem lineLoop_reaches_target (dx dy : Nat) (sx sy : Int) (t : GDPoint)
    (hdx : 1 ≤ dx) (hdy : 1 ≤ dy) (hdx2 : dx < 256) (hdy2 : dy < 256)
    (hsx : (sx = 1 ∧ dx ≤ t.x ∧ t.x < 256) ∨ (sx = -1 ∧ t.x + dx < 256))
    (hsy : (sy = 1 ∧ dy ≤ t.y ∧ t.y < 256) ∨ (sy = -1 ∧ t.y + dy < 256)) :
    ∀ fuel a b A B (err : Int) (q : GDPoint),
      a ≤ dx → b ≤ dy → A = a * dy → B = b * dx →
      err = (A : Int) - B + dx - dy → -3 * (dy : Int) ≤ 2 * err → 2 * err ≤ 3 * (dx : Int) →
      (q.x : Int) = t.x - sx * a → (q.y : Int) = t.y - sy * b → a + b < fuel →
      ∃ calls, lineLoop fuel dx dy sx sy err q t = some calls ∧ LineRun sx sy t a b q calls := by
  intro fuel
  induction fuel with
  | zero => intro a b A B err q _ _ _ _ _ _ _ _ _ h; omega
  | succ n ih =>
    intro a b A B err q ha hb hA hB herr hlo hhi hqx hqy hfuel
    have he2 : toI16 (err * 2) = err * 2 := toI16_eq _ (by omega) (by omega)
    have hAs : A - dy = (a - 1) * dy := by rw [hA, Nat.sub_mul, Nat.one_mul]
    have hBs : B - dx = (b - 1) * dx := by rw [hB, Nat.sub_mul, Nat.one_mul]
    unfold lineLoop
    simp only [he2]
    by_cases hX : err * 2 ≥ -(dy : Int)
    · by_cases ha0 : a = 0
      · have hA0 : A = 0 := by rw [hA, ha0, Nat.zero_mul]
        have hb0 : b = 0 := by
          by_contra hb0
          have hB1 : dx ≤ B := by rw [hB]; exact Nat.le_mul_of_pos_left dx (by omega)
          clear hsx hsy hqx hqy
          omega
        subst ha0 hb0
        have hxt := line_at_target sx _ _ hqx
        have hyt := line_at_target sy _ _ hqy
        rw [if_pos ⟨hX, hxt⟩]
        exact ⟨_, rfl, LineRun.single hxt hyt⟩
      · have ha1 : 1 ≤ a := by omega
        have hA1 : dy ≤ A := by rw [hA]; exact Nat.le_mul_of_pos_left dy ha1
        obtain ⟨hxn, hxs⟩ := line_step dx sx t.x q.x a hsx ha hqx ha1
        rw [if_neg (fun h => hxn h.2)]
        simp only [if_pos hX]
        have e1 : toI16 (err - dy) = err - dy := by
          clear hsx hsy hqx hqy hxs; exact toI16_eq _ (by omega) (by omega)
        by_cases hY : err * 2 ≤ (dx : Int)
        · have hb1 : 1 ≤ b := by
            by_contra hb0
            have hB0 : B = 0 := by rw [hB, show b = 0 by omega, Nat.zero_mul]
            clear hsx hsy hqx hqy hxs
            omega
          have hB1 : dx ≤ B := by rw [hB]; exact Nat.le_mul_of_pos_left dx hb1
          obtain ⟨hyn, hys⟩ := line_step dy sy t.y q.y b hsy hb hqy hb1
          rw [if_pos hY, if_neg hyn, e1]
          have e2 : toI16 (err - dy + dx) = err - dy + dx := by
            clear hsx hsy hqx hqy hxs hys; exact toI16_eq _ (by omega) (by omega)
          rw [e2]
          obtain ⟨calls, hc, hrun⟩ := ih (a - 1) (b - 1) (A - dy) (B - dx) (err - dy + dx)
            ⟨toU8 ((q.x : Int) + sx), toU8 ((q.y : Int) + sy)⟩
            (by omega) (by omega) hAs hBs
            (by clear hsx hsy hqx hqy hxs hys; omega)
            (by clear hsx hsy hqx hqy hxs hys; omega)
            (by clear hsx hsy hqx hqy hxs hys; omega)
            hxs hys (by omega)
          rw [hc]
          exact ⟨_, rfl, hrun.cons (by omega) (by omega) hqx hqy⟩
        · rw [if_neg hY, e1]
          obtain ⟨calls, hc, hrun⟩ := ih (a - 1) b (A - dy) B (err - dy)
            ⟨toU8 ((q.x : Int) + sx), q.y⟩
            (by omega) hb hAs hB
            (by clear hsx hsy hqx hqy hxs; omega)
            (by clear hsx hsy hqx hqy hxs; omega)
            (by clear hsx hsy hqx hqy hxs; omega)
            hxs hqy (by omega)
          rw [hc]
          exact ⟨_, rfl, hrun.cons (by omega) (by omega) hqx hqy⟩
    · rw [if_neg (fun h => hX h.1)]
      simp only [if_neg hX]
      have hY : err * 2 ≤ (dx : Int) := by clear hsx hsy hqx hqy; omega
      rw [if_pos hY]
      by_cases hb0 : b = 0
      · have hB0 : B = 0 := by rw [hB, hb0, Nat.zero_mul]
        have ha0 : a = 0 := by
          by_contra ha0
          have hA1 : dy ≤ A := by rw [hA]; exact Nat.le_mul_of_pos_left dy (by omega)
          clear hsx hsy hqx hqy
          omega
        subst ha0 hb0
        have hxt := line_at_target sx _ _ hqx
        have hyt := line_at_target sy _ _ hqy
        rw [if_pos hyt]
        exact ⟨_, rfl, LineRun.single hxt hyt⟩
      · have hb1 : 1 ≤ b := by omega
        have hB1 : dx ≤ B := by rw [hB]; exact Nat.le_mul_of_pos_left dx hb1
        obtain ⟨hyn, hys⟩ := line_step dy sy t.y q.y b hsy hb hqy hb1
        rw [if_neg hyn]
        have e2 : toI16 (err + dx) = err + dx := by
          clear hsx hsy hqx hqy hys; exact toI16_eq _ (by omega) (by omega)
        rw [e2]
        obtain ⟨calls, hc, hrun⟩ := ih a (b - 1) A (B - dx) (err + dx)
          ⟨q.x, toU8 ((q.y : Int) + sy)⟩
          ha (by omega) hA hBs
          (by clear hsx hsy hqx hqy hys; omega)
          (by clear hsx hsy hqx hqy hys; omega)
          (by clear hsx hsy hqx hqy hys; omega)
          hqx hys (by omega)
        rw [hc]
        exact ⟨_, rfl, hrun.cons (by omega) (by omega) hqx hqy⟩

end GraphicDisplay

namespace GraphicDisplay

theorem markDirty_pos (s : GraphicDisplay) (l t w h : Nat) : (markDirty s l t w h).pos = s.pos := by
  unfold markDirty; split_ifs <;> rfl

theorem markDirty_font (s : GraphicDisplay) (l t w h : Nat) :
    (markDirty s l t w h).font = s.font := by
  unfold markDirty; split_ifs <;> rfl

theorem markDirty_size (s : GraphicDisplay) (l t w h : Nat) :
    (markDirty s l t w h).size = s.size := by
  unfold markDirty; split_ifs <;> rfl

/-- Distance and direction along one axis as `lineTo` computes them. -/
theorem line_axis_setup (p t : Nat) (hp : p < 256) (ht : t < 256) (hne : t ≠ p) :
    ∃ (d : Nat) (sgn : Int), (if t > p then t - p else p - t) = d ∧
      (if t > p then (1 : Int) else -1) = sgn ∧ 1 ≤ d ∧ d < 256 ∧
      ((sgn = 1 ∧ d ≤ t ∧ t < 256) ∨ (sgn = -1 ∧ t + d < 256)) ∧
      (p : Int) = t - sgn * d ∧ d = max p t - min p t := by
  by_cases h : t > p
  · exact ⟨t - p, 1, by simp [h], by simp [h], by omega, by omega, Or.inl ⟨rfl, by omega, ht⟩,
      by omega, by omega⟩
  · exact ⟨p - t, -1, by simp [h], by simp [h], by omega, by omega, Or.inr ⟨rfl, by omega⟩,
      by omega, by omega⟩

/-- The general path of `lineTo`: when the target differs from the cursor in
both coordinates, the loop returns and its pixels run from the cursor to the
target inside the box spanned by the two. -/
theorem lineTo_diagonal (s : GraphicDisplay) (pt : GDPoint)
    (hpx : s.pos.x < 256) (hpy : s.pos.y < 256) (htx : pt.x < 256) (hty : pt.y < 256)
    (hx : pt.x ≠ s.pos.x) (hy : pt.y ≠ s.pos.y) :
    ∃ calls sx sy, lineTo s pt = some
      ({ markDirty s (min s.pos.x pt.x) (min s.pos.y pt.y)
            (toU8 (((max s.pos.x pt.x : Nat) : Int) - (min s.pos.x pt.x : Nat) + 1))
            (toU8 (((max s.pos.y pt.y : Nat) : Int) - (min s.pos.y pt.y : Nat) + 1))
          with pos := pt }, calls) ∧
      LineRun sx sy pt (max s.pos.x pt.x - min s.pos.x pt.x) (max s.pos.y pt.y - min s.pos.y pt.y)
        s.pos calls ∧
      ((sx = 1 ∧ s.pos.x < pt.x) ∨ (sx = -1 ∧ pt.x < s.pos.x)) ∧
      ((sy = 1 ∧ s.pos.y < pt.y) ∨ (sy = -1 ∧ pt.y < s.pos.y)) := by
  have hminx : (if pt.x > s.pos.x then s.pos.x else pt.x) = min s.pos.x pt.x := by
    split <;> omega
  have hmaxx : (if pt.x > s.pos.x then pt.x else s.pos.x) = max s.pos.x pt.x := by
    split <;> omega
  have hminy : (if pt.y > s.pos.y then s.pos.y else pt.y) = min s.pos.y pt.y := by
    split <;> omega
  have hmaxy : (if pt.y > s.pos.y then pt.y else s.pos.y) = max s.pos.y pt.y := by
    split <;> omega
  obtain ⟨dx, sx, hdxe, hsxe, hdx1, hdx2, hsx, hqx, hdxm⟩ :=
    line_axis_setup s.pos.x pt.x hpx htx hx
  obtain ⟨dy, sy, hdye, hsye, hdy1, hdy2, hsy, hqy, hdym⟩ :=
    line_axis_setup s.pos.y pt.y hpy hty hy
  have herr : toI16 ((dx : Int) - dy) = dx - dy := toI16_eq _ (by omega) (by omega)
  obtain ⟨calls, hc, hrun⟩ := lineLoop_reaches_target dx dy sx sy pt hdx1 hdy1 hdx2 hdy2 hsx hsy
    lineFuel dx dy (dx * dy) (dy * dx) ((dx : Int) - dy) s.pos (le_refl _) (le_refl _) rfl rfl
    (by rw [Nat.mul_comm dy dx]; omega) (by omega) (by omega) hqx hqy
    (by unfold lineFuel; omega)
  refine ⟨calls, sx, sy, ?_, ?_, ?_, ?_⟩
  · unfold lineTo
    simp only [if_neg hx, if_neg hy, hminx, hmaxx, hminy, hmaxy, hdxe, hdye, hsxe, hsye, herr, hc,
      Option.map_some']
  · rw [← hdxm, ← hdym]; exact hrun
  · rcases hsx with ⟨h, _⟩ | ⟨h, _⟩ <;> subst h <;> omega
  · rcases hsy with ⟨h, _⟩ | ⟨h, _⟩ <;> subst h <;> omega

theorem LineRun.covered_start {sx sy : Int} {t q : GDPoint} {a b : Nat} {calls : List SinkCall}
    (h : LineRun sx sy t a b q calls) : covered calls q.x q.y = true := by
  rw [covered_iff]
  exact ⟨_, List.mem_of_mem_head? h.1, by simp [SinkCall.covers]⟩

theorem LineRun.covered_target {sx sy : Int} {t q : GDPoint} {a b : Nat} {calls : List SinkCall}
    (h : LineRun sx sy t a b q calls) : covered calls t.x t.y = true := by
  rw [covered_iff]
  exact ⟨_, List.mem_of_getLast?_eq_some h.2.1, by simp [SinkCall.covers]⟩

end GraphicDisplay

theorem covered_singleton (c : SinkCall) (px py : Nat) :
    covered [c] px py = c.covers px py := by
  simp [covered]

/-- C3: for every cursor `p` and target `t` with coordinates in `0..255`,
`lineTo(t)` returns, the backend calls it issues address both `p` and `t`, and
afterwards the cursor is `t` while size and font are unchanged. -/
theorem lineTo_draws_both_endpoints (s : GraphicDisplay) (pt : GDPoint)
    (hpx : s.pos.x < 256) (hpy : s.pos.y < 256) (htx : pt.x < 256) (hty : pt.y < 256) :
    ∃ s1 calls, s.lineTo pt = some (s1, calls) ∧
      covered calls s.pos.x s.pos.y = true ∧ covered calls pt.x pt.y = true ∧
      s1.pos = pt ∧ s1.size = s.size ∧ s1.font = s.font := by
  by_cases hx : pt.x = s.pos.x
  · refine ⟨_, _, by unfold GraphicDisplay.lineTo; rw [if_pos hx], ?_, ?_, rfl, ?_, ?_⟩
    · rw [covered_singleton, covers_iff_setVBar]
      exact ⟨hx.symm, by split_ifs <;> omega, by split_ifs <;> omega⟩
    · rw [covered_singleton, covers_iff_setVBar]
      exact ⟨rfl, by split_ifs <;> omega, by split_ifs <;> omega⟩
    · exact GraphicDisplay.markDirty_size _ _ _ _ _
    · exact GraphicDisplay.markDirty_font _ _ _ _ _
  · by_cases hy : pt.y = s.pos.y
    · refine ⟨_, _, by unfold GraphicDisplay.lineTo; rw [if_neg hx, if_pos hy], ?_, ?_, rfl, ?_, ?_⟩
      · rw [covered_singleton, covers_iff_setHBar]
        exact ⟨by split_ifs <;> omega, by split_ifs <;> omega, hy.symm⟩
      · rw [covered_singleton, covers_iff_setHBar]
        exact ⟨by split_ifs <;> omega, by split_ifs <;> omega, rfl⟩
      · exact GraphicDisplay.markDirty_size _ _ _ _ _
      · exact GraphicDisplay.markDirty_font _ _ _ _ _
    · obtain ⟨calls, sx, sy, hl, hrun, -, -⟩ :=
        GraphicDisplay.lineTo_diagonal s pt hpx hpy htx hty hx hy
      exact ⟨_, calls, hl, hrun.covered_start, hrun.covered_target, rfl,
        GraphicDisplay.markDirty_size _ _ _ _ _, GraphicDisplay.markDirty_font _ _ _ _ _⟩

theorem lineTo_draws_both_endpoints_witness :
    ((SSD1306.blank.moveTo ⟨7, 9⟩).gd.pos.x < 256 ∧ (SSD1306.blank.moveTo ⟨7, 9⟩).gd.pos.y < 256 ∧
      (⟨2, 1⟩ : GDPoint).x < 256 ∧ (⟨2, 1⟩ : GDPoint).y < 256) ∧
    ∃ s1 calls, (SSD1306.blank.moveTo ⟨7, 9⟩).gd.lineTo ⟨2, 1⟩ = some (s1, calls) ∧
      covered calls (SSD1306.blank.moveTo ⟨7, 9⟩).gd.pos.x (SSD1306.blank.moveTo ⟨7, 9⟩).gd.pos.y
        = true ∧
      covered calls (⟨2, 1⟩ : GDPoint).x (⟨2, 1⟩ : GDPoint).y = true ∧
      s1.pos = ⟨2, 1⟩ ∧ s1.size = (SSD1306.blank.moveTo ⟨7, 9⟩).gd.size ∧
      s1.font = (SSD1306.blank.moveTo ⟨7, 9⟩).gd.font :=
  ⟨by decide, lineTo_draws_both_endpoints (SSD1306.blank.moveTo ⟨7, 9⟩).gd ⟨2, 1⟩
    (by decide) (by decide) (by decide) (by decide)⟩

theorem foldl_invariant {α β : Type} (P : β → Prop) (Q : α → Prop) (f : β → α → β)
    (hf : ∀ b a, P b → Q a → P (f b a)) :
    ∀ (l : List α), (∀ a ∈ l, Q a) → ∀ b, P b → P (l.foldl f b) := by
  intro l
  induction l with
  | nil => intro _ b hb; exact hb
  | cons a l ih =>
    intro hl b hb
    exact ih (fun x hx => hl x (List.mem_cons_of_mem _ hx)) _
      (hf b a hb (hl a (List.mem_cons_self _ _)))

namespace GraphicDisplay

/-- Every call of the bit loops of `drawChar` is a pixel of the render box. -/
theorem drawCharBits_mem (font : GFXfont) (g : GFXglyph) (xo yo : Nat) :
    ∀ c ∈ drawCharBits font g xo yo, ∃ x y, x < g.width ∧ y < g.height ∧
      c = SinkCall.setPixel ((x + xo) % 256) ((y + yo) % 256) := by
  unfold drawCharBits
  refine foldl_invariant
    (fun (st : Nat × List SinkCall) => ∀ c ∈ st.2, ∃ x y, x < g.width ∧ y < g.height ∧
      c = SinkCall.setPixel ((x + xo) % 256) ((y + yo) % 256))
    (fun y => y < g.height) _ ?_ _ (fun y hy => List.mem_range.1 hy) _ ?_
  · intro st y hst hy
    refine foldl_invariant
      (fun (st : Nat × List SinkCall) => ∀ c ∈ st.2, ∃ x y, x < g.width ∧ y < g.height ∧
        c = SinkCall.setPixel ((x + xo) % 256) ((y + yo) % 256))
      (fun x => x < g.width) _ ?_ _ (fun x hx => List.mem_range.1 hx) _ hst
    intro st x hst hx c hc
    simp only at hc
    split at hc
    · rcases List.mem_append.1 hc with h | h
      · exact hst c h
      · rw [List.mem_singleton] at h
        exact ⟨x, y, hx, hy, h⟩
    · exact hst c hc
  · intro c hc
    simp at hc

end GraphicDisplay

theorem contains_iff (r : GDRect) (px py : Nat) :
    r.contains px py = true ↔ r.origin.x ≤ px ∧ px < r.origin.x + r.size.width ∧
      r.origin.y ≤ py ∧ py < r.origin.y + r.size.height := by
  simp [GDRect.contains]

/-- A rectangle whose pixels are exactly the pixels addressed is their
bounding box. -/
theorem isBoundingBox_of_eq (calls : List SinkCall) (r : GDRect)
    (h : ∀ px py, covered calls px py = r.contains px py) : IsBoundingBox calls r :=
  ⟨fun px py hc => by rw [← h]; exact hc, fun _ h2 px py hr => h2 px py (by rw [h]; exact hr)⟩

/-- A rectangle that contains every pixel addressed and has an addressed pixel
in its first and last column and in its first and last row is their bounding
box. -/
theorem isBoundingBox_of_touching (calls : List SinkCall) (r : GDRect)
    (hin : ∀ px py, covered calls px py = true → r.contains px py = true)
    (hl : ∃ py, covered calls r.origin.x py = true)
    (hr : ∃ px py, px + 1 = r.origin.x + r.size.width ∧ covered calls px py = true)
    (ht : ∃ px, covered calls px r.origin.y = true)
    (hb : ∃ px py, py + 1 = r.origin.y + r.size.height ∧ covered calls px py = true) :
    IsBoundingBox calls r := by
  refine ⟨hin, fun r2 h2 px py hp => ?_⟩
  obtain ⟨y1, h1⟩ := hl
  obtain ⟨x2, y2, e2, h2'⟩ := hr
  obtain ⟨x3, h3⟩ := ht
  obtain ⟨x4, y4, e4, h4⟩ := hb
  have a1 := (contains_iff _ _ _).1 (h2 _ _ h1)
  have a2 := (contains_iff _ _ _).1 (h2 _ _ h2')
  have a3 := (contains_iff _ _ _).1 (h2 _ _ h3)
  have a4 := (contains_iff _ _ _).1 (h2 _ _ h4)
  have a0 := (contains_iff _ _ _).1 hp
  rw [contains_iff]
  omega

theorem isBoundingBox_nil (r : GDRect) (h : r.isEmpty = true) : IsBoundingBox [] r := by
  simp only [GDRect.isEmpty, decide_eq_true_eq] at h
  refine ⟨fun px py hc => by simp [covered] at hc, fun r2 _ px py hp => ?_⟩
  rw [contains_iff] at hp
  omega

namespace GraphicDisplay

theorem validate_isEmpty (s : GraphicDisplay) : s.validate.dirty.isEmpty = true := rfl

/-- `setPixel` on an empty dirty rectangle marks the box of its pixel. -/
theorem setPixel_box (s : GraphicDisplay) (x y : Nat) (he : s.dirty.isEmpty = true) :
    IsBoundingBox (s.setPixel x y).2 (s.setPixel x y).1.dirty := by
  apply isBoundingBox_of_eq
  intro px py
  show covered [SinkCall.setPixel x y] px py = (markDirty s x y 1 1).dirty.contains px py
  rw [markDirty_of_empty s x y 1 1 he (le_refl _) (le_refl _), covered_singleton, Bool.eq_iff_iff,
    covers_iff_setPixel, contains_iff]
  show _ ↔ x ≤ px ∧ px < x + 1 ∧ y ≤ py ∧ py < y + 1
  omega

/-- `paintRect` of a non-empty rectangle of the display on an empty dirty
rectangle marks the box of its pixels. -/
theorem paintRect_box (s : GraphicDisplay) (r : GDRect) (he : s.dirty.isEmpty = true)
    (hin : r.inDisplay = true) (hw : 1 ≤ r.size.width) (hh : 1 ≤ r.size.height) :
    IsBoundingBox (s.paintRect r).2 (s.paintRect r).1.dirty := by
  apply isBoundingBox_of_eq
  intro px py
  rw [paintRect_calls s r hh hin]
  show _ = (markDirty s _ _ _ _).dirty.contains px py
  rw [markDirty_of_empty _ _ _ _ _ he hw hh, Bool.eq_iff_iff, covered_iff, contains_iff]
  simp only [GDRect.inDisplay, decide_eq_true_eq] at hin
  simp only [List.mem_map, List.mem_range'_1, exists_exists_and_eq_and, covers_iff_setVBar]
  constructor
  · rintro ⟨x, hx, h⟩; omega
  · intro h; exact ⟨px, by omega, by omega⟩

theorem onBorder_iff (r : GDRect) (px py : Nat) :
    r.onBorder px py = true ↔ r.contains px py = true ∧
      (px = r.origin.x ∨ px + 1 = r.origin.x + r.size.width ∨
        py = r.origin.y ∨ py + 1 = r.origin.y + r.size.height) := by
  simp [GDRect.onBorder]

/-- `frameRect` of a rectangle of the display on an empty dirty rectangle marks
the box of its pixels. -/
theorem frameRect_box (s : GraphicDisplay) (r : GDRect) (he : s.dirty.isEmpty = true)
    (hin : r.inDisplay = true) :
    IsBoundingBox (s.frameRect r).2 (s.frameRect r).1.dirty := by
  by_cases h0 : r.size.width = 0 ∨ r.size.height = 0
  · have e : s.frameRect r = (s, []) := by unfold frameRect; rw [if_pos h0]
    rw [e]
    exact isBoundingBox_nil _ he
  · have hw : 1 ≤ r.size.width := by omega
    have hh : 1 ≤ r.size.height := by omega
    obtain ⟨-, hcov⟩ := frameRect_calls s r hw hh hin
    have hd : (s.frameRect r).1.dirty = r := by
      unfold frameRect
      rw [if_neg h0]
      have := markDirty_of_empty s r.origin.x r.origin.y r.size.width r.size.height he hw hh
      split_ifs <;> exact this
    rw [hd]
    have hc : ∀ px py, r.onBorder px py = true → covered (s.frameRect r).2 px py = true :=
      fun px py h => by rw [hcov]; exact h
    refine isBoundingBox_of_touching _ r ?_ ?_ ?_ ?_ ?_
    · intro px py h
      rw [hcov, onBorder_iff] at h
      exact h.1
    · exact ⟨r.origin.y, hc _ _ (by rw [onBorder_iff, contains_iff]; omega)⟩
    · exact ⟨r.origin.x + r.size.width - 1, r.origin.y, by omega,
        hc _ _ (by rw [onBorder_iff, contains_iff]; omega)⟩
    · exact ⟨r.origin.x, hc _ _ (by rw [onBorder_iff, contains_iff]; omega)⟩
    · exact ⟨r.origin.x, r.origin.y + r.size.height - 1, by omega,
        hc _ _ (by rw [onBorder_iff, contains_iff]; omega)⟩

end GraphicDisplay

/-- A rectangle that contains every pixel addressed and is spanned by two
addressed pixels is the bounding box. -/
theorem isBoundingBox_of_two_points (calls : List SinkCall) (r : GDRect) (x1 y1 x2 y2 : Nat)
    (hin : ∀ px py, covered calls px py = true → r.contains px py = true)
    (h1 : covered calls x1 y1 = true) (h2 : covered calls x2 y2 = true)
    (hx : r.origin.x = min x1 x2) (hw : r.origin.x + r.size.width = max x1 x2 + 1)
    (hy : r.origin.y = min y1 y2) (hh : r.origin.y + r.size.height = max y1 y2 + 1) :
    IsBoundingBox calls r := by
  refine ⟨hin, fun r2 hr2 px py hp => ?_⟩
  have a1 := (contains_iff _ _ _).1 (hr2 _ _ h1)
  have a2 := (contains_iff _ _ _).1 (hr2 _ _ h2)
  have a0 := (contains_iff _ _ _).1 hp
  rw [contains_iff]
  omega

namespace GraphicDisplay

/-- `lineTo` between two points of the display on an empty dirty rectangle
returns and marks the box of its pixels. -/
theorem lineTo_box (s : GraphicDisplay) (pt : GDPoint) (he : s.dirty.isEmpty = true)
    (hp : s.pos.inDisplay = true) (ht : pt.inDisplay = true) :
    ∃ s1 calls, s.lineTo pt = some (s1, calls) ∧ IsBoundingBox calls s1.dirty := by
  have hp' := hp
  have ht' := ht
  simp only [GDPoint.inDisplay, decide_eq_true_eq] at hp' ht'
  by_cases hax : pt.x = s.pos.x ∨ pt.y = s.pos.y
  · refine ⟨_, _, lineTo_axis s pt hp ht hax, ?_⟩
    apply isBoundingBox_of_eq
    intro px py
    show _ = (markDirty s _ _ _ _).dirty.contains px py
    rw [markDirty_of_empty _ _ _ _ _ he (by omega) (by omega), covered_singleton, Bool.eq_iff_iff,
      contains_iff]
    by_cases hx : pt.x = s.pos.x
    · rw [if_pos hx, covers_iff_setVBar]
      show _ ↔ min s.pos.x pt.x ≤ px ∧ px < min s.pos.x pt.x + (max s.pos.x pt.x - min s.pos.x pt.x + 1) ∧
        min s.pos.y pt.y ≤ py ∧ py < min s.pos.y pt.y + (max s.pos.y pt.y - min s.pos.y pt.y + 1)
      omega
    · rw [if_neg hx, covers_iff_setHBar]
      show _ ↔ min s.pos.x pt.x ≤ px ∧ px < min s.pos.x pt.x + (max s.pos.x pt.x - min s.pos.x pt.x + 1) ∧
        min s.pos.y pt.y ≤ py ∧ py < min s.pos.y pt.y + (max s.pos.y pt.y - min s.pos.y pt.y + 1)
      omega
  · have hx : pt.x ≠ s.pos.x := fun h => hax (Or.inl h)
    have hy : pt.y ≠ s.pos.y := fun h => hax (Or.inr h)
    obtain ⟨calls, sx, sy, hl, hrun, hsx, hsy⟩ :=
      lineTo_diagonal s pt (by omega) (by omega) (by omega) (by omega) hx hy
    refine ⟨_, calls, hl, ?_⟩
    have ew : toU8 (((max s.pos.x pt.x : Nat) : Int) - (min s.pos.x pt.x : Nat) + 1)
        = max s.pos.x pt.x - min s.pos.x pt.x + 1 := toU8_eq _ _ (by omega) (by omega)
    have eh : toU8 (((max s.pos.y pt.y : Nat) : Int) - (min s.pos.y pt.y : Nat) + 1)
        = max s.pos.y pt.y - min s.pos.y pt.y + 1 := toU8_eq _ _ (by omega) (by omega)
    show IsBoundingBox calls (markDirty s _ _ _ _).dirty
    rw [ew, eh, markDirty_of_empty _ _ _ _ _ he (by omega) (by omega)]
    refine isBoundingBox_of_two_points calls _ s.pos.x s.pos.y pt.x pt.y ?_
      hrun.covered_start hrun.covered_target rfl ?_ rfl ?_
    · intro px py hc
      rw [covered_iff] at hc
      obtain ⟨c, hc, hcov⟩ := hc
      obtain ⟨x, y, a1, b1, rfl, ha1, hb1, hx1, hy1⟩ := hrun.2.2 c hc
      rw [covers_iff_setPixel] at hcov
      rw [contains_iff]
      show min s.pos.x pt.x ≤ px ∧ px < min s.pos.x pt.x + (max s.pos.x pt.x - min s.pos.x pt.x + 1) ∧
        min s.pos.y pt.y ≤ py ∧ py < min s.pos.y pt.y + (max s.pos.y pt.y - min s.pos.y pt.y + 1)
      rcases hsx with ⟨h, hlt⟩ | ⟨h, hlt⟩ <;> rcases hsy with ⟨h', hlt'⟩ | ⟨h', hlt'⟩ <;>
        subst h <;> subst h' <;> omega
    · show min s.pos.x pt.x + (max s.pos.x pt.x - min s.pos.x pt.x + 1) = _
      omega
    · show min s.pos.y pt.y + (max s.pos.y pt.y - min s.pos.y pt.y + 1) = _
      omega

/-- `drawChar` with the render box of the glyph inside the display, on an
empty dirty rectangle, returns and marks a box that contains every pixel it
wrote. -/
theorem drawChar_box (s : GraphicDisplay) (c : Nat) (he : s.dirty.isEmpty = true)
    (hin : (DrawCall.drawChar c).inDisplay s) :
    ∃ s1 calls, s.drawChar c = some (s1, calls) ∧
      ∀ px py, covered calls px py = true → s1.dirty.contains px py = true := by
  have hnil : ∀ px py, covered [] px py = true → s.dirty.contains px py = true := by
    intro px py h; simp [covered] at h
  unfold DrawCall.inDisplay at hin
  unfold drawChar
  cases hf : s.font with
  | none => exact ⟨s, [], rfl, hnil⟩
  | some font =>
    rw [hf] at hin
    simp only at hin ⊢
    by_cases h1 : c < font.first
    · rw [if_pos h1]; exact ⟨s, [], rfl, hnil⟩
    · rw [if_neg h1]
      by_cases h2 : c > font.last
      · rw [if_pos h2]; exact ⟨s, [], rfl, hnil⟩
      · rw [if_neg h2]
        obtain ⟨g, hg, hx0, hx1, hy0, hy1⟩ : ∃ g, font.glyph[c - font.first]? = some g ∧
            0 ≤ (s.pos.x : Int) + g.xOffset ∧ (s.pos.x : Int) + g.xOffset + g.width ≤ 128 ∧
            0 ≤ (s.pos.y : Int) + g.yOffset ∧ (s.pos.y : Int) + g.yOffset + g.height ≤ 64 := by
          rcases hin with h | h | h
          · exact absurd h h1
          · exact absurd h h2
          · exact h
        rw [hg]
        refine ⟨_, _, rfl, ?_⟩
        intro px py hc
        rw [covered_iff] at hc
        obtain ⟨call, hmem, hcov⟩ := hc
        obtain ⟨x, y, hx, hy, rfl⟩ := drawCharBits_mem font g _ _ call hmem
        rw [covers_iff_setPixel] at hcov
        show (markDirty s _ _ _ _).dirty.contains px py = true
        rw [markDirty_of_empty _ _ _ _ _ he (by omega) (by omega), contains_iff]
        have ex : ((toU8 ((s.pos.x : Int) + g.xOffset) : Nat) : Int) = (s.pos.x : Int) + g.xOffset := by
          unfold toU8; omega
        have ey : ((toU8 ((s.pos.y : Int) + g.yOffset) : Nat) : Int) = (s.pos.y : Int) + g.yOffset := by
          unfold toU8; omega
        show toU8 ((s.pos.x : Int) + g.xOffset) ≤ px ∧
          px < toU8 ((s.pos.x : Int) + g.xOffset) + g.width ∧
          toU8 ((s.pos.y : Int) + g.yOffset) ≤ py ∧
          py < toU8 ((s.pos.y : Int) + g.yOffset) + g.height
        omega

/-- The clamp of the rounded rectangle routines is the minimum of the requested
corner and half the shorter side. -/
theorem clampCorner_eq_min (r : GDRect) (corner : Nat) :
    clampCorner r corner = min corner (min r.size.width r.size.height / 2) := by
  unfold clampCorner
  simp only [Nat.shiftRight_eq_div_pow, Nat.pow_one]
  split_ifs <;> omega

theorem clampCorner_idem (r : GDRect) (corner : Nat) :
    clampCorner r (min corner (min r.size.width r.size.height / 2)) = clampCorner r corner := by
  rw [clampCorner_eq_min, clampCorner_eq_min]
  omega

end GraphicDisplay

/-- C15: for every rectangle `r` and corner value `c`, `frameRoundRect(r, c)` and
`paintRoundRect(r, c)` return the same state (dirty rectangle included) and the
same backend calls, hence leave the same frame buffer, as the same routine
called with the corner `min(c, min(width, height) / 2)`; corner 100 on a 20x10
rectangle is corner 5. -/
theorem roundRect_corner_clamp (dev : SSD1306) (r : GDRect) (c : Nat) :
    dev.gd.frameRoundRect r c =
        dev.gd.frameRoundRect r (min c (min r.size.width r.size.height / 2)) ∧
      dev.gd.paintRoundRect r c =
        dev.gd.paintRoundRect r (min c (min r.size.width r.size.height / 2)) ∧
      dev.exec? (dev.gd.frameRoundRect r c) =
        dev.exec? (dev.gd.frameRoundRect r (min c (min r.size.width r.size.height / 2))) ∧
      dev.exec? (dev.gd.paintRoundRect r c) =
        dev.exec? (dev.gd.paintRoundRect r (min c (min r.size.width r.size.height / 2))) ∧
      min 100 (min (⟨⟨0, 0⟩, ⟨20, 10⟩⟩ : GDRect).size.width
        (⟨⟨0, 0⟩, ⟨20, 10⟩⟩ : GDRect).size.height / 2) = 5 := by
  have hf : dev.gd.frameRoundRect r c =
      dev.gd.frameRoundRect r (min c (min r.size.width r.size.height / 2)) := by
    unfold GraphicDisplay.frameRoundRect
    rw [GraphicDisplay.clampCorner_idem]
  have hp : dev.gd.paintRoundRect r c =
      dev.gd.paintRoundRect r (min c (min r.size.width r.size.height / 2)) := by
    unfold GraphicDisplay.paintRoundRect
    rw [GraphicDisplay.clampCorner_idem]
  exact ⟨hf, hp, by rw [← hf], by rw [← hp], by decide⟩

/-- C16: after `validate()`, `frameRoundRect` of the rectangle with origin
`(10,10)`, width 20 and height 10 with corner 3 issues 24 backend calls and
returns with the dirty rectangle still empty: the routine has no call of
`markDirty`. -/
theorem frameRoundRect_leaves_dirty_empty :
    (sampleDisplay.validate.frameRoundRect ⟨⟨10, 10⟩, ⟨20, 10⟩⟩ 3).map
        (fun res => (res.1.dirty, res.2.length)) = some (⟨⟨0, 0⟩, ⟨0, 0⟩⟩, 24) ∧
      (⟨⟨0, 0⟩, ⟨0, 0⟩⟩ : GDRect).isEmpty = true ∧
      (⟨⟨0, 0⟩, ⟨0, 0⟩⟩ : GDRect).contains 10 10 = false := by
  decide

/-- C17: on the cleared device in set mode, `paintRoundRect` of the rectangle
with origin `(0,6)`, width 3 and height 3 with corner 1 hands `paintRect` a
middle band of height `3 - 2 - 2`, which is 255 as a `uint8_t`; the band issues
the runs `setVBarInternal(x, 8, 6)` for `x = 0, 1, 2`, and the pixel `(0,0)`,
outside the rectangle, is on afterwards. -/
theorem paintRoundRect_band_wraps :
    (sampleDisplay.paintRoundRect ⟨⟨0, 6⟩, ⟨3, 3⟩⟩ 1).map (fun res => res.2) =
        some [SinkCall.setVBar 0 7 7, SinkCall.setVBar 1 6 7, SinkCall.setVBar 1 6 7,
          SinkCall.setVBar 2 7 7, SinkCall.setVBar 2 7 7, SinkCall.setVBar 1 7 8,
          SinkCall.setVBar 1 7 8, SinkCall.setVBar 0 7 7, SinkCall.setVBar 0 8 6,
          SinkCall.setVBar 1 8 6, SinkCall.setVBar 2 8 6] ∧
      (SSD1306.blank.exec? (SSD1306.blank.gd.paintRoundRect ⟨⟨0, 6⟩, ⟨3, 3⟩⟩ 1)).map
        (fun dev => SSD1306.pixel dev.display 0 0) = some true ∧
      SSD1306.pixel SSD1306.blank.display 0 0 = false ∧
      (⟨⟨0, 6⟩, ⟨3, 3⟩⟩ : GDRect).contains 0 0 = false ∧
      (⟨⟨0, 6⟩, ⟨3, 3⟩⟩ : GDRect).inDisplay = true := by
  decide

/-- C19: `frameOval` of the rectangle with origin `(2,2)`, width 4 and height 3
marks that rectangle dirty and starts with `setPixelInternal(6, 4)`;
`paintOval` of the same rectangle issues the run `setVBarInternal(6, 3, 4)`.
Column 6 is `origin.x + width`, outside the rectangle; on the cleared device in
set mode the pixel `(6,4)` is on after either call. -/
theorem oval_writes_outside_box :
    (sampleDisplay.validate.frameOval ⟨⟨2, 2⟩, ⟨4, 3⟩⟩).map
        (fun res => (res.1.dirty, res.2.head?)) =
        some (⟨⟨2, 2⟩, ⟨4, 3⟩⟩, some (SinkCall.setPixel 6 4)) ∧
      (sampleDisplay.validate.paintOval ⟨⟨2, 2⟩, ⟨4, 3⟩⟩).map
        (fun res => (res.1.dirty, res.2.take 2)) =
        some (⟨⟨2, 2⟩, ⟨4, 3⟩⟩, [SinkCall.setVBar 2 3 4, SinkCall.setVBar 6 3 4]) ∧
      (⟨⟨2, 2⟩, ⟨4, 3⟩⟩ : GDRect).contains 6 4 = false ∧
      (⟨⟨2, 2⟩, ⟨4, 3⟩⟩ : GDRect).inDisplay = true ∧
      (SSD1306.blank.exec? (SSD1306.blank.gd.frameOval ⟨⟨2, 2⟩, ⟨4, 3⟩⟩)).map
        (fun dev => SSD1306.pixel dev.display 6 4) = some true ∧
      (SSD1306.blank.exec? (SSD1306.blank.gd.paintOval ⟨⟨2, 2⟩, ⟨4, 3⟩⟩)).map
        (fun dev => SSD1306.pixel dev.display 6 4) = some true := by
  decide

/-- The default run loop visits `i, ..., last` when `last` is below 255. -/
theorem barLoop_eq_range (last : Nat) (hlast : last < 255) :
    ∀ fuel i, i ≤ last + 1 → last + 1 - i < fuel →
      barLoop fuel i last = some (List.range' i (last + 1 - i)) := by
  intro fuel
  induction fuel with
  | zero => intro i _ h; omega
  | succ n ih =>
    intro i hi hfuel
    unfold barLoop
    by_cases h : i ≤ last
    · rw [if_pos h]
      have e1 : (i + 1) % 256 = i + 1 := by omega
      have e2 : last + 1 - i = (last + 1 - (i + 1)) + 1 := by omega
      rw [e1, ih (i + 1) (by omega) (by omega), e2, List.range'_succ]
      rfl
    · rw [if_neg h]
      have e : last + 1 - i = 0 := by omega
      rw [e]
      rfl

namespace SSD1306

theorem pixelOffset_add (x k y : Nat) :
    pixelOffset (x + k) y = (pixelOffset x y + k) % 65536 := by
  unfold pixelOffset
  simp only [SSD1306_WIDTH]
  omega

theorem pixelOffset_lt (x y : Nat) : pixelOffset x y < 65536 := by
  unfold pixelOffset
  omega

/-- The loop of the horizontal run performs the writes of `setHBarWrites`. -/
theorem setHBarLoop_eq_writeAll (mode bit right : Nat) (hr : right < 256) :
    ∀ fuel i offset (d : List Nat), offset < 65536 → right - i < fuel →
      setHBarLoop mode bit right fuel i offset d =
        writeAll mode d ((List.range (right - i + 1)).map fun k => ((offset + k) % 65536, bit)) := by
  intro fuel
  induction fuel with
  | zero => intro i offset d _ h; omega
  | succ n ih =>
    intro i offset d hoff hfuel
    unfold setHBarLoop
    have e3 : (offset + 0) % 65536 = offset := by omega
    by_cases h : i < right
    · simp only [h, if_true]
      have e1 : (i + 1) % 256 = i + 1 := by omega
      have e2 : right - i + 1 = (right - (i + 1) + 1) + 1 := by omega
      rw [e1, ih (i + 1) _ _ (by omega) (by omega)]
      have hlist : (List.range (right - i + 1)).map (fun k => ((offset + k) % 65536, bit)) =
          (offset, bit) :: (List.range (right - (i + 1) + 1)).map
            (fun k => (((offset + 1) % 65536 + k) % 65536, bit)) := by
        rw [e2, List.range_succ_eq_map, List.map_cons, List.map_map, e3]
        congr 1
        apply List.map_congr_left
        intro k _
        simp only [Function.comp]
        congr 1
        omega
      rw [hlist]
      rfl
    · simp only [h, if_false]
      have e2 : right - i + 1 = 1 := by omega
      rw [e2]
      show _ = writeAll mode d [((offset + 0) % 65536, bit)]
      rw [e3]
      rfl

/-- `SSD1306::setHBarInternal` performs the writes of `setHBarWrites`. -/
theorem setHBarInternal_eq_writeAll (mode : Nat) (d : List Nat) (left right y : Nat)
    (hr : right < 256) :
    setHBarInternal mode d left right y = writeAll mode d (setHBarWrites left right y) := by
  unfold setHBarInternal setHBarWrites
  exact setHBarLoop_eq_writeAll mode _ right hr 256 left _ d (pixelOffset_lt _ _) (by omega)

theorem setVBarInternal_eq_writeAll (mode : Nat) (d : List Nat) (x top bottom : Nat) :
    setVBarInternal mode d x top bottom = writeAll mode d (setVBarWrites x top bottom) := rfl

theorem setPixelInternal_eq_writeAll (mode : Nat) (d : List Nat) (x y : Nat) :
    setPixelInternal mode d x y = writeAll mode d (setPixelWrites x y) := rfl

/-- Every backend routine performs the writes listed for it. -/
theorem apply_eq_writeAll (mode : Nat) (d : List Nat) (c : SinkCall)
    (hc : ∀ l r y, c = SinkCall.setHBar l r y → r < 256) :
    apply mode d c = writeAll mode d (writes c) := by
  cases c with
  | setPixel x y => rfl
  | setHBar l r y => exact setHBarInternal_eq_writeAll mode d l r y (hc l r y rfl)
  | setVBar x t b => rfl

/-- A sequence of single pixel calls in one row performs one write per call. -/
theorem run_setPixel_row (mode : Nat) (y : Nat) (cols : List Nat) :
    ∀ d : List Nat, run mode d (cols.map fun i => SinkCall.setPixel i y) =
      writeAll mode d (cols.map fun i => (pixelOffset i y, pixelBit y)) := by
  induction cols with
  | nil => intro d; rfl
  | cons c cs ih => intro d; exact ih _

/-- A sequence of single pixel calls in one column performs one write per call. -/
theorem run_setPixel_column (mode : Nat) (x : Nat) (rows : List Nat) :
    ∀ d : List Nat, run mode d (rows.map fun i => SinkCall.setPixel x i) =
      writeAll mode d (rows.map fun i => (pixelOffset x i, pixelBit i)) := by
  induction rows with
  | nil => intro d; rfl
  | cons c cs ih => intro d; exact ih _

end SSD1306

/-- C12: for `left <= right <= 127` and `y <= 63`, in every drawing mode, the
default `setHBarInternal` of the engine returns, issues `setPixelInternal(i, y)`
for `i = left, ..., right`, and these calls leave the same frame buffer as
`SSD1306::setHBarInternal(left, right, y)`. -/
theorem setHBar_refines_default (mode : Nat) (d : List Nat) (left right y : Nat)
    (hlr : left ≤ right) (hr : right ≤ 127) (_hy : y ≤ 63) :
    ∃ calls, GraphicDisplay.setHBarInternal left right y = some calls ∧
      calls = (List.range' left (right - left + 1)).map (fun i => SinkCall.setPixel i y) ∧
      SSD1306.run mode d calls = SSD1306.setHBarInternal mode d left right y := by
  have hloop : barLoop barFuel left right = some (List.range' left (right + 1 - left)) :=
    barLoop_eq_range right (by omega) barFuel left (by omega) (by unfold barFuel; omega)
  have e : right + 1 - left = right - left + 1 := by omega
  refine ⟨_, by unfold GraphicDisplay.setHBarInternal; rw [hloop, e]; rfl, rfl, ?_⟩
  rw [SSD1306.run_setPixel_row, SSD1306.setHBarInternal_eq_writeAll mode d left right y (by omega)]
  congr 1
  unfold SSD1306.setHBarWrites
  rw [List.range'_eq_map_range, List.map_map]
  apply List.map_congr_left
  intro k _
  simp only [Function.comp, SSD1306.pixelOffset_add]

theorem setHBar_refines_default_witness :
    (3 ≤ 9 ∧ 9 ≤ 127 ∧ 20 ≤ 63) ∧
    ∃ calls, GraphicDisplay.setHBarInternal 3 9 20 = some calls ∧
      calls = (List.range' 3 (9 - 3 + 1)).map (fun i => SinkCall.setPixel i 20) ∧
      SSD1306.run GL_XOR SSD1306.blank.display calls =
        SSD1306.setHBarInternal GL_XOR SSD1306.blank.display 3 9 20 :=
  ⟨by decide, setHBar_refines_default GL_XOR SSD1306.blank.display 3 9 20 (by decide) (by decide)
    (by decide)⟩

namespace SSD1306

theorem length_writeAll (mode : Nat) (ws : List (Nat × Nat)) (d : List Nat) :
    (writeAll mode d ws).length = d.length :=
  length_foldl_applyMask mode ws d

theorem writeAll_cons (mode : Nat) (d : List Nat) (w : Nat × Nat) (ws : List (Nat × Nat)) :
    writeAll mode d (w :: ws) = writeAll mode (applyMask mode d w.1 w.2) ws := rfl

/-- A byte at an offset no write names is unchanged. -/
theorem getD_writeAll_untouched (mode : Nat) (j : Nat) (ws : List (Nat × Nat)) :
    ∀ d : List Nat, (∀ w ∈ ws, w.1 ≠ j) → (writeAll mode d ws).getD j 0 = d.getD j 0 := by
  induction ws with
  | nil => intro d _; rfl
  | cons w ws ih =>
    intro d h
    rw [writeAll_cons, ih _ (fun v hv => h v (List.mem_cons_of_mem _ hv)), getD_applyMask,
      if_neg (fun e => h w (List.mem_cons_self _ _) e.1.symm)]

/-- When no two writes name the same offset, the byte at the offset of a write
is the old byte combined once with the mask of that write. -/
theorem getD_writeAll_nodup (mode : Nat) (ws : List (Nat × Nat)) :
    ∀ d : List Nat, (ws.map fun w => w.1).Nodup → ∀ o m, (o, m) ∈ ws → o < d.length →
      (writeAll mode d ws).getD o 0 = blend mode (d.getD o 0) m := by
  induction ws with
  | nil => intro d _ o m h; simp at h
  | cons w ws ih =>
    intro d hnd o m hmem ho
    rw [List.map_cons, List.nodup_cons] at hnd
    rw [writeAll_cons]
    rcases List.mem_cons.1 hmem with e | hin
    · subst e
      rw [getD_writeAll_untouched, getD_applyMask, if_pos ⟨rfl, ho⟩]
      intro v hv e
      exact hnd.1 (List.mem_map.2 ⟨v, hv, e⟩)
    · have hne : w.1 ≠ o := fun e => hnd.1 (List.mem_map.2 ⟨(o, m), hin, e.symm⟩)
      rw [ih _ hnd.2 o m hin (by rw [length_applyMask]; exact ho), getD_applyMask,
        if_neg (fun e => hne e.1.symm)]

theorem blend_black (old m : Nat) : blend GL_BLACK old m = old &&& (255 ^^^ m) := rfl

theorem blend_xor (old m : Nat) : blend GL_XOR old m = old ^^^ m := rfl

theorem testBit_255 (i : Nat) : (255 : Nat).testBit i = decide (i < 8) :=
  Nat.testBit_two_pow_sub_one 8 i

/-- In clear mode a byte keeps exactly the bits the mask does not have. -/
theorem blend_black_testBit (old m i : Nat) (hold : old < 256) :
    (blend GL_BLACK old m).testBit i = (old.testBit i && !m.testBit i) := by
  rw [blend_black, Nat.testBit_and, Nat.testBit_xor, testBit_255]
  by_cases hi : i < 8
  · simp [hi]
  · have h8 : 2 ^ 8 ≤ 2 ^ i := Nat.pow_le_pow_right (by decide : 0 < 2) (by omega : 8 ≤ i)
    have : old.testBit i = false :=
      Nat.testBit_lt_two_pow (Nat.lt_of_lt_of_le (by simpa using hold) h8)
    simp [this]

end SSD1306

namespace SSD1306

theorem pixelOffset_le (x y : Nat) (hx : x < 256) : pixelOffset x y ≤ x + 896 := by
  rw [pixelOffset_eq x y hx]
  omega

theorem nodup_setHBarWrites (left right y : Nat) (hl : left < 256) (hr : right < 256) :
    ((setHBarWrites left right y).map fun w => w.1).Nodup := by
  unfold setHBarWrites
  rw [List.map_map]
  refine List.Nodup.map_on ?_ (List.nodup_range _)
  intro a ha b hb hab
  rw [List.mem_range] at ha hb
  have := pixelOffset_le left y hl
  simp only [Function.comp] at hab
  omega

theorem nodup_setVBarWrites (x top bottom : Nat) (hx : x < 256) :
    ((setVBarWrites x top bottom).map fun w => w.1).Nodup := by
  unfold setVBarWrites
  simp only [page_eq, SSD1306_WIDTH]
  by_cases hpg : top / 8 % 8 = bottom / 8 % 8
  · rw [if_pos hpg]
    simp
  · rw [if_neg hpg]
    simp only [List.map_append, List.map_cons, List.map_nil, List.map_map, List.cons_append,
      List.nil_append, List.nodup_cons, List.mem_cons, List.mem_map, List.mem_range'_1,
      Function.comp, not_or, not_exists, not_and]
    refine ⟨⟨by omega, fun i hi => by omega⟩, fun i hi => by omega, ?_⟩
    refine List.Nodup.map_on ?_ (List.nodup_range' _ _)
    intro a ha b hb hab
    rw [List.mem_range'_1] at ha hb
    simp only [Function.comp] at hab
    omega

/-- No two writes of one backend routine name the same byte. -/
theorem nodup_writes (c : SinkCall) (hc : c.isU8 = true) :
    ((writes c).map fun w => w.1).Nodup := by
  cases c with
  | setPixel x y => simp [writes, setPixelWrites]
  | setHBar l r y =>
    simp only [SinkCall.isU8, decide_eq_true_eq] at hc
    exact nodup_setHBarWrites l r y hc.1 hc.2.1
  | setVBar x t b =>
    simp only [SinkCall.isU8, decide_eq_true_eq] at hc
    exact nodup_setVBarWrites x t b hc.1

end SSD1306

/-- C13: every routine of the backend (single pixel, horizontal run, vertical
run, with `uint8_t` arguments) performs its list of writes, no byte twice; the
byte at the offset of a write with mask `m` becomes `old | m` in set mode,
`old ^ m` in invert mode and, in clear mode, `old & ~m` (the old bits that `m`
does not have); every other byte is unchanged; the constructed device is in set
mode. -/
theorem draw_modes_per_byte (mode : Nat) (d : List Nat) (c : SinkCall) (hc : c.isU8 = true) :
    SSD1306.apply mode d c = SSD1306.writeAll mode d (SSD1306.writes c) ∧
    ((SSD1306.writes c).map fun w => w.1).Nodup ∧
    (∀ o m, (o, m) ∈ SSD1306.writes c → o < d.length →
      (SSD1306.apply mode d c).getD o 0 = SSD1306.blend mode (d.getD o 0) m) ∧
    (∀ j, (∀ w ∈ SSD1306.writes c, w.1 ≠ j) → (SSD1306.apply mode d c).getD j 0 = d.getD j 0) ∧
    (∀ old m, SSD1306.blend GL_WHITE old m = old ||| m) ∧
    (∀ old m, SSD1306.blend GL_XOR old m = old ^^^ m) ∧
    (∀ old m, SSD1306.blend GL_BLACK old m = old &&& (255 ^^^ m)) ∧
    (∀ old m i, old < 256 →
      (SSD1306.blend GL_BLACK old m).testBit i = (old.testBit i && !m.testBit i)) ∧
    SSD1306.blank.mode = GL_WHITE := by
  have happ : SSD1306.apply mode d c = SSD1306.writeAll mode d (SSD1306.writes c) := by
    apply SSD1306.apply_eq_writeAll
    intro l r y e
    subst e
    simp only [SinkCall.isU8, decide_eq_true_eq] at hc
    exact hc.2.1
  have hnd := SSD1306.nodup_writes c hc
  refine ⟨happ, hnd, ?_, ?_, fun _ _ => rfl, fun _ _ => rfl, fun _ _ => rfl,
    fun old m i h => SSD1306.blend_black_testBit old m i h, rfl⟩
  · intro o m hmem ho
    rw [happ]
    exact SSD1306.getD_writeAll_nodup mode _ d hnd o m hmem ho
  · intro j hj
    rw [happ]
    exact SSD1306.getD_writeAll_untouched mode j _ d hj

theorem draw_modes_per_byte_witness :
    (SinkCall.setVBar 5 3 20).isU8 = true ∧
    (SSD1306.apply GL_XOR SSD1306.blank.display (SinkCall.setVBar 5 3 20) =
      SSD1306.writeAll GL_XOR SSD1306.blank.display (SSD1306.writes (SinkCall.setVBar 5 3 20)) ∧
    ((SSD1306.writes (SinkCall.setVBar 5 3 20)).map fun w => w.1).Nodup ∧
    (∀ o m, (o, m) ∈ SSD1306.writes (SinkCall.setVBar 5 3 20) → o < SSD1306.blank.display.length →
      (SSD1306.apply GL_XOR SSD1306.blank.display (SinkCall.setVBar 5 3 20)).getD o 0 =
        SSD1306.blend GL_XOR (SSD1306.blank.display.getD o 0) m) ∧
    (∀ j, (∀ w ∈ SSD1306.writes (SinkCall.setVBar 5 3 20), w.1 ≠ j) →
      (SSD1306.apply GL_XOR SSD1306.blank.display (SinkCall.setVBar 5 3 20)).getD j 0 =
        SSD1306.blank.display.getD j 0) ∧
    (∀ old m, SSD1306.blend GL_WHITE old m = old ||| m) ∧
    (∀ old m, SSD1306.blend GL_XOR old m = old ^^^ m) ∧
    (∀ old m, SSD1306.blend GL_BLACK old m = old &&& (255 ^^^ m)) ∧
    (∀ old m i, old < 256 →
      (SSD1306.blend GL_BLACK old m).testBit i = (old.testBit i && !m.testBit i)) ∧
    SSD1306.blank.mode = GL_WHITE) :=
  ⟨by decide, draw_modes_per_byte GL_XOR SSD1306.blank.display (SinkCall.setVBar 5 3 20)
    (by decide)⟩

namespace SSD1306

theorem testBit_of_lt_256 (m i : Nat) (hm : m < 256) (hi : 8 ≤ i) : m.testBit i = false := by
  have h8 : 2 ^ 8 ≤ 2 ^ i := Nat.pow_le_pow_right (by decide : 0 < 2) hi
  exact Nat.testBit_lt_two_pow (Nat.lt_of_lt_of_le (by simpa using hm) h8)

/-- Two writes on one byte with masks that share no bit act like one write with
both masks. -/
theorem blend_blend (mode old m1 m2 : Nat) (hd : m1 &&& m2 = 0) (h1 : m1 < 256)
    (h2 : m2 < 256) :
    blend mode (blend mode old m1) m2 = blend mode old (m1 ||| m2) := by
  apply Nat.eq_of_testBit_eq
  intro i
  have hdi : (m1.testBit i && m2.testBit i) = false := by
    rw [← Nat.testBit_and, hd, Nat.zero_testBit]
  have hhi : ¬ i < 8 → m1.testBit i = false ∧ m2.testBit i = false := fun h =>
    ⟨testBit_of_lt_256 m1 i h1 (by omega), testBit_of_lt_256 m2 i h2 (by omega)⟩
  unfold blend
  split
  · simp only [Nat.testBit_and, Nat.testBit_xor, Nat.testBit_or, testBit_255]
    by_cases hi : i < 8
    · simp only [hi, decide_True]
      revert hdi
      generalize m1.testBit i = a
      generalize m2.testBit i = b
      generalize old.testBit i = o
      cases a <;> cases b <;> cases o <;> simp
    · obtain ⟨e1, e2⟩ := hhi hi
      simp [hi, e1, e2]
  · simp only [Nat.testBit_xor, Nat.testBit_or]
    revert hdi
    generalize m1.testBit i = a
    generalize m2.testBit i = b
    generalize old.testBit i = o
    cases a <;> cases b <;> cases o <;> simp
  · simp only [Nat.testBit_or]
    generalize m1.testBit i = a
    generalize m2.testBit i = b
    generalize old.testBit i = o
    cases a <;> cases b <;> cases o <;> simp

theorem maskAt_fold (j : Nat) (ws : List (Nat × Nat)) :
    ∀ m0, ws.foldl (fun m w => if w.1 = j then m ||| w.2 else m) m0 =
      m0 ||| ws.foldl (fun m w => if w.1 = j then m ||| w.2 else m) 0 := by
  induction ws with
  | nil => intro m0; simp
  | cons w ws ih =>
    intro m0
    rw [List.foldl_cons, List.foldl_cons, ih, ih (if w.1 = j then 0 ||| w.2 else 0)]
    by_cases h : w.1 = j
    · simp only [h, if_true, Nat.zero_or, Nat.or_assoc]
    · simp only [h, if_false, Nat.zero_or]

theorem maskAt_cons (j : Nat) (w : Nat × Nat) (ws : List (Nat × Nat)) :
    maskAt (w :: ws) j = (if w.1 = j then w.2 else 0) ||| maskAt ws j := by
  unfold maskAt
  rw [List.foldl_cons, maskAt_fold]
  by_cases h : w.1 = j
  · simp only [h, if_true, Nat.zero_or]
  · simp only [h, if_false]

/-- A bit of the combined mask is set when some write at that offset has it. -/
theorem testBit_maskAt (j i : Nat) (ws : List (Nat × Nat)) :
    (maskAt ws j).testBit i = ws.any fun w => decide (w.1 = j) && w.2.testBit i := by
  induction ws with
  | nil => simp [maskAt]
  | cons w ws ih =>
    rw [maskAt_cons, Nat.testBit_or, ih, List.any_cons]
    by_cases h : w.1 = j
    · simp [h]
    · simp [h]

theorem maskAt_lt (j : Nat) (ws : List (Nat × Nat)) (h : ∀ w ∈ ws, w.2 < 256) :
    maskAt ws j < 256 := by
  have := Nat.lt_pow_two_of_testBit (n := 8) (maskAt ws j) (fun i hi => by
    rw [testBit_maskAt, List.any_eq_false]
    intro w hw
    simp [testBit_of_lt_256 w.2 i (h w hw) hi])
  simpa using this

theorem maskAt_untouched (j : Nat) (ws : List (Nat × Nat)) (h : ∀ w ∈ ws, w.1 ≠ j) :
    maskAt ws j = 0 := by
  apply Nat.eq_of_testBit_eq
  intro i
  rw [testBit_maskAt, Nat.zero_testBit, List.any_eq_false]
  intro w hw
  simp [h w hw]

/-- When every mask has a bit, the offsets written are those with a combined
mask other than zero. -/
theorem maskAt_ne_zero_iff (j : Nat) (ws : List (Nat × Nat)) (hnz : ∀ w ∈ ws, w.2 ≠ 0) :
    maskAt ws j ≠ 0 ↔ ∃ w ∈ ws, w.1 = j := by
  constructor
  · intro h
    by_contra hc
    exact h (maskAt_untouched j ws (fun w hw e => hc ⟨w, hw, e⟩))
  · rintro ⟨w, hw, e⟩ h0
    have hwz : w.2 = 0 := by
      apply Nat.eq_of_testBit_eq
      intro i
      have hi : (maskAt ws j).testBit i = false := by rw [h0, Nat.zero_testBit]
      rw [testBit_maskAt, List.any_eq_false] at hi
      have := hi w hw
      simp only [e, decide_True, Bool.true_and] at this
      rw [Nat.zero_testBit]
      simpa using this
    exact hnz w hw hwz

/-- Writes whose masks at one offset share no bit act on that byte like a single
write with the combined mask. -/
theorem getD_writeAll_disjoint (mode : Nat) (ws : List (Nat × Nat)) :
    ∀ d : List Nat, ws.Pairwise (fun a b => a.1 = b.1 → a.2 &&& b.2 = 0) →
      (∀ w ∈ ws, w.2 < 256) → ∀ j, j < d.length → (∃ w ∈ ws, w.1 = j) →
      (writeAll mode d ws).getD j 0 = blend mode (d.getD j 0) (maskAt ws j) := by
  induction ws with
  | nil => intro d _ _ j _ h; simp at h
  | cons w ws ih =>
    intro d hp hlt j hj ht
    rw [List.pairwise_cons] at hp
    have hlt' : ∀ v ∈ ws, v.2 < 256 := fun v hv => hlt v (List.mem_cons_of_mem _ hv)
    rw [writeAll_cons, maskAt_cons]
    by_cases hin : ∃ v ∈ ws, v.1 = j
    · rw [ih _ hp.2 hlt' j (by rw [length_applyMask]; exact hj) hin, getD_applyMask]
      by_cases hw : w.1 = j
      · rw [if_pos ⟨hw.symm, by rw [hw]; exact hj⟩, if_pos hw, hw]
        apply blend_blend _ _ _ _ _ (hlt w (List.mem_cons_self _ _)) (maskAt_lt j ws hlt')
        apply Nat.eq_of_testBit_eq
        intro i
        rw [Nat.testBit_and, testBit_maskAt, Nat.zero_testBit]
        by_cases hb : w.2.testBit i = true
        · rw [hb, Bool.true_and, List.any_eq_false]
          intro v hv
          by_cases hvj : v.1 = j
          · have h0 := hp.1 v hv (by rw [hw, hvj])
            have : (w.2 &&& v.2).testBit i = false := by rw [h0, Nat.zero_testBit]
            rw [Nat.testBit_and, hb, Bool.true_and] at this
            simp [this]
          · simp [hvj]
        · simp [hb]
      · rw [if_neg (fun e => hw e.1.symm), if_neg hw, Nat.zero_or]
    · have hw : w.1 = j := by
        obtain ⟨v, hv, e⟩ := ht
        rcases List.mem_cons.1 hv with rfl | hv'
        · exact e
        · exact absurd ⟨v, hv', e⟩ hin
      have hun : ∀ v ∈ ws, v.1 ≠ j := fun v hv e => hin ⟨v, hv, e⟩
      rw [getD_writeAll_untouched mode j ws _ hun, getD_applyMask,
        if_pos ⟨hw.symm, by rw [hw]; exact hj⟩, if_pos hw, maskAt_untouched j ws hun, Nat.or_zero,
        hw]

theorem ext_getD (l1 l2 : List Nat) (hl : l1.length = l2.length)
    (h : ∀ j, j < l1.length → l1.getD j 0 = l2.getD j 0) : l1 = l2 := by
  apply List.ext_getElem hl
  intro n h1 h2
  have := h n h1
  simpa [List.getD_eq_getElem?_getD, List.getElem?_eq_getElem h1, List.getElem?_eq_getElem h2]
    using this

/-- Two lists of writes with the same combined mask at every offset leave the
same frame buffer. -/
theorem writeAll_congr (mode : Nat) (d : List Nat) (ws1 ws2 : List (Nat × Nat))
    (hp1 : ws1.Pairwise (fun a b => a.1 = b.1 → a.2 &&& b.2 = 0))
    (hp2 : ws2.Pairwise (fun a b => a.1 = b.1 → a.2 &&& b.2 = 0))
    (hlt1 : ∀ w ∈ ws1, w.2 < 256) (hlt2 : ∀ w ∈ ws2, w.2 < 256)
    (hnz1 : ∀ w ∈ ws1, w.2 ≠ 0) (hnz2 : ∀ w ∈ ws2, w.2 ≠ 0)
    (hm : ∀ j, maskAt ws1 j = maskAt ws2 j) :
    writeAll mode d ws1 = writeAll mode d ws2 := by
  apply ext_getD
  · rw [length_writeAll, length_writeAll]
  · intro j hj
    rw [length_writeAll] at hj
    by_cases ht : maskAt ws1 j ≠ 0
    · have t1 := (maskAt_ne_zero_iff j ws1 hnz1).1 ht
      have t2 := (maskAt_ne_zero_iff j ws2 hnz2).1 (by rw [← hm]; exact ht)
      rw [getD_writeAll_disjoint mode ws1 d hp1 hlt1 j hj t1,
        getD_writeAll_disjoint mode ws2 d hp2 hlt2 j hj t2, hm]
    · have u1 : ∀ w ∈ ws1, w.1 ≠ j := fun w hw e =>
        ht ((maskAt_ne_zero_iff j ws1 hnz1).2 ⟨w, hw, e⟩)
      have u2 : ∀ w ∈ ws2, w.1 ≠ j := fun w hw e =>
        ht (by rw [hm]; exact (maskAt_ne_zero_iff j ws2 hnz2).2 ⟨w, hw, e⟩)
      rw [getD_writeAll_untouched mode j ws1 d u1, getD_writeAll_untouched mode j ws2 d u2]

end SSD1306

namespace SSD1306

theorem topPattern_bits (k i : Nat) (hk : k < 8) :
    ((0xFF <<< k) % 256).testBit i = decide (k ≤ i ∧ i < 8) := by
  by_cases hi : i < 8
  · rw [topPattern_testBit k hk i hi]; simp [hi]
  · rw [testBit_of_lt_256 _ i (Nat.mod_lt _ (by decide)) (by omega)]; simp [hi]

theorem bottomPattern_bits (k i : Nat) (hk : k < 8) :
    (toU8 (((0x02 <<< k : Nat) : Int) - 1)).testBit i = decide (i ≤ k) := by
  by_cases hi : i < 8
  · rw [bottomPattern_testBit k hk i hi]
  · rw [testBit_of_lt_256 _ i (toU8_lt _) (by omega)]
    have : ¬ i ≤ k := by omega
    simp [this]

theorem mem_setVBarWrites_lt (x top bottom : Nat) : ∀ w ∈ setVBarWrites x top bottom, w.2 < 256 := by
  intro w hw
  unfold setVBarWrites at hw
  have ht : (0xFF <<< (top &&& 0x07)) % 256 < 256 := Nat.mod_lt _ (by decide)
  have hb := toU8_lt (((0x02 <<< (bottom &&& 0x07) : Nat) : Int) - 1)
  dsimp only at hw
  split at hw
  · rw [List.mem_singleton] at hw
    subst hw
    exact Nat.lt_of_le_of_lt Nat.and_le_left ht
  · simp only [List.mem_append, List.mem_cons, List.mem_map, List.not_mem_nil, or_false] at hw
    rcases hw with (rfl | rfl) | ⟨i, _, rfl⟩
    · exact ht
    · exact hb
    · show (255 : Nat) < 256
      decide

/-- The bits the paged vertical run writes: bit `i` of the byte at `j` belongs
to a mask of a write at `j` exactly when it is the bit of a pixel of the run. -/
theorem setVBarWrites_bit (x top bottom j i : Nat) (hx : x < 128) (htb : top ≤ bottom)
    (hb : bottom < 64) :
    (∃ w ∈ setVBarWrites x top bottom, w.1 = j ∧ w.2.testBit i = true) ↔
      ∃ y, top ≤ y ∧ y ≤ bottom ∧ j = x + y / 8 * 128 ∧ i = y % 8 := by
  have hpt : (SSD1306_NUMPAGES - 1) &&& (top >>> 3) = top / 8 := by rw [page_eq]; omega
  have hpb : (SSD1306_NUMPAGES - 1) &&& (bottom >>> 3) = bottom / 8 := by rw [page_eq]; omega
  have ht := topPattern_bits (top % 8) i (by omega)
  have hbp := bottomPattern_bits (bottom % 8) i (by omega)
  have hf := testBit_255 i
  unfold setVBarWrites
  simp only [hpt, hpb, and7r, SSD1306_WIDTH]
  by_cases hpg : top / 8 = bottom / 8
  · rw [if_pos hpg]
    simp only [List.mem_singleton, exists_eq_left, Nat.testBit_and, ht, hbp, Bool.and_eq_true,
      decide_eq_true_eq]
    constructor
    · rintro ⟨h1, h2, h3⟩
      exact ⟨8 * (top / 8) + i, by omega, by omega, by omega, by omega⟩
    · rintro ⟨y, h1, h2, h3, h4⟩
      omega
  · rw [if_neg hpg]
    simp only [List.mem_append, List.mem_cons, List.mem_map, List.mem_range'_1, List.not_mem_nil,
      or_false]
    constructor
    · rintro ⟨w, (rfl | rfl) | ⟨p, hp, rfl⟩, h1, h2⟩
      · simp only [ht, decide_eq_true_eq] at h2
        exact ⟨8 * (top / 8) + i, by omega, by omega, by omega, by omega⟩
      · simp only [hbp, decide_eq_true_eq] at h2
        exact ⟨8 * (bottom / 8) + i, by omega, by omega, by omega, by omega⟩
      · simp only [hf, decide_eq_true_eq] at h2
        exact ⟨8 * p + i, by omega, by omega, by omega, by omega⟩
    · rintro ⟨y, h1, h2, h3, h4⟩
      by_cases c1 : y / 8 = top / 8
      · exact ⟨_, Or.inl (Or.inl rfl), by simp only; omega,
          by simp only [ht, decide_eq_true_eq]; omega⟩
      · by_cases c2 : y / 8 = bottom / 8
        · exact ⟨_, Or.inl (Or.inr rfl), by simp only; omega,
            by simp only [hbp, decide_eq_true_eq]; omega⟩
        · exact ⟨_, Or.inr ⟨y / 8, by omega, rfl⟩, by simp only; omega,
            by simp only [hf, decide_eq_true_eq]; omega⟩

theorem topPattern_ne_zero : ∀ k, k < 8 → (0xFF <<< k) % 256 ≠ 0 := by decide

theorem bottomPattern_ne_zero : ∀ k, k < 8 → toU8 (((0x02 <<< k : Nat) : Int) - 1) ≠ 0 := by
  decide

theorem bothPattern_ne_zero : ∀ k1, k1 < 8 → ∀ k2, k2 < 8 → k1 ≤ k2 →
    ((0xFF <<< k1) % 256) &&& toU8 (((0x02 <<< k2 : Nat) : Int) - 1) ≠ 0 := by
  decide

theorem mem_setVBarWrites_ne_zero (x top bottom : Nat) (htb : top ≤ bottom) (hb : bottom < 64) :
    ∀ w ∈ setVBarWrites x top bottom, w.2 ≠ 0 := by
  intro w hw
  have hpt : (SSD1306_NUMPAGES - 1) &&& (top >>> 3) = top / 8 := by rw [page_eq]; omega
  have hpb : (SSD1306_NUMPAGES - 1) &&& (bottom >>> 3) = bottom / 8 := by rw [page_eq]; omega
  unfold setVBarWrites at hw
  simp only [hpt, hpb, and7r] at hw
  by_cases hpg : top / 8 = bottom / 8
  · rw [if_pos hpg, List.mem_singleton] at hw
    subst hw
    exact bothPattern_ne_zero _ (by omega) _ (by omega) (by omega)
  · rw [if_neg hpg] at hw
    simp only [List.mem_append, List.mem_cons, List.mem_map, List.not_mem_nil, or_false] at hw
    rcases hw with (rfl | rfl) | ⟨i, _, rfl⟩
    · exact topPattern_ne_zero _ (by omega)
    · exact bottomPattern_ne_zero _ (by omega)
    · show (255 : Nat) ≠ 0
      decide

theorem pow_and_pow : ∀ a, a < 8 → ∀ b, b < 8 → a ≠ b → 2 ^ a &&& 2 ^ b = 0 := by decide

theorem pixelBit_lt (y : Nat) : pixelBit y < 256 := by
  unfold pixelBit
  exact Nat.mod_lt _ (by decide)

theorem pixelBit_ne_zero (y : Nat) : pixelBit y ≠ 0 := by
  rw [pixelBit_eq]
  exact Nat.pos_iff_ne_zero.1 (Nat.two_pow_pos _)

end SSD1306

namespace SSD1306

theorem pairwise_of_nodup_offsets (ws : List (Nat × Nat)) (h : (ws.map fun w => w.1).Nodup) :
    ws.Pairwise (fun a b => a.1 = b.1 → a.2 &&& b.2 = 0) :=
  (List.pairwise_map.1 h).imp (fun hne e => absurd e hne)

/-- The writes of the single pixel calls of a column run inside the display:
two of them at the same byte set different bits. -/
theorem pairwise_column_writes (x top n : Nat) (hx : x < 128) (hn : top + n ≤ 64) :
    ((List.range' top n).map fun i => (pixelOffset x i, pixelBit i)).Pairwise
      (fun a b => a.1 = b.1 → a.2 &&& b.2 = 0) := by
  rw [List.pairwise_map]
  have hlt : (List.range' top n).Pairwise (fun a b => a < b) := List.pairwise_lt_range' top n
  have hmem : ∀ a ∈ List.range' top n, a < 64 := by
    intro a ha
    rw [List.mem_range'_1] at ha
    omega
  refine (List.Pairwise.and_mem.1 hlt).imp ?_
  rintro a b ⟨ha, hb, hab⟩ e
  have ha' := hmem a ha
  have hb' := hmem b hb
  simp only [pixelOffset_eq x _ (by omega : x < 256)] at e
  rw [pixelBit_eq, pixelBit_eq]
  exact pow_and_pow _ (by omega) _ (by omega) (by omega)

/-- The bits the single pixel calls of a column run write. -/
theorem column_writes_bit (x top bottom j i : Nat) (htb : top ≤ bottom) :
    (∃ w ∈ (List.range' top (bottom - top + 1)).map (fun r => (pixelOffset x r, pixelBit r)),
        w.1 = j ∧ w.2.testBit i = true) ↔
      ∃ y, top ≤ y ∧ y ≤ bottom ∧ j = pixelOffset x y ∧ i = y % 8 := by
  simp only [List.mem_map, List.mem_range'_1, exists_exists_and_eq_and, pixelBit_eq,
    Nat.testBit_two_pow, decide_eq_true_eq]
  constructor
  · rintro ⟨y, hy, h1, h2⟩
    exact ⟨y, by omega, by omega, h1.symm, h2.symm⟩
  · rintro ⟨y, h1, h2, h3, h4⟩
    exact ⟨y, by omega, h3.symm, h4.symm⟩

/-- The paged vertical run and the single pixel calls of the same column run
combine to the same mask at every byte. -/
theorem maskAt_setVBarWrites (x top bottom j : Nat) (hx : x < 128) (htb : top ≤ bottom)
    (hb : bottom < 64) :
    maskAt (setVBarWrites x top bottom) j =
      maskAt ((List.range' top (bottom - top + 1)).map fun r => (pixelOffset x r, pixelBit r)) j := by
  apply Nat.eq_of_testBit_eq
  intro i
  rw [testBit_maskAt, testBit_maskAt, Bool.eq_iff_iff]
  simp only [List.any_eq_true, Bool.and_eq_true, decide_eq_true_eq]
  rw [setVBarWrites_bit x top bottom j i hx htb hb, column_writes_bit x top bottom j i htb]
  constructor
  · rintro ⟨y, h1, h2, h3, h4⟩
    exact ⟨y, h1, h2, by rw [pixelOffset_eq x y (by omega)]; omega, h4⟩
  · rintro ⟨y, h1, h2, h3, h4⟩
    exact ⟨y, h1, h2, by rw [pixelOffset_eq x y (by omega)] at h3; omega, h4⟩

end SSD1306

/-- C11: for `x < 128` and `top <= bottom <= 63`, in every drawing mode, the
default `setVBarInternal` of the engine returns, issues `setPixelInternal(x, i)`
for `i = top, ..., bottom`, and these calls leave the same frame buffer as the
paged `SSD1306::setVBarInternal(x, top, bottom)`. -/
theorem setVBar_refines_default (mode : Nat) (d : List Nat) (x top bottom : Nat)
    (hx : x < 128) (htb : top ≤ bottom) (hb : bottom ≤ 63) :
    ∃ calls, GraphicDisplay.setVBarInternal x top bottom = some calls ∧
      calls = (List.range' top (bottom - top + 1)).map (fun i => SinkCall.setPixel x i) ∧
      SSD1306.run mode d calls = SSD1306.setVBarInternal mode d x top bottom := by
  have hloop : barLoop barFuel top bottom = some (List.range' top (bottom + 1 - top)) :=
    barLoop_eq_range bottom (by omega) barFuel top (by omega) (by unfold barFuel; omega)
  have e : bottom + 1 - top = bottom - top + 1 := by omega
  refine ⟨_, by unfold GraphicDisplay.setVBarInternal; rw [hloop, e]; rfl, rfl, ?_⟩
  rw [SSD1306.run_setPixel_column, SSD1306.setVBarInternal_eq_writeAll]
  refine SSD1306.writeAll_congr mode d _ _
    (SSD1306.pairwise_column_writes x top _ hx (by omega))
    (SSD1306.pairwise_of_nodup_offsets _ (SSD1306.nodup_setVBarWrites x top bottom (by omega)))
    ?_ (SSD1306.mem_setVBarWrites_lt x top bottom) ?_
    (SSD1306.mem_setVBarWrites_ne_zero x top bottom htb (by omega))
    (fun j => (SSD1306.maskAt_setVBarWrites x top bottom j hx htb (by omega)).symm)
  · intro w hw
    obtain ⟨r, _, rfl⟩ := List.mem_map.1 hw
    exact SSD1306.pixelBit_lt r
  · intro w hw
    obtain ⟨r, _, rfl⟩ := List.mem_map.1 hw
    exact SSD1306.pixelBit_ne_zero r

theorem setVBar_refines_default_witness :
    (5 < 128 ∧ 3 ≤ 23 ∧ 23 ≤ 63) ∧
    ∃ calls, GraphicDisplay.setVBarInternal 5 3 23 = some calls ∧
      calls = (List.range' 3 (23 - 3 + 1)).map (fun i => SinkCall.setPixel 5 i) ∧
      SSD1306.run GL_XOR SSD1306.blank.display calls =
        SSD1306.setVBarInternal GL_XOR SSD1306.blank.display 5 3 23 :=
  ⟨by decide, setVBar_refines_default GL_XOR SSD1306.blank.display 5 3 23 (by decide) (by decide)
    (by decide)⟩

/-- C14: the byte offsets the backend routines compute for `uint8_t` arguments
beyond column 127: `setPixelInternal(128, 56)` writes at offset 1024, one past
the 1024 byte array, `setPixelInternal(255, 63)` and `setVBarInternal(255, 56,
63)` at offset 1151, and the last write of `setHBarInternal(0, 255, 63)` is at
offset 1151. -/
theorem backend_offsets_beyond_array :
    (SinkCall.setPixel 128 56).isU8 = true ∧
      SSD1306.writes (SinkCall.setPixel 128 56) = [(1024, 1)] ∧
      SSD1306.writes (SinkCall.setPixel 255 63) = [(1151, 128)] ∧
      SSD1306.writes (SinkCall.setVBar 255 56 63) = [(1151, 255)] ∧
      (SSD1306.writes (SinkCall.setHBar 0 255 63)).getLast? = some (1151, 128) ∧
      SSD1306_MEMORY = 1024 ∧ ¬ 1024 < SSD1306_MEMORY ∧ ¬ 1151 < SSD1306_MEMORY := by
  decide

namespace GraphicDisplay

/-- One row of the bit loops of `drawChar`, started with the counter at `b`. -/
theorem drawChar_row_fold (font : GFXfont) (g : GFXglyph) (xo yo y : Nat) :
    ∀ n b (tr : List SinkCall), b + n < 65536 →
      (List.range n).foldl (fun (st : Nat × List SinkCall) x =>
        let bitIndex := st.1
        let b := 0x80 >>> (bitIndex &&& 7)
        let n := ((bitIndex >>> 3) + g.bitmapOffset) % 65536
        let calls :=
          if font.bitmap.getD n 0 &&& b ≠ 0 then
            st.2 ++ [SinkCall.setPixel ((x + xo) % 256) ((y + yo) % 256)]
          else st.2
        ((bitIndex + 1) % 65536, calls)) (b, tr) =
      (b + n, tr ++ (List.range n).filterMap fun x =>
        if glyphBitSet font g (b + x) then
          some (SinkCall.setPixel ((x + xo) % 256) ((y + yo) % 256))
        else none) := by
  intro n
  induction n with
  | zero => intro b tr _; simp
  | succ n ih =>
    intro b tr hb
    rw [List.range_succ, List.foldl_append, ih b tr (by omega), List.filterMap_append]
    simp only [List.foldl_cons, List.foldl_nil, List.filterMap_cons, List.filterMap_nil]
    have e : (b + n + 1) % 65536 = b + (n + 1) := by omega
    by_cases h : font.bitmap.getD (((b + n) >>> 3 + g.bitmapOffset) % 65536) 0 &&&
        (0x80 >>> ((b + n) &&& 7)) ≠ 0
    · have hg : glyphBitSet font g (b + n) = true := by
        unfold glyphBitSet; exact decide_eq_true h
      simp only [h, hg, e, if_true, ne_eq, not_false_eq_true, List.append_assoc]
    · have hg : glyphBitSet font g (b + n) = false := by
        unfold glyphBitSet; exact decide_eq_false h
      simp only [h, hg, e, if_false, ne_eq, not_true_eq_false, List.append_nil]
      simp

/-- The bit loops of `drawChar` issue the calls of `drawCharRows`, in that
order. -/
theorem drawCharBits_eq_rows (font : GFXfont) (g : GFXglyph) (xo yo : Nat)
    (hw : g.width < 256) (hh : g.height < 256) :
    drawCharBits font g xo yo = drawCharRows font g xo yo := by
  have hrows : ∀ n, n ≤ g.height →
      (List.range n).foldl (fun (st : Nat × List SinkCall) y =>
        (List.range g.width).foldl (fun (st : Nat × List SinkCall) x =>
          let bitIndex := st.1
          let b := 0x80 >>> (bitIndex &&& 7)
          let n := ((bitIndex >>> 3) + g.bitmapOffset) % 65536
          let calls :=
            if font.bitmap.getD n 0 &&& b ≠ 0 then
              st.2 ++ [SinkCall.setPixel ((x + xo) % 256) ((y + yo) % 256)]
            else st.2
          ((bitIndex + 1) % 65536, calls)) st) (0, []) =
      (n * g.width, (List.range n).flatMap fun y =>
        (List.range g.width).filterMap fun x =>
          if glyphBitSet font g (y * g.width + x) then
            some (SinkCall.setPixel ((x + xo) % 256) ((y + yo) % 256))
          else none) := by
    intro n
    induction n with
    | zero => intro _; simp
    | succ n ih =>
      intro hn
      have hb : n * g.width + g.width < 65536 := by
        have h1 : (n + 1) * g.width ≤ 255 * 255 := Nat.mul_le_mul (by omega) (by omega)
        rw [Nat.add_mul, Nat.one_mul] at h1
        omega
      rw [List.range_succ, List.foldl_append, ih (by omega), List.flatMap_append]
      simp only [List.foldl_cons, List.foldl_nil, List.flatMap_cons, List.flatMap_nil,
        List.append_nil]
      rw [drawChar_row_fold font g xo yo n g.width (n * g.width) _ hb, Nat.add_mul, Nat.one_mul]
  unfold drawCharBits drawCharRows
  rw [hrows g.height (le_refl _)]

end GraphicDisplay

theorem and_two_pow_ne_zero (B m : Nat) : B &&& 2 ^ m ≠ 0 ↔ B.testBit m = true := by
  constructor
  · intro h
    obtain ⟨i, hi⟩ := Nat.ne_zero_implies_bit_true h
    rw [Nat.testBit_and, Nat.testBit_two_pow, Bool.and_eq_true, decide_eq_true_eq] at hi
    rw [hi.2]
    exact hi.1
  · intro h e
    have : (B &&& 2 ^ m).testBit m = true := by
      rw [Nat.testBit_and, h, Nat.testBit_two_pow_self]
      rfl
    rw [e, Nat.zero_testBit] at this
    exact absurd this (by decide)

theorem glyph_mask : ∀ r, r < 8 → 0x80 >>> r = 2 ^ (7 - r) := by decide

namespace GraphicDisplay

/-- The test of `drawChar` reads the bit at address `8 * bitmapOffset + bitIndex`
of the bitmap. -/
theorem glyphBitSet_eq_bitAt (font : GFXfont) (g : GFXglyph) (k : Nat)
    (hk : g.bitmapOffset + k / 8 < 65536) :
    glyphBitSet font g k = font.bitAt (8 * g.bitmapOffset + k) := by
  unfold glyphBitSet GFXfont.bitAt
  have e1 : (k >>> 3 + g.bitmapOffset) % 65536 = (8 * g.bitmapOffset + k) / 8 := by
    rw [Nat.shiftRight_eq_div_pow]
    have : k / 2 ^ 3 = k / 8 := rfl
    omega
  have e2 : (8 * g.bitmapOffset + k) % 8 = k % 8 := by omega
  have e3 : k &&& 7 = k % 8 := SSD1306.and7r k
  rw [e1, e2, e3, glyph_mask _ (Nat.mod_lt _ (by decide)), Bool.eq_iff_iff, decide_eq_true_eq]
  exact and_two_pow_ne_zero _ _

theorem glyph_pixel (p : Nat) (off : Int) (k : Nat) :
    (k + toU8 ((p : Int) + off)) % 256 = toU8 ((p : Int) + off + k) := by
  unfold toU8
  omega

end GraphicDisplay

/-- C20 (as stated): with the font `offsetFont` (bitmap bytes `0x00, 0x80`, one
glyph of one pixel with `bitmapOffset = 1`), `drawChar(65)` at the cursor
`(0,0)` writes the pixel `(0,0)`, although the bit at bit address
`bitmapOffset + 0 * width + 0 = 1` of the bitmap lies in its first byte, which
is zero. -/
theorem drawChar_offset_is_not_a_bit_address :
    (GraphicDisplay.drawChar ⟨some offsetFont, ⟨0, 0⟩, ⟨128, 64⟩, ⟨⟨0, 0⟩, ⟨0, 0⟩⟩⟩ 65).map
        (fun res => res.2) = some [SinkCall.setPixel 0 0] ∧
      offsetFont.glyph[65 - offsetFont.first]? = some ⟨1, 1, 1, 1, 0, 0⟩ ∧
      offsetFont.bitAt (1 + 0 * 1 + 0) = false ∧
      offsetFont.bitmap.getD ((1 + 0 * 1 + 0) / 8) 0 = 0 ∧
      offsetFont.bitAt (8 * 1 + 0 * 1 + 0) = true := by
  decide

/-- C20 (amended): for a font set and a code in `[first, last]` with glyph `g`
(`uint8_t` width and height, its bytes within reach of the `uint16_t` index),
`drawChar` writes single pixels only, row by row, and writes the pixel
`(cursor.x + g.xOffset + col, cursor.y + g.yOffset + row)` (mod 256), for
`col < g.width` and `row < g.height`, exactly when the bit at bit address
`8 * g.bitmapOffset + row * g.width + col` of the bitmap is 1, the bits of a
byte counted from the most significant one: `bitmapOffset` is a byte offset. -/
theorem drawChar_bit_addressing (s : GraphicDisplay) (font : GFXfont) (c : Nat) (g : GFXglyph)
    (hfont : s.font = some font) (hc1 : font.first ≤ c) (hc2 : c ≤ font.last)
    (hg : font.glyph[c - font.first]? = some g)
    (hw : g.width < 256) (hh : g.height < 256)
    (hoff : g.bitmapOffset + g.width * g.height / 8 < 65536) :
    ∃ s1 calls, s.drawChar c = some (s1, calls) ∧
      calls = GraphicDisplay.drawCharRows font g (toU8 ((s.pos.x : Int) + g.xOffset))
        (toU8 ((s.pos.y : Int) + g.yOffset)) ∧
      (∀ call ∈ calls, ∃ x y, call = SinkCall.setPixel x y) ∧
      ∀ px py, covered calls px py = true ↔
        ∃ row col, row < g.height ∧ col < g.width ∧
          px = toU8 ((s.pos.x : Int) + g.xOffset + col) ∧
          py = toU8 ((s.pos.y : Int) + g.yOffset + row) ∧
          font.bitAt (8 * g.bitmapOffset + row * g.width + col) = true := by
  have hbit : ∀ row col, row < g.height → col < g.width →
      GraphicDisplay.glyphBitSet font g (row * g.width + col) =
        font.bitAt (8 * g.bitmapOffset + row * g.width + col) := by
    intro row col hr hcw
    rw [Nat.add_assoc]
    apply GraphicDisplay.glyphBitSet_eq_bitAt
    have h1 : (row + 1) * g.width ≤ g.height * g.width := Nat.mul_le_mul_right _ hr
    rw [Nat.add_mul, Nat.one_mul, Nat.mul_comm g.height] at h1
    have h2 : (row * g.width + col) / 8 ≤ g.width * g.height / 8 :=
      Nat.div_le_div_right (by omega)
    omega
  have hmem : ∀ call, call ∈ GraphicDisplay.drawCharRows font g
      (toU8 ((s.pos.x : Int) + g.xOffset)) (toU8 ((s.pos.y : Int) + g.yOffset)) ↔
      ∃ row col, row < g.height ∧ col < g.width ∧
        font.bitAt (8 * g.bitmapOffset + row * g.width + col) = true ∧
        call = SinkCall.setPixel (toU8 ((s.pos.x : Int) + g.xOffset + col))
          (toU8 ((s.pos.y : Int) + g.yOffset + row)) := by
    intro call
    unfold GraphicDisplay.drawCharRows
    simp only [List.mem_flatMap, List.mem_filterMap, List.mem_range,
      GraphicDisplay.glyph_pixel]
    constructor
    · rintro ⟨row, hr, col, hcw, h⟩
      split at h
      · rename_i hb
        rw [hbit row col hr hcw] at hb
        exact ⟨row, col, hr, hcw, hb, (Option.some.inj h).symm⟩
      · exact absurd h (by simp)
    · rintro ⟨row, col, hr, hcw, hb, rfl⟩
      refine ⟨row, hr, col, hcw, ?_⟩
      rw [hbit row col hr hcw, if_pos hb]
  obtain ⟨s1, hdraw⟩ : ∃ s1, s.drawChar c = some (s1, GraphicDisplay.drawCharRows font g
      (toU8 ((s.pos.x : Int) + g.xOffset)) (toU8 ((s.pos.y : Int) + g.yOffset))) := by
    unfold GraphicDisplay.drawChar
    rw [hfont]
    simp only [if_neg (by omega : ¬ c < font.first), if_neg (by omega : ¬ c > font.last), hg]
    rw [GraphicDisplay.drawCharBits_eq_rows font g _ _ hw hh]
    exact ⟨_, rfl⟩
  refine ⟨s1, _, hdraw, rfl, ?_, ?_⟩
  · intro call hcall
    obtain ⟨row, col, -, -, -, e⟩ := (hmem call).1 hcall
    exact ⟨_, _, e⟩
  · intro px py
    rw [covered_iff]
    constructor
    · rintro ⟨call, hcall, hcov⟩
      obtain ⟨row, col, hr, hcw, hb, rfl⟩ := (hmem call).1 hcall
      rw [covers_iff_setPixel] at hcov
      exact ⟨row, col, hr, hcw, hcov.1, hcov.2, hb⟩
    · rintro ⟨row, col, hr, hcw, e1, e2, hb⟩
      exact ⟨_, (hmem _).2 ⟨row, col, hr, hcw, hb, rfl⟩, by rw [covers_iff_setPixel]; exact ⟨e1, e2⟩⟩

namespace GraphicDisplay

/-- The calls of the loop of `drawCorner` are those of its body at each pair
`(x, y)` the loop passes through. -/
theorem drawCornerLoop_eq_steps (xm ym cmask : Nat) :
    ∀ fuel x y err, drawCornerLoop fuel xm ym cmask x y err =
      (cornerStepsLoop fuel x y err).map fun steps =>
        steps.flatMap fun p => cornerCalls xm ym cmask p.1 p.2 := by
  intro fuel
  induction fuel with
  | zero => intro x y err; rfl
  | succ n ih =>
    intro x y err
    unfold drawCornerLoop cornerStepsLoop
    simp only [ih]
    split_ifs <;>
      simp only [Option.map_map, Option.map_some', List.flatMap_cons, List.flatMap_nil,
        List.append_nil] <;> rfl

theorem drawCorner_eq_steps (xm ym r cmask : Nat) :
    drawCorner xm ym r cmask =
      (cornerSteps r).map fun steps => steps.flatMap fun p => cornerCalls xm ym cmask p.1 p.2 :=
  drawCornerLoop_eq_steps xm ym cmask _ _ _ _

set_option maxRecDepth 100000 in
/-- For every radius up to 31 the loop of `drawCorner` ends, with `x` between
`-r` and 0 and `y` between 0 and `r` in every pass. -/
theorem cornerSteps_bounded : ∀ r, r < 32 →
    (match cornerSteps r with
     | some steps => steps.all fun p =>
        decide (-(r : Int) ≤ p.1 ∧ p.1 ≤ 0 ∧ 0 ≤ p.2 ∧ p.2 ≤ (r : Int))
     | none => false) = true := by
  decide

end GraphicDisplay

theorem covered_append (a b : List SinkCall) (px py : Nat) :
    covered (a ++ b) px py = (covered a px py || covered b px py) := by
  simp [covered]

theorem covered_flatMap {α : Type} (l : List α) (f : α → List SinkCall) (px py : Nat) :
    covered (l.flatMap f) px py = true ↔ ∃ p ∈ l, covered (f p) px py = true := by
  simp only [covered_iff, List.mem_flatMap]
  constructor
  · rintro ⟨c, ⟨p, hp, hc⟩, h⟩
    exact ⟨p, hp, c, hc, h⟩
  · rintro ⟨p, hp, c, hc, h⟩
    exact ⟨c, ⟨p, hp, hc⟩, h⟩

/-- Lists of calls that stay inside boxes with no pixel in common address no
pixel in common. -/
theorem disjointCover_of_boxes (a b : List SinkCall) (A B : Nat × Nat × Nat × Nat)
    (ha : ∀ px py, covered a px py = true → inBox A px py)
    (hb : ∀ px py, covered b px py = true → inBox B px py)
    (hAB : boxesApart A B) : DisjointCover a b := by
  intro px py h
  have h1 := ha px py h.1
  have h2 := hb px py h.2
  unfold inBox at h1 h2
  unfold boxesApart at hAB
  omega

namespace GraphicDisplay

/-- For a radius below 32 the loop of `drawCorner` returns, and every pair
`(x, y)` it passes through has `-r <= x <= 0` and `0 <= y <= r`. -/
theorem cornerSteps_spec (r : Nat) (hr : r < 32) :
    ∃ steps, cornerSteps r = some steps ∧
      ∀ p ∈ steps, -(r : Int) ≤ p.1 ∧ p.1 ≤ 0 ∧ 0 ≤ p.2 ∧ p.2 ≤ (r : Int) := by
  have h := cornerSteps_bounded r hr
  cases hs : cornerSteps r with
  | none => rw [hs] at h; simp at h
  | some steps =>
    rw [hs] at h
    refine ⟨steps, rfl, ?_⟩
    simpa [List.all_eq_true] using h

/-- The filled top left arc (mask `0x14`) stays in the square of side `r + 1`
whose bottom right pixel is the centre. -/
theorem drawCorner_topLeft (xm ym r : Nat) (hr : r < 32) (hx : r ≤ xm) (hy : r ≤ ym)
    (hxm : xm < 256) (hym : ym < 256) :
    ∃ calls, drawCorner xm ym r 0x14 = some calls ∧
      ∀ px py, covered calls px py = true → inBox (xm - r, xm, ym - r, ym) px py := by
  obtain ⟨steps, hs, hall⟩ := cornerSteps_spec r hr
  rw [drawCorner_eq_steps, hs]
  refine ⟨_, rfl, ?_⟩
  intro px py h
  rw [covered_flatMap] at h
  obtain ⟨p, hp, hc⟩ := h
  obtain ⟨h1, h2, h3, h4⟩ := hall p hp
  have e1 : toU8 ((xm : Int) + p.1) = ((xm : Int) + p.1).toNat := toU8_eq _ _ (by omega) (by omega)
  have e2 : toU8 ((ym : Int) - p.2) = ((ym : Int) - p.2).toNat := toU8_eq _ _ (by omega) (by omega)
  have m1 : (0x14 &&& 0x10 : Nat) ≠ 0 := by decide
  have m2 : ¬ (0x14 &&& 1 : Nat) ≠ 0 := by decide
  have m3 : ¬ (0x14 &&& 2 : Nat) ≠ 0 := by decide
  have m4 : (0x14 &&& 4 : Nat) ≠ 0 := by decide
  have m5 : ¬ (0x14 &&& 8 : Nat) ≠ 0 := by decide
  simp only [cornerCalls, if_pos m1, if_neg m2, if_neg m3, if_pos m4, if_neg m5, List.nil_append,
    List.append_nil, covered_singleton, covers_iff_setVBar, e1, e2] at hc
  unfold inBox
  simp only
  omega

/-- The filled top right arc (mask `0x18`) stays in the square of side `r + 1`
whose bottom left pixel is the centre. -/
theorem drawCorner_topRight (xm ym r : Nat) (hr : r < 32) (hy : r ≤ ym)
    (hxm : xm + r < 256) (hym : ym < 256) :
    ∃ calls, drawCorner xm ym r 0x18 = some calls ∧
      ∀ px py, covered calls px py = true → inBox (xm, xm + r, ym - r, ym) px py := by
  obtain ⟨steps, hs, hall⟩ := cornerSteps_spec r hr
  rw [drawCorner_eq_steps, hs]
  refine ⟨_, rfl, ?_⟩
  intro px py h
  rw [covered_flatMap] at h
  obtain ⟨p, hp, hc⟩ := h
  obtain ⟨h1, h2, h3, h4⟩ := hall p hp
  have e1 : toU8 ((xm : Int) + p.2) = ((xm : Int) + p.2).toNat := toU8_eq _ _ (by omega) (by omega)
  have e2 : toU8 ((ym : Int) + p.1) = ((ym : Int) + p.1).toNat := toU8_eq _ _ (by omega) (by omega)
  have m1 : (0x18 &&& 0x10 : Nat) ≠ 0 := by decide
  have m2 : ¬ (0x18 &&& 1 : Nat) ≠ 0 := by decide
  have m3 : ¬ (0x18 &&& 2 : Nat) ≠ 0 := by decide
  have m4 : ¬ (0x18 &&& 4 : Nat) ≠ 0 := by decide
  have m5 : (0x18 &&& 8 : Nat) ≠ 0 := by decide
  simp only [cornerCalls, if_pos m1, if_neg m2, if_neg m3, if_neg m4, if_pos m5, List.nil_append,
    List.append_nil, covered_singleton, covers_iff_setVBar, e1, e2] at hc
  unfold inBox
  simp only
  omega

/-- The filled bottom right arc (mask `0x11`) stays in the square of side
`r + 1` whose top left pixel is the centre. -/
theorem drawCorner_bottomRight (xm ym r : Nat) (hr : r < 32)
    (hxm : xm + r < 256) (hym : ym + r < 256) :
    ∃ calls, drawCorner xm ym r 0x11 = some calls ∧
      ∀ px py, covered calls px py = true → inBox (xm, xm + r, ym, ym + r) px py := by
  obtain ⟨steps, hs, hall⟩ := cornerSteps_spec r hr
  rw [drawCorner_eq_steps, hs]
  refine ⟨_, rfl, ?_⟩
  intro px py h
  rw [covered_flatMap] at h
  obtain ⟨p, hp, hc⟩ := h
  obtain ⟨h1, h2, h3, h4⟩ := hall p hp
  have e1 : toU8 ((xm : Int) - p.1) = ((xm : Int) - p.1).toNat := toU8_eq _ _ (by omega) (by omega)
  have e2 : toU8 ((ym : Int) + p.2) = ((ym : Int) + p.2).toNat := toU8_eq _ _ (by omega) (by omega)
  have m1 : (0x11 &&& 0x10 : Nat) ≠ 0 := by decide
  have m2 : (0x11 &&& 1 : Nat) ≠ 0 := by decide
  have m3 : ¬ (0x11 &&& 2 : Nat) ≠ 0 := by decide
  have m4 : ¬ (0x11 &&& 4 : Nat) ≠ 0 := by decide
  have m5 : ¬ (0x11 &&& 8 : Nat) ≠ 0 := by decide
  simp only [cornerCalls, if_pos m1, if_pos m2, if_neg m3, if_neg m4, if_neg m5, List.nil_append,
    List.append_nil, covered_singleton, covers_iff_setVBar, e1, e2] at hc
  unfold inBox
  simp only
  omega

/-- The filled bottom left arc (mask `0x12`) stays in the square of side
`r + 1` whose top right pixel is the centre. -/
theorem drawCorner_bottomLeft (xm ym r : Nat) (hr : r < 32) (hx : r ≤ xm)
    (hxm : xm < 256) (hym : ym + r < 256) :
    ∃ calls, drawCorner xm ym r 0x12 = some calls ∧
      ∀ px py, covered calls px py = true → inBox (xm - r, xm, ym, ym + r) px py := by
  obtain ⟨steps, hs, hall⟩ := cornerSteps_spec r hr
  rw [drawCorner_eq_steps, hs]
  refine ⟨_, rfl, ?_⟩
  intro px py h
  rw [covered_flatMap] at h
  obtain ⟨p, hp, hc⟩ := h
  obtain ⟨h1, h2, h3, h4⟩ := hall p hp
  have e1 : toU8 ((xm : Int) - p.2) = ((xm : Int) - p.2).toNat := toU8_eq _ _ (by omega) (by omega)
  have e2 : toU8 ((ym : Int) - p.1) = ((ym : Int) - p.1).toNat := toU8_eq _ _ (by omega) (by omega)
  have m1 : (0x12 &&& 0x10 : Nat) ≠ 0 := by decide
  have m2 : ¬ (0x12 &&& 1 : Nat) ≠ 0 := by decide
  have m3 : (0x12 &&& 2 : Nat) ≠ 0 := by decide
  have m4 : ¬ (0x12 &&& 4 : Nat) ≠ 0 := by decide
  have m5 : ¬ (0x12 &&& 8 : Nat) ≠ 0 := by decide
  simp only [cornerCalls, if_pos m1, if_neg m2, if_pos m3, if_neg m4, if_neg m5, List.nil_append,
    List.append_nil, covered_singleton, covers_iff_setVBar, e1, e2] at hc
  unfold inBox
  simp only
  omega

/-- The columns `x0, ..., x0 + n - 1`, each a vertical run over the rows `t` to
`b`, stay in the box of those columns and rows. -/
theorem covered_columns (x0 n t b px py : Nat)
    (h : covered ((List.range' x0 n).map fun x => SinkCall.setVBar x t b) px py = true) :
    inBox (x0, x0 + n - 1, t, b) px py := by
  rw [covered_iff] at h
  obtain ⟨c, hc, hcov⟩ := h
  rw [List.mem_map] at hc
  obtain ⟨x, hx, rfl⟩ := hc
  rw [List.mem_range'_1] at hx
  rw [covers_iff_setVBar] at hcov
  unfold inBox
  simp only
  omega

/-- The runs of the columns `x0, ..., x0 + n - 1` address pairwise different
pixels. -/
theorem pairwise_columns (x0 n t b : Nat) :
    List.Pairwise (fun a b => ∀ px py, ¬ (SinkCall.covers a px py = true ∧
        SinkCall.covers b px py = true))
      ((List.range' x0 n).map fun x => SinkCall.setVBar x t b) := by
  rw [List.pairwise_map]
  refine (List.pairwise_lt_range' x0 n).imp ?_
  intro a c hac px py h
  rw [covers_iff_setVBar, covers_iff_setVBar] at h
  omega

end GraphicDisplay

theorem DisjointCover.calls {a b : List SinkCall} (h : DisjointCover a b) :
    ∀ x ∈ a, ∀ y ∈ b, ∀ px py, ¬ (x.covers px py = true ∧ y.covers px py = true) := by
  intro x hx y hy px py hxy
  exact h px py ⟨(covered_iff _ _ _).2 ⟨x, hx, hxy.1⟩, (covered_iff _ _ _).2 ⟨y, hy, hxy.2⟩⟩

theorem DisjointCover.append_left {a b c : List SinkCall} (h1 : DisjointCover a c)
    (h2 : DisjointCover b c) : DisjointCover (a ++ b) c := by
  intro px py h
  rw [covered_append, Bool.or_eq_true] at h
  rcases h.1 with h3 | h3
  · exact h1 px py ⟨h3, h.2⟩
  · exact h2 px py ⟨h3, h.2⟩

/-- C18 (amended): for a rectangle inside the display whose width and height
are at least `2 * c + 3`, `paintRoundRect(r, c)` returns, and its calls are
those of the four filled arcs of `drawCorner` followed by those of the three
bands of `paintRect`.  The seven parts address pairwise disjoint sets of
pixels, and the runs of the three bands address pairwise disjoint pixels.
(The runs of one arc may overlap.) -/
theorem paintRoundRect_parts_disjoint (s : GraphicDisplay) (r : GDRect) (c : Nat)
    (hin : r.inDisplay = true) (hw : 2 * c + 3 ≤ r.size.width)
    (hh : 2 * c + 3 ≤ r.size.height) :
    ∃ c1 c2 c3 c4 b1 b2 b3 : List SinkCall,
      (s.paintRoundRect r c).map (fun res => res.2) =
        some (c1 ++ c2 ++ c3 ++ c4 ++ b1 ++ b2 ++ b3) ∧
      GraphicDisplay.drawCorner (r.origin.x + c) (r.origin.y + c) c 0x14 = some c1 ∧
      GraphicDisplay.drawCorner (r.origin.x + r.size.width - c - 1) (r.origin.y + c) c 0x18 =
        some c2 ∧
      GraphicDisplay.drawCorner (r.origin.x + r.size.width - c - 1)
        (r.origin.y + r.size.height - c - 1) c 0x11 = some c3 ∧
      GraphicDisplay.drawCorner (r.origin.x + c) (r.origin.y + r.size.height - c - 1) c 0x12 =
        some c4 ∧
      b1 = (s.paintRect ⟨⟨r.origin.x, r.origin.y + c + 1⟩,
        ⟨r.size.width, r.size.height - 2 * c - 2⟩⟩).2 ∧
      b2 = (s.paintRect ⟨⟨r.origin.x + c + 1, r.origin.y⟩,
        ⟨r.size.width - 2 * c - 2, c + 1⟩⟩).2 ∧
      b3 = (s.paintRect ⟨⟨r.origin.x + c + 1, r.origin.y + r.size.height - c - 1⟩,
        ⟨r.size.width - 2 * c - 2, c + 1⟩⟩).2 ∧
      List.Pairwise DisjointCover [c1, c2, c3, c4, b1, b2, b3] ∧
      List.Pairwise (fun a b => ∀ px py, ¬ (SinkCall.covers a px py = true ∧
        SinkCall.covers b px py = true)) (b1 ++ b2 ++ b3) := by
  have hin' := hin
  simp only [GDRect.inDisplay, decide_eq_true_eq] at hin'
  obtain ⟨hx, hy⟩ := hin'
  have hc : GraphicDisplay.clampCorner r c = c := by
    rw [GraphicDisplay.clampCorner_eq_min]; omega
  obtain ⟨c1, h1, k1⟩ := GraphicDisplay.drawCorner_topLeft (r.origin.x + c) (r.origin.y + c) c
    (by omega) (by omega) (by omega) (by omega) (by omega)
  obtain ⟨c2, h2, k2⟩ := GraphicDisplay.drawCorner_topRight (r.origin.x + r.size.width - c - 1)
    (r.origin.y + c) c (by omega) (by omega) (by omega) (by omega)
  obtain ⟨c3, h3, k3⟩ := GraphicDisplay.drawCorner_bottomRight
    (r.origin.x + r.size.width - c - 1) (r.origin.y + r.size.height - c - 1) c
    (by omega) (by omega) (by omega)
  obtain ⟨c4, h4, k4⟩ := GraphicDisplay.drawCorner_bottomLeft (r.origin.x + c)
    (r.origin.y + r.size.height - c - 1) c (by omega) (by omega) (by omega) (by omega)
  have q1 := GraphicDisplay.paintRect_calls s ⟨⟨r.origin.x, r.origin.y + c + 1⟩,
    ⟨r.size.width, r.size.height - 2 * c - 2⟩⟩ (by simp only; omega)
    (by simp only [GDRect.inDisplay, decide_eq_true_eq]; omega)
  have q2 := GraphicDisplay.paintRect_calls s ⟨⟨r.origin.x + c + 1, r.origin.y⟩,
    ⟨r.size.width - 2 * c - 2, c + 1⟩⟩ (by simp only; omega)
    (by simp only [GDRect.inDisplay, decide_eq_true_eq]; omega)
  have q3 := GraphicDisplay.paintRect_calls s
    ⟨⟨r.origin.x + c + 1, r.origin.y + r.size.height - c - 1⟩,
      ⟨r.size.width - 2 * c - 2, c + 1⟩⟩ (by simp only; omega)
    (by simp only [GDRect.inDisplay, decide_eq_true_eq]; omega)
  simp only at q1 q2 q3
  have k5 := GraphicDisplay.covered_columns r.origin.x r.size.width (r.origin.y + c + 1)
    (r.origin.y + c + 1 + (r.size.height - 2 * c - 2) - 1)
  have k6 := GraphicDisplay.covered_columns (r.origin.x + c + 1) (r.size.width - 2 * c - 2)
    r.origin.y (r.origin.y + (c + 1) - 1)
  have k7 := GraphicDisplay.covered_columns (r.origin.x + c + 1) (r.size.width - 2 * c - 2)
    (r.origin.y + r.size.height - c - 1) (r.origin.y + r.size.height - c - 1 + (c + 1) - 1)
  rw [← q1] at k5
  rw [← q2] at k6
  rw [← q3] at k7
  have e1 : toU8 ((r.origin.x : Int) + (c : Int)) = r.origin.x + c :=
    toU8_eq _ _ (by omega) (by omega)
  have e2 : toU8 ((r.origin.y : Int) + (c : Int)) = r.origin.y + c :=
    toU8_eq _ _ (by omega) (by omega)
  have e3 : toU8 ((r.origin.x : Int) + r.size.width - (c : Int) - 1) =
      r.origin.x + r.size.width - c - 1 := toU8_eq _ _ (by omega) (by omega)
  have e4 : toU8 ((r.origin.y : Int) + r.size.height - (c : Int) - 1) =
      r.origin.y + r.size.height - c - 1 := toU8_eq _ _ (by omega) (by omega)
  have e5 : toU8 ((r.origin.y : Int) + (c : Int) + 1) = r.origin.y + c + 1 :=
    toU8_eq _ _ (by omega) (by omega)
  have e6 : toU8 ((r.size.height : Int) - (c : Int) * 2 - 2) = r.size.height - 2 * c - 2 :=
    toU8_eq _ _ (by omega) (by omega)
  have e7 : toU8 ((r.origin.x : Int) + (c : Int) + 1) = r.origin.x + c + 1 :=
    toU8_eq _ _ (by omega) (by omega)
  have e8 : toU8 ((r.size.width : Int) - (c : Int) * 2 - 2) = r.size.width - 2 * c - 2 :=
    toU8_eq _ _ (by omega) (by omega)
  have e9 : toU8 ((c : Int) + 1) = c + 1 := toU8_eq _ _ (by omega) (by omega)
  refine ⟨c1, c2, c3, c4, _, _, _, ?_, h1, h2, h3, h4, rfl, rfl, rfl, ?_, ?_⟩
  · unfold GraphicDisplay.paintRoundRect
    simp only [hc, e1, e2, e3, e4, e5, e6, e7, e8, e9, h1, h2, h3, h4, Option.some_bind,
      Option.map_some']
    rfl
  · have ap : ∀ A B : Nat × Nat × Nat × Nat, (A.2.1 < B.1 ∨ B.2.1 < A.1 ∨
        A.2.2.2 < B.2.2.1 ∨ B.2.2.2 < A.2.2.1) → boxesApart A B := fun _ _ h => h
    have d12 := disjointCover_of_boxes _ _ _ _ k1 k2 (ap _ _ (by simp only; omega))
    have d13 := disjointCover_of_boxes _ _ _ _ k1 k3 (ap _ _ (by simp only; omega))
    have d14 := disjointCover_of_boxes _ _ _ _ k1 k4 (ap _ _ (by simp only; omega))
    have d15 := disjointCover_of_boxes _ _ _ _ k1 k5 (ap _ _ (by simp only; omega))
    have d16 := disjointCover_of_boxes _ _ _ _ k1 k6 (ap _ _ (by simp only; omega))
    have d17 := disjointCover_of_boxes _ _ _ _ k1 k7 (ap _ _ (by simp only; omega))
    have d23 := disjointCover_of_boxes _ _ _ _ k2 k3 (ap _ _ (by simp only; omega))
    have d24 := disjointCover_of_boxes _ _ _ _ k2 k4 (ap _ _ (by simp only; omega))
    have d25 := disjointCover_of_boxes _ _ _ _ k2 k5 (ap _ _ (by simp only; omega))
    have d26 := disjointCover_of_boxes _ _ _ _ k2 k6 (ap _ _ (by simp only; omega))
    have d27 := disjointCover_of_boxes _ _ _ _ k2 k7 (ap _ _ (by simp only; omega))
    have d34 := disjointCover_of_boxes _ _ _ _ k3 k4 (ap _ _ (by simp only; omega))
    have d35 := disjointCover_of_boxes _ _ _ _ k3 k5 (ap _ _ (by simp only; omega))
    have d36 := disjointCover_of_boxes _ _ _ _ k3 k6 (ap _ _ (by simp only; omega))
    have d37 := disjointCover_of_boxes _ _ _ _ k3 k7 (ap _ _ (by simp only; omega))
    have d45 := disjointCover_of_boxes _ _ _ _ k4 k5 (ap _ _ (by simp only; omega))
    have d46 := disjointCover_of_boxes _ _ _ _ k4 k6 (ap _ _ (by simp only; omega))
    have d47 := disjointCover_of_boxes _ _ _ _ k4 k7 (ap _ _ (by simp only; omega))
    have d56 := disjointCover_of_boxes _ _ _ _ k5 k6 (ap _ _ (by simp only; omega))
    have d57 := disjointCover_of_boxes _ _ _ _ k5 k7 (ap _ _ (by simp only; omega))
    have d67 := disjointCover_of_boxes _ _ _ _ k6 k7 (ap _ _ (by simp only; omega))
    simp only [List.pairwise_cons, List.mem_cons, List.mem_singleton, forall_eq_or_imp,
      forall_eq, List.not_mem_nil, false_implies, implies_true, and_true, List.Pairwise.nil]
    exact ⟨⟨d12, d13, d14, d15, d16, d17⟩, ⟨d23, d24, d25, d26, d27⟩, ⟨d34, d35, d36, d37⟩,
      ⟨d45, d46, d47⟩, ⟨d56, d57⟩, d67⟩
  · have ap : ∀ A B : Nat × Nat × Nat × Nat, (A.2.1 < B.1 ∨ B.2.1 < A.1 ∨
        A.2.2.2 < B.2.2.1 ∨ B.2.2.2 < A.2.2.1) → boxesApart A B := fun _ _ h => h
    have d56 := disjointCover_of_boxes _ _ _ _ k5 k6 (ap _ _ (by simp only; omega))
    have d57 := disjointCover_of_boxes _ _ _ _ k5 k7 (ap _ _ (by simp only; omega))
    have d67 := disjointCover_of_boxes _ _ _ _ k6 k7 (ap _ _ (by simp only; omega))
    rw [List.pairwise_append, List.pairwise_append]
    refine ⟨⟨?_, ?_, d56.calls⟩, ?_, ?_⟩
    · rw [q1]; exact GraphicDisplay.pairwise_columns _ _ _ _
    · rw [q2]; exact GraphicDisplay.pairwise_columns _ _ _ _
    · rw [q3]; exact GraphicDisplay.pairwise_columns _ _ _ _
    · exact (DisjointCover.append_left d57 d67).calls

set_option maxRecDepth 100000 in
theorem paintRoundRect_parts_disjoint_witness :
    ((⟨⟨10, 10⟩, ⟨9, 9⟩⟩ : GDRect).inDisplay = true ∧ 2 * 3 + 3 ≤ 9) ∧
    ∃ c1 c2 c3 c4 b1 b2 b3 : List SinkCall,
      (sampleDisplay.paintRoundRect ⟨⟨10, 10⟩, ⟨9, 9⟩⟩ 3).map (fun res => res.2) =
        some (c1 ++ c2 ++ c3 ++ c4 ++ b1 ++ b2 ++ b3) ∧
      GraphicDisplay.drawCorner (10 + 3) (10 + 3) 3 0x14 = some c1 ∧
      GraphicDisplay.drawCorner (10 + 9 - 3 - 1) (10 + 3) 3 0x18 = some c2 ∧
      GraphicDisplay.drawCorner (10 + 9 - 3 - 1) (10 + 9 - 3 - 1) 3 0x11 = some c3 ∧
      GraphicDisplay.drawCorner (10 + 3) (10 + 9 - 3 - 1) 3 0x12 = some c4 ∧
      b1 = (sampleDisplay.paintRect ⟨⟨10, 10 + 3 + 1⟩, ⟨9, 9 - 2 * 3 - 2⟩⟩).2 ∧
      b2 = (sampleDisplay.paintRect ⟨⟨10 + 3 + 1, 10⟩, ⟨9 - 2 * 3 - 2, 3 + 1⟩⟩).2 ∧
      b3 = (sampleDisplay.paintRect ⟨⟨10 + 3 + 1, 10 + 9 - 3 - 1⟩,
        ⟨9 - 2 * 3 - 2, 3 + 1⟩⟩).2 ∧
      List.Pairwise DisjointCover [c1, c2, c3, c4, b1, b2, b3] ∧
      List.Pairwise (fun a b => ∀ px py, ¬ (SinkCall.covers a px py = true ∧
        SinkCall.covers b px py = true)) (b1 ++ b2 ++ b3) :=
  ⟨⟨by decide, by decide⟩,
    paintRoundRect_parts_disjoint sampleDisplay ⟨⟨10, 10⟩, ⟨9, 9⟩⟩ 3 (by decide) (by decide)
      (by decide)⟩

/-- C18 (as stated): `paintRoundRect` of the rectangle with origin `(10,10)`,
width 9 and height 9 with corner 3 starts its first arc with the runs
`setVBarInternal(10, 13, 13)` and `setVBarInternal(10, 12, 13)`; both address
the pixel `(10,13)`, and on the cleared device in invert mode that pixel is off
again after the call. -/
theorem paintRoundRect_arc_runs_overlap :
    (⟨⟨10, 10⟩, ⟨9, 9⟩⟩ : GDRect).inDisplay = true ∧ 2 * 3 + 3 ≤ 9 ∧
      (sampleDisplay.paintRoundRect ⟨⟨10, 10⟩, ⟨9, 9⟩⟩ 3).map (fun res => res.2.take 2) =
        some [SinkCall.setVBar 10 13 13, SinkCall.setVBar 10 12 13] ∧
      (SinkCall.setVBar 10 13 13).covers 10 13 = true ∧
      (SinkCall.setVBar 10 12 13).covers 10 13 = true ∧
      SSD1306.pixel SSD1306.blank.display 10 13 = false ∧
      (SSD1306.exec? { SSD1306.blank with mode := GL_XOR }
          (SSD1306.blank.gd.paintRoundRect ⟨⟨10, 10⟩, ⟨9, 9⟩⟩ 3)).map
        (fun dev => SSD1306.pixel dev.display 10 13) = some false := by
  decide

theorem drawChar_bit_addressing_witness :
    (sampleDisplay.font = some sampleFont ∧ sampleFont.first ≤ 65 ∧ 65 ≤ sampleFont.last ∧
      sampleFont.glyph[65 - sampleFont.first]? = some ⟨0, 2, 2, 3, 0, 0⟩ ∧
      (⟨0, 2, 2, 3, 0, 0⟩ : GFXglyph).width < 256 ∧
      (⟨0, 2, 2, 3, 0, 0⟩ : GFXglyph).height < 256 ∧
      (⟨0, 2, 2, 3, 0, 0⟩ : GFXglyph).bitmapOffset +
        (⟨0, 2, 2, 3, 0, 0⟩ : GFXglyph).width * (⟨0, 2, 2, 3, 0, 0⟩ : GFXglyph).height / 8 <
        65536) ∧
    ∃ s1 calls, sampleDisplay.drawChar 65 = some (s1, calls) ∧
      calls = GraphicDisplay.drawCharRows sampleFont ⟨0, 2, 2, 3, 0, 0⟩
        (toU8 ((sampleDisplay.pos.x : Int) + (⟨0, 2, 2, 3, 0, 0⟩ : GFXglyph).xOffset))
        (toU8 ((sampleDisplay.pos.y : Int) + (⟨0, 2, 2, 3, 0, 0⟩ : GFXglyph).yOffset)) ∧
      (∀ call ∈ calls, ∃ x y, call = SinkCall.setPixel x y) ∧
      ∀ px py, covered calls px py = true ↔
        ∃ row col, row < (⟨0, 2, 2, 3, 0, 0⟩ : GFXglyph).height ∧
          col < (⟨0, 2, 2, 3, 0, 0⟩ : GFXglyph).width ∧
          px = toU8 ((sampleDisplay.pos.x : Int) + (⟨0, 2, 2, 3, 0, 0⟩ : GFXglyph).xOffset + col) ∧
          py = toU8 ((sampleDisplay.pos.y : Int) + (⟨0, 2, 2, 3, 0, 0⟩ : GFXglyph).yOffset + row) ∧
          sampleFont.bitAt (8 * (⟨0, 2, 2, 3, 0, 0⟩ : GFXglyph).bitmapOffset +
            row * (⟨0, 2, 2, 3, 0, 0⟩ : GFXglyph).width + col) = true :=
  ⟨⟨rfl, by decide, by decide, rfl, by decide, by decide, by decide⟩,
    drawChar_bit_addressing sampleDisplay sampleFont 65 ⟨0, 2, 2, 3, 0, 0⟩ rfl (by decide)
      (by decide) rfl (by decide) (by decide) (by decide)⟩

/-- C21: for a font set and a code in `[first, last]` with glyph `g`, `drawChar`
returns and leaves `cursor.x = (old cursor.x + g.xAdvance) mod 256` and
`cursor.y` unchanged, whatever the width, height and bitmap of the glyph; font
and display size are unchanged too. -/
theorem drawChar_advances_cursor (s : GraphicDisplay) (font : GFXfont) (c : Nat) (g : GFXglyph)
    (hfont : s.font = some font) (hc1 : font.first ≤ c) (hc2 : c ≤ font.last)
    (hg : font.glyph[c - font.first]? = some g) :
    ∃ s1 calls, s.drawChar c = some (s1, calls) ∧
      s1.pos = ⟨(s.pos.x + g.xAdvance) % 256, s.pos.y⟩ ∧
      s1.font = s.font ∧ s1.size = s.size := by
  unfold GraphicDisplay.drawChar
  simp only [hfont, if_neg (Nat.not_lt.2 hc1), if_neg (Nat.not_lt.2 hc2), hg]
  refine ⟨_, _, rfl, ?_, ?_, ?_⟩
  · simp only [GraphicDisplay.markDirty_pos]
  · simp only [GraphicDisplay.markDirty_font, hfont]
  · simp only [GraphicDisplay.markDirty_size]

theorem drawChar_advances_cursor_witness :
    ((⟨some spaceFont, ⟨0, 0⟩, ⟨128, 64⟩, ⟨⟨0, 0⟩, ⟨0, 0⟩⟩⟩ : GraphicDisplay).font = some spaceFont ∧
      spaceFont.first ≤ 32 ∧ 32 ≤ spaceFont.last ∧
      spaceFont.glyph[32 - spaceFont.first]? = some ⟨0, 0, 0, 6, 0, 0⟩) ∧
    ∃ s1 calls,
      GraphicDisplay.drawChar ⟨some spaceFont, ⟨0, 0⟩, ⟨128, 64⟩, ⟨⟨0, 0⟩, ⟨0, 0⟩⟩⟩ 32 =
        some (s1, calls) ∧
      s1.pos = ⟨6, 0⟩ ∧ s1.font = some spaceFont ∧ s1.size = ⟨128, 64⟩ :=
  ⟨⟨rfl, by decide, by decide, rfl⟩,
    drawChar_advances_cursor ⟨some spaceFont, ⟨0, 0⟩, ⟨128, 64⟩, ⟨⟨0, 0⟩, ⟨0, 0⟩⟩⟩ spaceFont 32
      ⟨0, 0, 0, 6, 0, 0⟩ rfl (by decide) (by decide) rfl⟩

/-- C22: when no font is set, or the code is below `font.first` or above
`font.last`, `drawChar` returns the engine state it was given (cursor and dirty
rectangle included) and issues no backend call, so the device, frame buffer
included, is unchanged. -/
theorem drawChar_rejects (dev : SSD1306) (c : Nat)
    (h : dev.gd.font = none ∨
      ∃ font, dev.gd.font = some font ∧ (c < font.first ∨ font.last < c)) :
    dev.gd.drawChar c = some (dev.gd, []) ∧
      dev.exec? (dev.gd.drawChar c) = some dev ∧
      (dev.exec (dev.gd, [])).display = dev.display ∧
      (dev.exec (dev.gd, [])).gd.pos = dev.gd.pos ∧
      (dev.exec (dev.gd, [])).gd.dirty = dev.gd.dirty := by
  have hd : dev.gd.drawChar c = some (dev.gd, []) := by
    unfold GraphicDisplay.drawChar
    rcases h with h | ⟨font, hf, h | h⟩
    · simp only [h]
    · simp only [hf, if_pos h]
    · simp only [hf]
      split_ifs <;> rfl
  refine ⟨hd, ?_, rfl, rfl, rfl⟩
  rw [hd]
  rfl

theorem drawChar_rejects_witness :
    ((⟨sampleDisplay, List.replicate SSD1306_MEMORY 255, GL_XOR⟩ : SSD1306).gd.font = none ∨
      ∃ font, (⟨sampleDisplay, List.replicate SSD1306_MEMORY 255, GL_XOR⟩ : SSD1306).gd.font =
        some font ∧ (66 < font.first ∨ font.last < 66)) ∧
    (GraphicDisplay.drawChar
        (⟨sampleDisplay, List.replicate SSD1306_MEMORY 255, GL_XOR⟩ : SSD1306).gd 66 =
        some ((⟨sampleDisplay, List.replicate SSD1306_MEMORY 255, GL_XOR⟩ : SSD1306).gd, []) ∧
      SSD1306.exec? ⟨sampleDisplay, List.replicate SSD1306_MEMORY 255, GL_XOR⟩
        (GraphicDisplay.drawChar
          (⟨sampleDisplay, List.replicate SSD1306_MEMORY 255, GL_XOR⟩ : SSD1306).gd 66) =
        some ⟨sampleDisplay, List.replicate SSD1306_MEMORY 255, GL_XOR⟩ ∧
      (SSD1306.exec ⟨sampleDisplay, List.replicate SSD1306_MEMORY 255, GL_XOR⟩
        ((⟨sampleDisplay, List.replicate SSD1306_MEMORY 255, GL_XOR⟩ : SSD1306).gd, [])).display =
        (⟨sampleDisplay, List.replicate SSD1306_MEMORY 255, GL_XOR⟩ : SSD1306).display ∧
      (SSD1306.exec ⟨sampleDisplay, List.replicate SSD1306_MEMORY 255, GL_XOR⟩
        ((⟨sampleDisplay, List.replicate SSD1306_MEMORY 255, GL_XOR⟩ : SSD1306).gd, [])).gd.pos =
        (⟨sampleDisplay, List.replicate SSD1306_MEMORY 255, GL_XOR⟩ : SSD1306).gd.pos ∧
      (SSD1306.exec ⟨sampleDisplay, List.replicate SSD1306_MEMORY 255, GL_XOR⟩
        ((⟨sampleDisplay, List.replicate SSD1306_MEMORY 255, GL_XOR⟩ : SSD1306).gd, [])).gd.dirty =
        (⟨sampleDisplay, List.replicate SSD1306_MEMORY 255, GL_XOR⟩ : SSD1306).gd.dirty) :=
  ⟨Or.inr ⟨sampleFont, rfl, Or.inr (by decide)⟩,
    drawChar_rejects ⟨sampleDisplay, List.replicate SSD1306_MEMORY 255, GL_XOR⟩ 66
      (Or.inr ⟨sampleFont, rfl, Or.inr (by decide)⟩)⟩

/-- C23: `width(code)` is 0 when no font is set and when the code is below
`font.first` or above `font.last`; otherwise it is the `xAdvance` of the glyph
at index `code - first`.  The routine only computes a value: it has no
assignment to a data member. -/
theorem width_of_code (s : GraphicDisplay) (c : Nat) :
    (s.font = none → s.width c = some 0) ∧
    (∀ font, s.font = some font → (c < font.first ∨ font.last < c) → s.width c = some 0) ∧
    (∀ font g, s.font = some font → font.first ≤ c → c ≤ font.last →
      font.glyph[c - font.first]? = some g → s.width c = some g.xAdvance) := by
  refine ⟨?_, ?_, ?_⟩
  · intro h
    unfold GraphicDisplay.width
    simp only [h]
  · intro font hf h
    unfold GraphicDisplay.width
    simp only [hf]
    split_ifs <;> first | rfl | omega
  · intro font g hf h1 h2 hg
    unfold GraphicDisplay.width
    simp only [hf, if_neg (Nat.not_lt.2 h1), if_neg (Nat.not_lt.2 h2), hg, Option.map_some']

theorem width_of_code_witness :
    SSD1306.blank.gd.width 65 = some 0 ∧ sampleDisplay.width 64 = some 0 ∧
      sampleDisplay.width 66 = some 0 ∧ sampleDisplay.width 65 = some 3 :=
  ⟨(width_of_code SSD1306.blank.gd 65).1 rfl,
    (width_of_code sampleDisplay 64).2.1 sampleFont rfl (Or.inl (by decide)),
    (width_of_code sampleDisplay 66).2.1 sampleFont rfl (Or.inr (by decide)),
    (width_of_code sampleDisplay 65).2.2 sampleFont ⟨0, 2, 2, 3, 0, 0⟩ rfl (by decide)
      (by decide) rfl⟩

/-- C27: on a device whose display size is the 128x64 the constructor sets,
`clear()` leaves a frame buffer of 1024 zero bytes and the dirty rectangle
`{origin (0,0), size (128,64)}`, whatever the buffer, the dirty rectangle and
the mode were; cursor, font, size and mode are unchanged. -/
theorem clear_zeroes_and_invalidates (dev : SSD1306) (hsize : dev.gd.size = ⟨128, 64⟩) :
    dev.clear.display = List.replicate 1024 0 ∧
      dev.clear.display.length = 1024 ∧
      (∀ i, i < 1024 → dev.clear.display.getD i 0 = 0) ∧
      dev.clear.gd.dirty = ⟨⟨0, 0⟩, ⟨128, 64⟩⟩ ∧
      dev.clear.gd.pos = dev.gd.pos ∧ dev.clear.gd.font = dev.gd.font ∧
      dev.clear.gd.size = dev.gd.size ∧ dev.clear.mode = dev.mode := by
  refine ⟨rfl, List.length_replicate _ _, ?_, ?_, rfl, rfl, rfl, rfl⟩
  · intro i hi
    show (List.replicate 1024 0).getD i 0 = 0
    rw [List.getD_eq_getElem?_getD, List.getElem?_replicate]
    split_ifs
    rfl
  · show (⟨⟨0, 0⟩, dev.gd.size⟩ : GDRect) = _
    rw [hsize]

theorem clear_zeroes_and_invalidates_witness :
    (⟨sampleDisplay, List.replicate SSD1306_MEMORY 255, GL_XOR⟩ : SSD1306).gd.size = ⟨128, 64⟩ ∧
    (SSD1306.clear ⟨sampleDisplay, List.replicate SSD1306_MEMORY 255, GL_XOR⟩).display =
        List.replicate 1024 0 ∧
      (SSD1306.clear ⟨sampleDisplay, List.replicate SSD1306_MEMORY 255, GL_XOR⟩).display.length =
        1024 ∧
      (∀ i, i < 1024 →
        (SSD1306.clear ⟨sampleDisplay, List.replicate SSD1306_MEMORY 255, GL_XOR⟩).display.getD
          i 0 = 0) ∧
      (SSD1306.clear ⟨sampleDisplay, List.replicate SSD1306_MEMORY 255, GL_XOR⟩).gd.dirty =
        ⟨⟨0, 0⟩, ⟨128, 64⟩⟩ ∧
      (SSD1306.clear ⟨sampleDisplay, List.replicate SSD1306_MEMORY 255, GL_XOR⟩).gd.pos =
        (⟨sampleDisplay, List.replicate SSD1306_MEMORY 255, GL_XOR⟩ : SSD1306).gd.pos ∧
      (SSD1306.clear ⟨sampleDisplay, List.replicate SSD1306_MEMORY 255, GL_XOR⟩).gd.font =
        (⟨sampleDisplay, List.replicate SSD1306_MEMORY 255, GL_XOR⟩ : SSD1306).gd.font ∧
      (SSD1306.clear ⟨sampleDisplay, List.replicate SSD1306_MEMORY 255, GL_XOR⟩).gd.size =
        (⟨sampleDisplay, List.replicate SSD1306_MEMORY 255, GL_XOR⟩ : SSD1306).gd.size ∧
      (SSD1306.clear ⟨sampleDisplay, List.replicate SSD1306_MEMORY 255, GL_XOR⟩).mode =
        (⟨sampleDisplay, List.replicate SSD1306_MEMORY 255, GL_XOR⟩ : SSD1306).mode :=
  ⟨rfl, clear_zeroes_and_invalidates ⟨sampleDisplay, List.replicate SSD1306_MEMORY 255, GL_XOR⟩
    rfl⟩

/-- C28: for every state, `validate()` leaves the dirty rectangle
`{origin (0,0), size (0,0)}`, which is empty, and changes nothing else: cursor,
size and font of the engine, frame buffer and mode of the device. -/
theorem validate_resets_dirty_only (dev : SSD1306) :
    dev.validate.gd.dirty = ⟨⟨0, 0⟩, ⟨0, 0⟩⟩ ∧
      dev.validate.gd.dirty.isEmpty = true ∧
      dev.validate.gd.pos = dev.gd.pos ∧ dev.validate.gd.size = dev.gd.size ∧
      dev.validate.gd.font = dev.gd.font ∧
      dev.validate.display = dev.display ∧ dev.validate.mode = dev.mode ∧
      dev.validate.gd = dev.gd.validate ∧
      dev.gd.validate = ⟨dev.gd.font, dev.gd.pos, dev.gd.size, ⟨⟨0, 0⟩, ⟨0, 0⟩⟩⟩ :=
  ⟨rfl, rfl, rfl, rfl, rfl, rfl, rfl, rfl, rfl⟩

/-- C29: for every tracked rectangle and every `left`, `top`, a call
`markDirty(left, top, width, height)` with `width == 0` or `height == 0` returns
the state it was given. -/
theorem markDirty_empty_box (s : GraphicDisplay) (left top width height : Nat)
    (h : width = 0 ∨ height = 0) : s.markDirty left top width height = s := by
  unfold GraphicDisplay.markDirty
  rw [if_pos h]

theorem markDirty_empty_box_witness :
    ((0 : Nat) = 0 ∨ (7 : Nat) = 0) ∧
      GraphicDisplay.markDirty ⟨none, ⟨1, 2⟩, ⟨128, 64⟩, ⟨⟨5, 5⟩, ⟨3, 3⟩⟩⟩ 1 1 0 7 =
        ⟨none, ⟨1, 2⟩, ⟨128, 64⟩, ⟨⟨5, 5⟩, ⟨3, 3⟩⟩⟩ :=
  ⟨Or.inl rfl, markDirty_empty_box ⟨none, ⟨1, 2⟩, ⟨128, 64⟩, ⟨⟨5, 5⟩, ⟨3, 3⟩⟩⟩ 1 1 0 7
    (Or.inl rfl)⟩

/-- C30 (as stated): the tracked rectangle `{origin (1,0), size (255,1)}` is not
empty and contains `(5,0)`, yet `setPixel(5, 0)` leaves
`{origin (1,0), size (5,1)}`: the right edge `1 + 255` is 0 as a `uint8_t`,
below the right edge 6 of the pixel, so the width is recomputed. -/
theorem setPixel_shrinks_box_at_wrapped_edge :
    (⟨⟨1, 0⟩, ⟨255, 1⟩⟩ : GDRect).isEmpty = false ∧
      (⟨⟨1, 0⟩, ⟨255, 1⟩⟩ : GDRect).contains 5 0 = true ∧
      (GraphicDisplay.setPixel ⟨none, ⟨0, 0⟩, ⟨128, 64⟩, ⟨⟨1, 0⟩, ⟨255, 1⟩⟩⟩ 5 0).1.dirty =
        ⟨⟨1, 0⟩, ⟨5, 1⟩⟩ ∧
      (⟨⟨1, 0⟩, ⟨5, 1⟩⟩ : GDRect).contains 100 0 = false ∧
      (⟨⟨1, 0⟩, ⟨255, 1⟩⟩ : GDRect).contains 100 0 = true := by
  decide

/-- C30 (amended): when the tracked rectangle is empty, `setPixel(x, y)` leaves
it equal to `{origin (x,y), size (1,1)}`; when it contains `(x, y)` and its
right and bottom edges `origin + size` are at most 255, `setPixel` leaves it
unchanged; the cursor, the font and the size are never changed, and the one
backend call is `setPixelInternal(x, y)`. -/
theorem setPixel_dirty_box (s : GraphicDisplay) (x y : Nat) :
    (s.dirty.isEmpty = true → (s.setPixel x y).1.dirty = ⟨⟨x, y⟩, ⟨1, 1⟩⟩) ∧
    (s.dirty.contains x y = true → s.dirty.origin.x + s.dirty.size.width ≤ 255 →
      s.dirty.origin.y + s.dirty.size.height ≤ 255 →
      s.dirty.isEmpty = false ∧ (s.setPixel x y).1.dirty = s.dirty) ∧
    (s.setPixel x y).1.pos = s.pos ∧ (s.setPixel x y).1.font = s.font ∧
    (s.setPixel x y).1.size = s.size ∧ (s.setPixel x y).2 = [SinkCall.setPixel x y] := by
  refine ⟨?_, ?_, GraphicDisplay.markDirty_pos _ _ _ _ _, GraphicDisplay.markDirty_font _ _ _ _ _,
    GraphicDisplay.markDirty_size _ _ _ _ _, rfl⟩
  · intro he
    exact GraphicDisplay.markDirty_of_empty s x y 1 1 he (le_refl _) (le_refl _)
  · intro hc hr hb
    simp only [GDRect.contains, decide_eq_true_eq] at hc
    obtain ⟨h1, h2, h3, h4⟩ := hc
    refine ⟨by simp only [GDRect.isEmpty, decide_eq_false_iff_not]; omega, ?_⟩
    show (GraphicDisplay.markDirty s x y 1 1).dirty = s.dirty
    unfold GraphicDisplay.markDirty
    rw [if_neg (by omega), if_neg (by omega)]
    simp only
    rw [if_neg (by omega), if_neg (by omega), if_neg (by omega), if_neg (by omega)]

theorem setPixel_dirty_box_witness :
    (GraphicDisplay.setPixel ⟨none, ⟨3, 4⟩, ⟨128, 64⟩, ⟨⟨0, 0⟩, ⟨0, 0⟩⟩⟩ 7 9).1.dirty =
        ⟨⟨7, 9⟩, ⟨1, 1⟩⟩ ∧
      (GraphicDisplay.setPixel ⟨none, ⟨3, 4⟩, ⟨128, 64⟩, ⟨⟨5, 5⟩, ⟨10, 10⟩⟩⟩ 7 9).1.dirty =
        ⟨⟨5, 5⟩, ⟨10, 10⟩⟩ ∧
      (GraphicDisplay.setPixel ⟨none, ⟨3, 4⟩, ⟨128, 64⟩, ⟨⟨5, 5⟩, ⟨10, 10⟩⟩⟩ 7 9).1.pos = ⟨3, 4⟩ :=
  ⟨(setPixel_dirty_box ⟨none, ⟨3, 4⟩, ⟨128, 64⟩, ⟨⟨0, 0⟩, ⟨0, 0⟩⟩⟩ 7 9).1 (by decide),
    ((setPixel_dirty_box ⟨none, ⟨3, 4⟩, ⟨128, 64⟩, ⟨⟨5, 5⟩, ⟨10, 10⟩⟩⟩ 7 9).2.1 (by decide)
      (by decide) (by decide)).2,
    (setPixel_dirty_box ⟨none, ⟨3, 4⟩, ⟨128, 64⟩, ⟨⟨5, 5⟩, ⟨10, 10⟩⟩⟩ 7 9).2.2.1⟩

theorem textChars_cons (c : Nat) (str : List Nat) :
    textChars (c :: str) = if c = 0 then [] else c :: textChars str := by
  unfold textChars
  rw [List.takeWhile_cons]
  by_cases h : c = 0 <;> simp [h]

namespace GraphicDisplay

/-- The loop of `width(const char *)` adds up the widths of the characters
before the first zero, in `uint8_t` arithmetic. -/
theorem widthLoop_eq_sum (s : GraphicDisplay) :
    ∀ (str : List Nat) (len : Nat), len < 256 →
      (∀ c ∈ textChars str, ∃ w, s.width c = some w) →
      s.widthLoop str len =
        some ((len + ((textChars str).map fun c => (s.width c).getD 0).sum) % 256) := by
  intro str
  induction str with
  | nil =>
    intro len hlen _
    show some len = some ((len + 0) % 256)
    rw [Nat.add_zero, Nat.mod_eq_of_lt hlen]
  | cons c str ih =>
    intro len hlen hw
    rw [textChars_cons] at hw ⊢
    unfold widthLoop
    by_cases hc : c = 0
    · simp only [hc, if_true, List.map_nil, List.sum_nil, Nat.add_zero, Nat.mod_eq_of_lt hlen]
    · simp only [hc, if_false] at hw ⊢
      obtain ⟨w, hwc⟩ := hw c (List.mem_cons_self _ _)
      simp only [hwc, List.map_cons, List.sum_cons, Option.getD_some]
      rw [ih _ (Nat.mod_lt _ (by decide)) (fun d hd => hw d (List.mem_cons_of_mem _ hd))]
      congr 1
      omega

theorem width_of_none (s : GraphicDisplay) (h : s.font = none) (c : Nat) : s.width c = some 0 := by
  unfold width
  simp only [h]

end GraphicDisplay

set_option maxRecDepth 100000 in
/-- C24 (as stated): with the font `sampleFont` (code 65 advances by 3) the width
of a string of 86 characters of code 65 is 2, while the widths of its
characters add up to 258: the sum is kept in a `uint8_t`. -/
theorem widthStr_wraps_at_256 :
    sampleDisplay.widthStr (List.replicate 86 65) = some 2 ∧
      sampleDisplay.width 65 = some 3 ∧
      ((textChars (List.replicate 86 65)).map fun c => (sampleDisplay.width c).getD 0).sum =
        258 := by
  decide

/-- C24 (amended): for every font (or none) and every string whose characters
in the range of the font have a glyph, `width(text)` returns the sum of
`width(code)` over the characters of the string, reduced modulo 256 (the
`uint8_t` the sum is kept in); it is 0 for the empty string and whenever no font
is set. -/
theorem widthStr_is_sum_mod_256 (s : GraphicDisplay) (str : List Nat)
    (hw : ∀ c ∈ textChars str, (s.width c).isSome = true) :
    s.widthStr str =
        some (((textChars str).map fun c => (s.width c).getD 0).sum % 256) ∧
      s.widthStr [] = some 0 ∧
      (s.font = none → s.widthStr str = some 0) := by
  have h := GraphicDisplay.widthLoop_eq_sum s str 0 (by decide)
    (fun c hc => Option.isSome_iff_exists.1 (hw c hc))
  rw [Nat.zero_add] at h
  refine ⟨h, rfl, ?_⟩
  intro hf
  rw [show s.widthStr str = s.widthLoop str 0 from rfl, h]
  have hz : ((textChars str).map fun c => (s.width c).getD 0) =
      (textChars str).map fun _ => 0 := by
    apply List.map_congr_left
    intro c _
    rw [GraphicDisplay.width_of_none s hf c]
    rfl
  rw [hz]
  simp

theorem widthStr_is_sum_mod_256_witness :
    (∀ c ∈ textChars [65, 66, 65, 0, 65], (sampleDisplay.width c).isSome = true) ∧
    (sampleDisplay.widthStr [65, 66, 65, 0, 65] =
        some (((textChars [65, 66, 65, 0, 65]).map fun c =>
          (sampleDisplay.width c).getD 0).sum % 256) ∧
      sampleDisplay.widthStr [] = some 0 ∧
      (sampleDisplay.font = none → sampleDisplay.widthStr [65, 66, 65, 0, 65] = some 0)) :=
  ⟨by decide, widthStr_is_sum_mod_256 sampleDisplay [65, 66, 65, 0, 65] (by decide)⟩

namespace SSD1306

theorem flushLog_nil (twi : Nat → Int) : FlushLog twi true [] :=
  ⟨fun _ k hk => absurd hk (Nat.not_lt_zero k), fun h => absurd h (by decide)⟩

/-- One more write after writes that all succeeded: the test `err < 0` tells
which of the two shapes the list has. -/
theorem twiWrite_log (twi : Nat → Int) (sent : List (List Nat)) (payload : List Nat)
    (h : FlushLog twi true sent) :
    ((twiWrite twi sent payload).1 = true → FlushLog twi false (twiWrite twi sent payload).2) ∧
    ((twiWrite twi sent payload).1 = false → FlushLog twi true (twiWrite twi sent payload).2) := by
  have hall := h.1 rfl
  have hlen : (sent ++ [payload]).length = sent.length + 1 := by
    rw [List.length_append, List.length_singleton]
  constructor
  · intro hneg
    have hneg : toI8 (twi sent.length) < 0 := of_decide_eq_true hneg
    show FlushLog twi false (sent ++ [payload])
    refine ⟨fun hf => absurd hf (by decide), fun _ => ⟨by omega, ?_, ?_⟩⟩
    · intro k hk
      exact hall k (by omega)
    · rw [hlen, Nat.add_sub_cancel]
      exact hneg
  · intro hpos
    have hpos : ¬ toI8 (twi sent.length) < 0 := of_decide_eq_false hpos
    show FlushLog twi true (sent ++ [payload])
    refine ⟨fun _ k hk => ?_, fun hf => absurd hf (by decide)⟩
    by_cases hks : k < sent.length
    · exact hall k hks
    · have : k = sent.length := by omega
      rw [this]
      exact hpos

theorem flushRow_log (twi : Nat → Int) (display : List Nat) :
    ∀ (n ptr : Nat) (buf : List Nat) (sent : List (List Nat)), FlushLog twi true sent →
      FlushLog twi (flushRow twi display n ptr buf sent).1
        (flushRow twi display n ptr buf sent).2.2 := by
  intro n
  induction n with
  | zero => intro ptr buf sent h; exact h
  | succ n ih =>
    intro ptr buf sent h
    unfold flushRow
    simp only
    generalize ((if buf.length = 0 then [0x40] else buf) ++ [display.getD ptr 0]) = buf2
    have hw := twiWrite_log twi sent buf2 h
    by_cases h1 : buf2.length ≥ 32
    · rw [if_pos h1]
      cases hw1 : (twiWrite twi sent buf2).1 with
      | true =>
        rw [if_pos rfl]
        exact hw.1 hw1
      | false =>
        rw [if_neg (by decide)]
        exact ih _ _ _ (hw.2 hw1)
    · rw [if_neg h1]
      exact ih _ _ _ h

theorem flushPages_log (twi : Nat → Int) (display : List Nat) (left right : Nat) :
    ∀ (n p : Nat) (sent : List (List Nat)), FlushLog twi true sent →
      FlushLog twi (flushPages twi display left right n p sent).1
        (flushPages twi display left right n p sent).2 := by
  intro n
  induction n with
  | zero => intro p sent h; exact h
  | succ n ih =>
    intro p sent h
    unfold flushPages
    simp only
    generalize [0, (0xB0 ||| p) % 256, (0x10 ||| (left >>> 4)) % 256,
      (0x00 ||| (0x0F &&& left)) % 256] = header
    have hw := twiWrite_log twi sent header h
    cases hw1 : (twiWrite twi sent header).1 with
    | true =>
      rw [if_pos rfl]
      exact hw.1 hw1
    | false =>
      rw [if_neg (by decide)]
      have hr := flushRow_log twi display (right - left) (left + p * SSD1306_WIDTH) []
        (twiWrite twi sent header).2 (hw.2 hw1)
      generalize flushRow twi display (right - left) (left + p * SSD1306_WIDTH) []
        (twiWrite twi sent header).2 = r at hr ⊢
      cases hr1 : r.1 with
      | false =>
        rw [if_pos rfl]
        rw [hr1] at hr
        exact hr
      | true =>
        rw [if_neg (by decide)]
        rw [hr1] at hr
        by_cases hpos : r.2.1.length > 0
        · rw [if_pos hpos]
          have hw2 := twiWrite_log twi r.2.2 r.2.1 hr
          cases hw3 : (twiWrite twi r.2.2 r.2.1).1 with
          | true =>
            rw [if_pos rfl]
            exact hw2.1 hw3
          | false =>
            rw [if_neg (by decide)]
            exact ih _ _ (hw2.2 hw3)
        · rw [if_neg hpos]
          exact ih _ _ hr

/-- The value `writeDisplay` returns tells the shape of the list of its
writes, and the device is validated on success and untouched on failure. -/
theorem writeDisplay_log (twi : Nat → Int) (dev : SSD1306) :
    FlushLog twi (writeDisplay twi dev).1 (writeDisplay twi dev).2.2 ∧
      ((writeDisplay twi dev).1 = true → (writeDisplay twi dev).2.1 = dev.validate) ∧
      ((writeDisplay twi dev).1 = false → (writeDisplay twi dev).2.1 = dev) := by
  unfold writeDisplay
  by_cases h1 : dev.gd.dirty.size.width = 0 ∨ dev.gd.dirty.size.height = 0
  · rw [if_pos h1]
    exact ⟨flushLog_nil twi, fun _ => rfl, fun h => absurd (show true = false from h) (by decide)⟩
  · rw [if_neg h1]
    simp only
    have hr := flushPages_log twi dev.display dev.gd.dirty.origin.x
      (if (dev.gd.dirty.origin.x + dev.gd.dirty.size.width) % 256 > SSD1306_WIDTH then
        SSD1306_WIDTH else (dev.gd.dirty.origin.x + dev.gd.dirty.size.width) % 256)
      ((if (1 + (dev.gd.dirty.origin.y + dev.gd.dirty.size.height) / 8) % 256 >
          SSD1306_NUMPAGES then SSD1306_NUMPAGES
        else (1 + (dev.gd.dirty.origin.y + dev.gd.dirty.size.height) / 8) % 256) -
        dev.gd.dirty.origin.y / 8 % 256)
      (dev.gd.dirty.origin.y / 8 % 256) [] (flushLog_nil twi)
    generalize flushPages twi dev.display dev.gd.dirty.origin.x
      (if (dev.gd.dirty.origin.x + dev.gd.dirty.size.width) % 256 > SSD1306_WIDTH then
        SSD1306_WIDTH else (dev.gd.dirty.origin.x + dev.gd.dirty.size.width) % 256)
      ((if (1 + (dev.gd.dirty.origin.y + dev.gd.dirty.size.height) / 8) % 256 >
          SSD1306_NUMPAGES then SSD1306_NUMPAGES
        else (1 + (dev.gd.dirty.origin.y + dev.gd.dirty.size.height) / 8) % 256) -
        dev.gd.dirty.origin.y / 8 % 256)
      (dev.gd.dirty.origin.y / 8 % 256) [] = r at hr ⊢
    cases hr1 : r.1 with
    | true =>
      rw [if_pos rfl]
      rw [hr1] at hr
      exact ⟨hr, fun _ => rfl, fun h => absurd (show true = false from h) (by decide)⟩
    | false =>
      rw [if_neg (by decide)]
      rw [hr1] at hr
      exact ⟨hr, fun h => absurd (show false = true from h) (by decide), fun _ => rfl⟩

end SSD1306

/-- C25 (as stated): an empty dirty rectangle that `writeDisplay` does not leave
unchanged.  From the cleared device after `validate()`, `paintRect` of
`{origin (10,0), size (250,1)}` followed by `paintRect` of
`{origin (20,0), size (246,1)}` writes no byte (both right edges wrap below
the left edge) and leaves the dirty rectangle `{origin (10,0), size (0,1)}`:
`markDirty` computes the new width as `(uint8_t)(266 - 256 - 10)`.  That
rectangle has width 0, so it is empty; `writeDisplay` sends nothing, returns
`true` and, through `validate()`, replaces it by `{origin (0,0), size (0,0)}`. -/
theorem writeDisplay_rewrites_empty_dirty :
    (SSD1306.blank.validate.exec
        (SSD1306.blank.validate.gd.paintRect ⟨⟨10, 0⟩, ⟨250, 1⟩⟩)).exec
      ((SSD1306.blank.validate.gd.paintRect ⟨⟨10, 0⟩, ⟨250, 1⟩⟩).1.paintRect
        ⟨⟨20, 0⟩, ⟨246, 1⟩⟩) =
      ⟨⟨none, ⟨0, 0⟩, ⟨128, 64⟩, ⟨⟨10, 0⟩, ⟨0, 1⟩⟩⟩, List.replicate SSD1306_MEMORY 0, GL_WHITE⟩ ∧
    (⟨⟨10, 0⟩, ⟨0, 1⟩⟩ : GDRect).isEmpty = true ∧
    SSD1306.writeDisplay (fun _ => 0)
        ⟨⟨none, ⟨0, 0⟩, ⟨128, 64⟩, ⟨⟨10, 0⟩, ⟨0, 1⟩⟩⟩, List.replicate SSD1306_MEMORY 0, GL_WHITE⟩ =
      (true,
        ⟨⟨none, ⟨0, 0⟩, ⟨128, 64⟩, ⟨⟨0, 0⟩, ⟨0, 0⟩⟩⟩, List.replicate SSD1306_MEMORY 0, GL_WHITE⟩,
        []) ∧
    (⟨⟨0, 0⟩, ⟨0, 0⟩⟩ : GDRect) ≠ ⟨⟨10, 0⟩, ⟨0, 1⟩⟩ := by
  refine ⟨rfl, rfl, rfl, by decide⟩

/-- C25 (amended): when the dirty rectangle is empty (width 0 or height 0),
`writeDisplay` performs no transport write and returns `true`; the frame
buffer, the mode, the cursor, the font and the size are unchanged, and the
dirty rectangle is left empty: it is reset to `{origin (0,0), size (0,0)}`, as
by `validate()`, with the same (no) pixels as before.  It is unchanged exactly
when it already was `{origin (0,0), size (0,0)}`; right after `validate()` the
device itself is returned. -/
theorem writeDisplay_clean (twi : Nat → Int) (dev : SSD1306)
    (h : dev.gd.dirty.isEmpty = true) :
    (dev.writeDisplay twi).1 = true ∧ (dev.writeDisplay twi).2.2 = [] ∧
      (dev.writeDisplay twi).2.1.display = dev.display ∧
      (dev.writeDisplay twi).2.1.mode = dev.mode ∧
      (dev.writeDisplay twi).2.1.gd.pos = dev.gd.pos ∧
      (dev.writeDisplay twi).2.1.gd.font = dev.gd.font ∧
      (dev.writeDisplay twi).2.1.gd.size = dev.gd.size ∧
      (dev.writeDisplay twi).2.1.gd.dirty = ⟨⟨0, 0⟩, ⟨0, 0⟩⟩ ∧
      (dev.writeDisplay twi).2.1.gd.dirty.isEmpty = true ∧
      (∀ px py, (dev.writeDisplay twi).2.1.gd.dirty.contains px py =
        dev.gd.dirty.contains px py) ∧
      ((dev.writeDisplay twi).2.1.gd.dirty = dev.gd.dirty ↔
        dev.gd.dirty = ⟨⟨0, 0⟩, ⟨0, 0⟩⟩) ∧
      dev.validate.writeDisplay twi = (true, dev.validate, []) := by
  have he := h
  simp only [GDRect.isEmpty, decide_eq_true_eq] at he
  have hw : dev.writeDisplay twi = (true, dev.validate, []) := by
    unfold SSD1306.writeDisplay
    rw [if_pos he]
  rw [hw]
  refine ⟨rfl, rfl, rfl, rfl, rfl, rfl, rfl, rfl, rfl, ?_, ?_, rfl⟩
  · intro px py
    show (⟨⟨0, 0⟩, ⟨0, 0⟩⟩ : GDRect).contains px py = dev.gd.dirty.contains px py
    rw [Bool.eq_iff_iff]
    simp only [GDRect.contains, decide_eq_true_eq]
    omega
  · show (⟨⟨0, 0⟩, ⟨0, 0⟩⟩ : GDRect) = dev.gd.dirty ↔ dev.gd.dirty = ⟨⟨0, 0⟩, ⟨0, 0⟩⟩
    exact ⟨fun e => e.symm, fun e => e.symm⟩

theorem writeDisplay_clean_witness :
    SSD1306.blank.validate.gd.dirty.isEmpty = true ∧
    ((SSD1306.blank.validate.writeDisplay fun _ => -1).1 = true ∧
      (SSD1306.blank.validate.writeDisplay fun _ => -1).2.2 = [] ∧
      (SSD1306.blank.validate.writeDisplay fun _ => -1).2.1.display =
        SSD1306.blank.validate.display ∧
      (SSD1306.blank.validate.writeDisplay fun _ => -1).2.1.mode = SSD1306.blank.validate.mode ∧
      (SSD1306.blank.validate.writeDisplay fun _ => -1).2.1.gd.pos =
        SSD1306.blank.validate.gd.pos ∧
      (SSD1306.blank.validate.writeDisplay fun _ => -1).2.1.gd.font =
        SSD1306.blank.validate.gd.font ∧
      (SSD1306.blank.validate.writeDisplay fun _ => -1).2.1.gd.size =
        SSD1306.blank.validate.gd.size ∧
      (SSD1306.blank.validate.writeDisplay fun _ => -1).2.1.gd.dirty = ⟨⟨0, 0⟩, ⟨0, 0⟩⟩ ∧
      (SSD1306.blank.validate.writeDisplay fun _ => -1).2.1.gd.dirty.isEmpty = true ∧
      (∀ px py, (SSD1306.blank.validate.writeDisplay fun _ => -1).2.1.gd.dirty.contains px py =
        SSD1306.blank.validate.gd.dirty.contains px py) ∧
      ((SSD1306.blank.validate.writeDisplay fun _ => -1).2.1.gd.dirty =
          SSD1306.blank.validate.gd.dirty ↔
        SSD1306.blank.validate.gd.dirty = ⟨⟨0, 0⟩, ⟨0, 0⟩⟩) ∧
      SSD1306.blank.validate.validate.writeDisplay (fun _ => -1) =
        (true, SSD1306.blank.validate.validate, [])) :=
  ⟨rfl, writeDisplay_clean (fun _ => -1) SSD1306.blank.validate rfl⟩

/-- C26: if a transport write issued by `writeDisplay` returns a negative value,
then `writeDisplay` returns `false`, that write is the last one it issues, and
the device (dirty rectangle and frame buffer included) is the one before the
call. -/
theorem writeDisplay_failure (twi : Nat → Int) (dev : SSD1306) (k : Nat)
    (hk : k < (dev.writeDisplay twi).2.2.length) (hneg : toI8 (twi k) < 0) :
    (dev.writeDisplay twi).1 = false ∧ (dev.writeDisplay twi).2.1 = dev ∧
      k + 1 = (dev.writeDisplay twi).2.2.length := by
  obtain ⟨hlog, _, hfail⟩ := SSD1306.writeDisplay_log twi dev
  have hf : (dev.writeDisplay twi).1 = false := by
    cases hr : (dev.writeDisplay twi).1 with
    | false => rfl
    | true => exact absurd hneg (hlog.1 hr k hk)
  refine ⟨hf, hfail hf, ?_⟩
  obtain ⟨_, hbefore, _⟩ := hlog.2 hf
  by_cases hlast : k + 1 < (dev.writeDisplay twi).2.2.length
  · exact absurd hneg (hbefore k hlast)
  · omega

theorem writeDisplay_failure_witness :
    (2 < (SSD1306.blank.writeDisplay fun k => if k = 2 then -3 else 4).2.2.length ∧
      toI8 ((fun k => if k = 2 then (-3 : Int) else 4) 2) < 0) ∧
    ((SSD1306.blank.writeDisplay fun k => if k = 2 then -3 else 4).1 = false ∧
      (SSD1306.blank.writeDisplay fun k => if k = 2 then -3 else 4).2.1 = SSD1306.blank ∧
      2 + 1 = (SSD1306.blank.writeDisplay fun k => if k = 2 then -3 else 4).2.2.length) :=
  ⟨⟨by decide, by decide⟩,
    writeDisplay_failure (fun k => if k = 2 then -3 else 4) SSD1306.blank 2 (by decide)
      (by decide)⟩

namespace GraphicDisplay

/-- A step of the running coordinate moves it by one. -/
theorem line_step_near (d : Nat) (s : Int) (tc qc a : Nat)
    (hs : (s = 1 ∧ d ≤ tc ∧ tc < 256) ∨ (s = -1 ∧ tc + d < 256))
    (ha : a ≤ d) (hq : (qc : Int) = tc - s * a) (h1 : 1 ≤ a) :
    toU8 ((qc : Int) + s) ≤ qc + 1 ∧ qc ≤ toU8 ((qc : Int) + s) + 1 := by
  rcases hs with ⟨h, h2, h3⟩ | ⟨h, h2⟩ <;> subst h <;> unfold toU8 <;> omega

theorem adjacent_of_near (x y x2 y2 : Nat) (h1 : x ≤ x2 + 1) (h2 : x2 ≤ x + 1)
    (h3 : y ≤ y2 + 1) (h4 : y2 ≤ y + 1) :
    SinkCall.adjacent (SinkCall.setPixel x y) (SinkCall.setPixel x2 y2) :=
  ⟨x, y, x2, y2, rfl, rfl, h1, h2, h3, h4⟩

/-- Shape of the list a pass of the loop of `lineTo` returns when it goes on:
one more pixel in front of a list that starts next to it. -/
theorem walk_cons (q q2 : GDPoint) (rest : List SinkCall) (n : Nat)
    (hlen : rest.length = n + 1) (hchain : List.Chain' SinkCall.adjacent rest)
    (hhead : rest.head? = some (SinkCall.setPixel q2.x q2.y))
    (h1 : q2.x ≤ q.x + 1) (h2 : q.x ≤ q2.x + 1) (h3 : q2.y ≤ q.y + 1) (h4 : q.y ≤ q2.y + 1) :
    (SinkCall.setPixel q.x q.y :: rest).length = n + 1 + 1 ∧
      List.Chain' SinkCall.adjacent (SinkCall.setPixel q.x q.y :: rest) ∧
      (SinkCall.setPixel q.x q.y :: rest).head? = some (SinkCall.setPixel q.x q.y) := by
  refine ⟨by rw [List.length_cons, hlen], ?_, rfl⟩
  rw [List.chain'_cons']
  refine ⟨?_, hchain⟩
  intro c hc
  rw [hhead] at hc
  cases hc
  exact adjacent_of_near _ _ _ _ h2 h1 h4 h3

/-- When the loop of `lineTo` returns, it has plotted one pixel per step of the
longer axis, each next to the one before: with `dy <= dx` the test of the `x`
step holds on every pass, with `dx < dy` that of the `y` step. -/
theorem lineLoop_walk (dx dy : Nat) (sx sy : Int) (t : GDPoint)
    (hdx : 1 ≤ dx) (hdy : 1 ≤ dy) (hdx2 : dx < 256) (hdy2 : dy < 256)
    (hsx : (sx = 1 ∧ dx ≤ t.x ∧ t.x < 256) ∨ (sx = -1 ∧ t.x + dx < 256))
    (hsy : (sy = 1 ∧ dy ≤ t.y ∧ t.y < 256) ∨ (sy = -1 ∧ t.y + dy < 256)) :
    ∀ fuel a b A B (err : Int) (q : GDPoint) (calls : List SinkCall),
      a ≤ dx → b ≤ dy → A = a * dy → B = b * dx →
      err = (A : Int) - B + dx - dy → -3 * (dy : Int) ≤ 2 * err → 2 * err ≤ 3 * (dx : Int) →
      (dy ≤ dx → -(dy : Int) ≤ 2 * err) → (dx < dy → 2 * err ≤ (dx : Int)) →
      (q.x : Int) = t.x - sx * a → (q.y : Int) = t.y - sy * b →
      lineLoop fuel dx dy sx sy err q t = some calls →
      calls.length = (if dy ≤ dx then a else b) + 1 ∧
        List.Chain' SinkCall.adjacent calls ∧
        calls.head? = some (SinkCall.setPixel q.x q.y) := by
  intro fuel
  induction fuel with
  | zero => intro a b A B err q calls _ _ _ _ _ _ _ _ _ _ _ h; simp [lineLoop] at h
  | succ n ih =>
    intro a b A B err q calls ha hb hA hB herr hlo hhi hmx hmy hqx hqy hret
    have he2 : toI16 (err * 2) = err * 2 := toI16_eq _ (by omega) (by omega)
    have hAs : A - dy = (a - 1) * dy := by rw [hA, Nat.sub_mul, Nat.one_mul]
    have hBs : B - dx = (b - 1) * dx := by rw [hB, Nat.sub_mul, Nat.one_mul]
    have hsingle : ∀ (k : Nat), k = 0 →
        [SinkCall.setPixel q.x q.y].length = k + 1 ∧
        List.Chain' SinkCall.adjacent [SinkCall.setPixel q.x q.y] ∧
        [SinkCall.setPixel q.x q.y].head? = some (SinkCall.setPixel q.x q.y) := by
      intro k hk
      subst hk
      exact ⟨rfl, List.chain'_singleton _, rfl⟩
    unfold lineLoop at hret
    simp only [he2] at hret
    by_cases hX : err * 2 ≥ -(dy : Int)
    · by_cases ha0 : a = 0
      · have hA0 : A = 0 := by rw [hA, ha0, Nat.zero_mul]
        have hb0 : b = 0 := by
          by_contra hb0
          have hB1 : dx ≤ B := by rw [hB]; exact Nat.le_mul_of_pos_left dx (by omega)
          clear hsx hsy hqx hqy
          omega
        subst ha0 hb0
        have hxt := line_at_target sx _ _ hqx
        rw [if_pos ⟨hX, hxt⟩] at hret
        cases hret
        exact hsingle _ (by split <;> rfl)
      · have ha1 : 1 ≤ a := by omega
        have hA1 : dy ≤ A := by rw [hA]; exact Nat.le_mul_of_pos_left dy ha1
        obtain ⟨hxn, hxs⟩ := line_step dx sx t.x q.x a hsx ha hqx ha1
        obtain ⟨hxa, hxb⟩ := line_step_near dx sx t.x q.x a hsx ha hqx ha1
        rw [if_neg (fun h => hxn h.2)] at hret
        simp only [if_pos hX] at hret
        have e1 : toI16 (err - dy) = err - dy := by
          clear hsx hsy hqx hqy hxs; exact toI16_eq _ (by omega) (by omega)
        by_cases hY : err * 2 ≤ (dx : Int)
        · have hb1 : 1 ≤ b := by
            by_contra hb0
            have hB0 : B = 0 := by rw [hB, show b = 0 by omega, Nat.zero_mul]
            clear hsx hsy hqx hqy hxs
            omega
          have hB1 : dx ≤ B := by rw [hB]; exact Nat.le_mul_of_pos_left dx hb1
          obtain ⟨hyn, hys⟩ := line_step dy sy t.y q.y b hsy hb hqy hb1
          obtain ⟨hya, hyb⟩ := line_step_near dy sy t.y q.y b hsy hb hqy hb1
          rw [if_pos hY, if_neg hyn, e1] at hret
          have e2 : toI16 (err - dy + dx) = err - dy + dx := by
            clear hsx hsy hqx hqy hxs hys; exact toI16_eq _ (by omega) (by omega)
          rw [e2] at hret
          obtain ⟨rest, hrest, hcalls⟩ := Option.map_eq_some'.1 hret
          obtain ⟨h1, h2, h3⟩ := ih (a - 1) (b - 1) (A - dy) (B - dx) (err - dy + dx)
            ⟨toU8 ((q.x : Int) + sx), toU8 ((q.y : Int) + sy)⟩ rest
            (by omega) (by omega) hAs hBs
            (by clear hsx hsy hqx hqy hxs hys; omega)
            (by clear hsx hsy hqx hqy hxs hys; omega)
            (by clear hsx hsy hqx hqy hxs hys; omega)
            (by clear hsx hsy hqx hqy hxs hys; omega)
            (by clear hsx hsy hqx hqy hxs hys; omega)
            hxs hys hrest
          subst hcalls
          have hcount : (if dy ≤ dx then a - 1 else b - 1) + 1 = (if dy ≤ dx then a else b) := by
            split <;> omega
          have := walk_cons q ⟨toU8 ((q.x : Int) + sx), toU8 ((q.y : Int) + sy)⟩ rest _ h1 h2 h3
            hxa hxb hya hyb
          rw [hcount] at this
          exact this
        · rw [if_neg hY, e1] at hret
          have hmaj : dy ≤ dx := by
            by_contra hlt
            have := hmy (by omega)
            omega
          obtain ⟨rest, hrest, hcalls⟩ := Option.map_eq_some'.1 hret
          obtain ⟨h1, h2, h3⟩ := ih (a - 1) b (A - dy) B (err - dy)
            ⟨toU8 ((q.x : Int) + sx), q.y⟩ rest
            (by omega) hb hAs hB
            (by clear hsx hsy hqx hqy hxs; omega)
            (by clear hsx hsy hqx hqy hxs; omega)
            (by clear hsx hsy hqx hqy hxs; omega)
            (by clear hsx hsy hqx hqy hxs; omega)
            (by clear hsx hsy hqx hqy hxs; omega)
            hxs hqy hrest
          subst hcalls
          have hcount : (if dy ≤ dx then a - 1 else b) + 1 = (if dy ≤ dx then a else b) := by
            rw [if_pos hmaj, if_pos hmaj]; omega
          have := walk_cons q ⟨toU8 ((q.x : Int) + sx), q.y⟩ rest _ h1 h2 h3
            hxa hxb (Nat.le_succ _) (Nat.le_succ _)
          rw [hcount] at this
          exact this
    · rw [if_neg (fun h => hX h.1)] at hret
      simp only [if_neg hX] at hret
      have hY : err * 2 ≤ (dx : Int) := by clear hsx hsy hqx hqy; omega
      have hmin : dx < dy := by
        by_contra hge
        have := hmx (by omega)
        omega
      rw [if_pos hY] at hret
      by_cases hb0 : b = 0
      · have hyt := line_at_target sy _ _ (by rw [hb0] at hqy; exact hqy)
        rw [if_pos hyt] at hret
        cases hret
        exact hsingle _ (by rw [if_neg (by omega), hb0])
      · have hb1 : 1 ≤ b := by omega
        have hB1 : dx ≤ B := by rw [hB]; exact Nat.le_mul_of_pos_left dx hb1
        obtain ⟨hyn, hys⟩ := line_step dy sy t.y q.y b hsy hb hqy hb1
        obtain ⟨hya, hyb⟩ := line_step_near dy sy t.y q.y b hsy hb hqy hb1
        rw [if_neg hyn] at hret
        have e2 : toI16 (err + dx) = err + dx := by
          clear hsx hsy hqx hqy hys; exact toI16_eq _ (by omega) (by omega)
        rw [e2] at hret
        obtain ⟨rest, hrest, hcalls⟩ := Option.map_eq_some'.1 hret
        obtain ⟨h1, h2, h3⟩ := ih a (b - 1) A (B - dx) (err + dx)
          ⟨q.x, toU8 ((q.y : Int) + sy)⟩ rest
          ha (by omega) hA hBs
          (by clear hsx hsy hqx hqy hys; omega)
          (by clear hsx hsy hqx hqy hys; omega)
          (by clear hsx hsy hqx hqy hys; omega)
          (by clear hsx hsy hqx hqy hys; omega)
          (by clear hsx hsy hqx hqy hys; omega)
          hqx hys hrest
        subst hcalls
        have hcount : (if dy ≤ dx then a else b - 1) + 1 = (if dy ≤ dx then a else b) := by
          rw [if_neg (by omega), if_neg (by omega)]; omega
        have := walk_cons q ⟨q.x, toU8 ((q.y : Int) + sy)⟩ rest _ h1 h2 h3
          (Nat.le_succ _) (Nat.le_succ _) hya hyb
        rw [hcount] at this
        exact this

end GraphicDisplay

namespace GraphicDisplay

/-- The general path of `lineTo` as a walk: the loop returns one pixel per step
of the longer axis, from the cursor to the target, each next to the one before
and inside the box spanned by the two. -/
theorem lineTo_walk (s : GraphicDisplay) (pt : GDPoint)
    (hpx : s.pos.x < 256) (hpy : s.pos.y < 256) (htx : pt.x < 256) (hty : pt.y < 256)
    (hx : pt.x ≠ s.pos.x) (hy : pt.y ≠ s.pos.y) :
    ∃ calls, lineTo s pt = some
      ({ markDirty s (min s.pos.x pt.x) (min s.pos.y pt.y)
            (toU8 (((max s.pos.x pt.x : Nat) : Int) - (min s.pos.x pt.x : Nat) + 1))
            (toU8 (((max s.pos.y pt.y : Nat) : Int) - (min s.pos.y pt.y : Nat) + 1))
          with pos := pt }, calls) ∧
      calls.length = max (max s.pos.x pt.x - min s.pos.x pt.x)
        (max s.pos.y pt.y - min s.pos.y pt.y) + 1 ∧
      List.Chain' SinkCall.adjacent calls ∧
      calls.head? = some (SinkCall.setPixel s.pos.x s.pos.y) ∧
      calls.getLast? = some (SinkCall.setPixel pt.x pt.y) ∧
      ∀ c ∈ calls, ∃ x y, c = SinkCall.setPixel x y ∧
        min s.pos.x pt.x ≤ x ∧ x ≤ max s.pos.x pt.x ∧
        min s.pos.y pt.y ≤ y ∧ y ≤ max s.pos.y pt.y := by
  have hminx : (if pt.x > s.pos.x then s.pos.x else pt.x) = min s.pos.x pt.x := by
    split <;> omega
  have hmaxx : (if pt.x > s.pos.x then pt.x else s.pos.x) = max s.pos.x pt.x := by
    split <;> omega
  have hminy : (if pt.y > s.pos.y then s.pos.y else pt.y) = min s.pos.y pt.y := by
    split <;> omega
  have hmaxy : (if pt.y > s.pos.y then pt.y else s.pos.y) = max s.pos.y pt.y := by
    split <;> omega
  obtain ⟨dx, sx, hdxe, hsxe, hdx1, hdx2, hsx, hqx, hdxm⟩ :=
    line_axis_setup s.pos.x pt.x hpx htx hx
  obtain ⟨dy, sy, hdye, hsye, hdy1, hdy2, hsy, hqy, hdym⟩ :=
    line_axis_setup s.pos.y pt.y hpy hty hy
  have herr : toI16 ((dx : Int) - dy) = dx - dy := toI16_eq _ (by omega) (by omega)
  obtain ⟨calls, hc, hrun⟩ := lineLoop_reaches_target dx dy sx sy pt hdx1 hdy1 hdx2 hdy2 hsx hsy
    lineFuel dx dy (dx * dy) (dy * dx) ((dx : Int) - dy) s.pos (le_refl _) (le_refl _) rfl rfl
    (by rw [Nat.mul_comm dy dx]; omega) (by omega) (by omega) hqx hqy
    (by unfold lineFuel; omega)
  obtain ⟨hlen, hchain, hhead⟩ := lineLoop_walk dx dy sx sy pt hdx1 hdy1 hdx2 hdy2 hsx hsy
    lineFuel dx dy (dx * dy) (dy * dx) ((dx : Int) - dy) s.pos calls (le_refl _) (le_refl _)
    rfl rfl (by rw [Nat.mul_comm dy dx]; omega) (by omega) (by omega) (by omega) (by omega)
    hqx hqy hc
  refine ⟨calls, ?_, ?_, hchain, hhead, hrun.2.1, ?_⟩
  · unfold lineTo
    simp only [if_neg hx, if_neg hy, hminx, hmaxx, hminy, hmaxy, hdxe, hdye, hsxe, hsye, herr, hc,
      Option.map_some']
  · rw [hlen, ← hdxm, ← hdym]
    split <;> omega
  · intro c hcm
    obtain ⟨x, y, a1, b1, e, h4, h5, h6, h7⟩ := hrun.2.2 c hcm
    refine ⟨x, y, e, ?_⟩
    have hbx : min s.pos.x pt.x ≤ x ∧ x ≤ max s.pos.x pt.x := by
      rcases hsx with ⟨h, _, _⟩ | ⟨h, _⟩ <;> subst h <;> omega
    have hby : min s.pos.y pt.y ≤ y ∧ y ≤ max s.pos.y pt.y := by
      rcases hsy with ⟨h, _, _⟩ | ⟨h, _⟩ <;> subst h <;> omega
    exact ⟨hbx.1, hbx.2, hby.1, hby.2⟩

end GraphicDisplay

/-- C31 (as stated): from the cursor `(0,0)` with an empty dirty rectangle,
`lineTo((255,1))` plots the cursor pixel, but the width `255 - 0 + 1` it hands
to `markDirty` is 0 as a `uint8_t`, so the call marks nothing: the dirty
rectangle is still empty afterwards. -/
theorem lineTo_full_width_marks_nothing :
    ∃ s1 calls, sampleDisplay.lineTo ⟨255, 1⟩ = some (s1, calls) ∧
      sampleDisplay.dirty.isEmpty = true ∧
      s1.dirty = ⟨⟨0, 0⟩, ⟨0, 0⟩⟩ ∧ s1.dirty.isEmpty = true ∧
      covered calls 0 0 = true ∧ s1.dirty.contains 0 0 = false := by
  obtain ⟨calls, h, _, _, hhead, _, _⟩ := GraphicDisplay.lineTo_walk sampleDisplay ⟨255, 1⟩
    (by decide) (by decide) (by decide) (by decide) (by decide) (by decide)
  refine ⟨_, calls, h, rfl, rfl, rfl, ?_, rfl⟩
  rw [covered_iff]
  exact ⟨_, List.mem_of_mem_head? hhead, by decide⟩

/-- C31 (amended): for every cursor and target that differ in both coordinates
(all values 0..255), the loop of `lineTo` returns; it plots exactly
`max(|t.x - p.x|, |t.y - p.y|) + 1` pixels, the first the cursor and the last
the target, each differing from the one before by at most 1 in each coordinate,
all inside the bounding box of cursor and target; the cursor becomes the
target.  The box handed to `markDirty` has the sizes `|t.x - p.x| + 1` and
`|t.y - p.y| + 1` reduced to `uint8_t`: when both differences are below 255 and
the dirty rectangle was empty, it becomes that bounding box and contains every
plotted pixel. -/
theorem lineTo_bresenham_walk (s : GraphicDisplay) (pt : GDPoint)
    (hpx : s.pos.x < 256) (hpy : s.pos.y < 256) (htx : pt.x < 256) (hty : pt.y < 256)
    (hx : pt.x ≠ s.pos.x) (hy : pt.y ≠ s.pos.y) :
    ∃ s1 calls, s.lineTo pt = some (s1, calls) ∧
      calls.length = max (max s.pos.x pt.x - min s.pos.x pt.x)
        (max s.pos.y pt.y - min s.pos.y pt.y) + 1 ∧
      calls.head? = some (SinkCall.setPixel s.pos.x s.pos.y) ∧
      calls.getLast? = some (SinkCall.setPixel pt.x pt.y) ∧
      List.Chain' SinkCall.adjacent calls ∧
      (∀ c ∈ calls, ∃ x y, c = SinkCall.setPixel x y ∧
        min s.pos.x pt.x ≤ x ∧ x ≤ max s.pos.x pt.x ∧
        min s.pos.y pt.y ≤ y ∧ y ≤ max s.pos.y pt.y) ∧
      s1.pos = pt ∧
      s1 = { GraphicDisplay.markDirty s (min s.pos.x pt.x) (min s.pos.y pt.y)
          ((max s.pos.x pt.x - min s.pos.x pt.x + 1) % 256)
          ((max s.pos.y pt.y - min s.pos.y pt.y + 1) % 256) with pos := pt } ∧
      (max s.pos.x pt.x - min s.pos.x pt.x < 255 → max s.pos.y pt.y - min s.pos.y pt.y < 255 →
        s.dirty.isEmpty = true →
        s1.dirty = ⟨⟨min s.pos.x pt.x, min s.pos.y pt.y⟩,
          ⟨max s.pos.x pt.x - min s.pos.x pt.x + 1, max s.pos.y pt.y - min s.pos.y pt.y + 1⟩⟩ ∧
        ∀ px py, covered calls px py = true → s1.dirty.contains px py = true) := by
  obtain ⟨calls, h, hlen, hchain, hhead, hlast, hbox⟩ :=
    GraphicDisplay.lineTo_walk s pt hpx hpy htx hty hx hy
  have ew : toU8 (((max s.pos.x pt.x : Nat) : Int) - (min s.pos.x pt.x : Nat) + 1) =
      (max s.pos.x pt.x - min s.pos.x pt.x + 1) % 256 := by
    unfold toU8; omega
  have eh : toU8 (((max s.pos.y pt.y : Nat) : Int) - (min s.pos.y pt.y : Nat) + 1) =
      (max s.pos.y pt.y - min s.pos.y pt.y + 1) % 256 := by
    unfold toU8; omega
  rw [ew, eh] at h
  refine ⟨_, calls, h, hlen, hhead, hlast, hchain, hbox, rfl, rfl, ?_⟩
  intro hw hh he
  have e1 : (max s.pos.x pt.x - min s.pos.x pt.x + 1) % 256 =
      max s.pos.x pt.x - min s.pos.x pt.x + 1 := Nat.mod_eq_of_lt (by omega)
  have e2 : (max s.pos.y pt.y - min s.pos.y pt.y + 1) % 256 =
      max s.pos.y pt.y - min s.pos.y pt.y + 1 := Nat.mod_eq_of_lt (by omega)
  have hd : (GraphicDisplay.markDirty s (min s.pos.x pt.x) (min s.pos.y pt.y)
      ((max s.pos.x pt.x - min s.pos.x pt.x + 1) % 256)
      ((max s.pos.y pt.y - min s.pos.y pt.y + 1) % 256)).dirty =
      ⟨⟨min s.pos.x pt.x, min s.pos.y pt.y⟩,
        ⟨max s.pos.x pt.x - min s.pos.x pt.x + 1, max s.pos.y pt.y - min s.pos.y pt.y + 1⟩⟩ := by
    rw [e1, e2]
    exact GraphicDisplay.markDirty_of_empty s _ _ _ _ he (by omega) (by omega)
  refine ⟨hd, ?_⟩
  intro px py hcov
  show (GraphicDisplay.markDirty s _ _ _ _).dirty.contains px py = true
  rw [hd]
  rw [covered_iff] at hcov
  obtain ⟨c, hc, hcv⟩ := hcov
  obtain ⟨x, y, e, h1, h2, h3, h4⟩ := hbox c hc
  subst e
  rw [covers_iff_setPixel] at hcv
  simp only [GDRect.contains, decide_eq_true_eq]
  omega

theorem lineTo_bresenham_walk_witness :
    (sampleDisplay.pos.x < 256 ∧ sampleDisplay.pos.y < 256 ∧ (7 : Nat) < 256 ∧ (3 : Nat) < 256 ∧
      (7 : Nat) ≠ sampleDisplay.pos.x ∧ (3 : Nat) ≠ sampleDisplay.pos.y) ∧
    ∃ s1 calls, sampleDisplay.lineTo ⟨7, 3⟩ = some (s1, calls) ∧
      calls.length = max (max sampleDisplay.pos.x 7 - min sampleDisplay.pos.x 7)
        (max sampleDisplay.pos.y 3 - min sampleDisplay.pos.y 3) + 1 ∧
      calls.head? = some (SinkCall.setPixel sampleDisplay.pos.x sampleDisplay.pos.y) ∧
      calls.getLast? = some (SinkCall.setPixel 7 3) ∧
      List.Chain' SinkCall.adjacent calls ∧
      (∀ c ∈ calls, ∃ x y, c = SinkCall.setPixel x y ∧
        min sampleDisplay.pos.x 7 ≤ x ∧ x ≤ max sampleDisplay.pos.x 7 ∧
        min sampleDisplay.pos.y 3 ≤ y ∧ y ≤ max sampleDisplay.pos.y 3) ∧
      s1.pos = ⟨7, 3⟩ ∧
      s1 = { GraphicDisplay.markDirty sampleDisplay (min sampleDisplay.pos.x 7)
          (min sampleDisplay.pos.y 3)
          ((max sampleDisplay.pos.x 7 - min sampleDisplay.pos.x 7 + 1) % 256)
          ((max sampleDisplay.pos.y 3 - min sampleDisplay.pos.y 3 + 1) % 256) with
          pos := ⟨7, 3⟩ } ∧
      (max sampleDisplay.pos.x 7 - min sampleDisplay.pos.x 7 < 255 →
        max sampleDisplay.pos.y 3 - min sampleDisplay.pos.y 3 < 255 →
        sampleDisplay.dirty.isEmpty = true →
        s1.dirty = ⟨⟨min sampleDisplay.pos.x 7, min sampleDisplay.pos.y 3⟩,
          ⟨max sampleDisplay.pos.x 7 - min sampleDisplay.pos.x 7 + 1,
            max sampleDisplay.pos.y 3 - min sampleDisplay.pos.y 3 + 1⟩⟩ ∧
        ∀ px py, covered calls px py = true → s1.dirty.contains px py = true) :=
  ⟨by decide, lineTo_bresenham_walk sampleDisplay ⟨7, 3⟩ (by decide) (by decide) (by decide)
    (by decide) (by decide) (by decide)⟩

namespace GraphicDisplay

/-- The width of a character depends on the font only. -/
theorem width_congr (s s0 : GraphicDisplay) (h : s.font = s0.font) (c : Nat) :
    s.width c = s0.width c := by
  unfold width
  rw [h]

/-- A character with a width is drawn: `drawChar` returns, keeps the font and
the row of the cursor, and advances the cursor by the width. -/
theorem drawChar_of_width (s : GraphicDisplay) (c w : Nat) (hx : s.pos.x < 256)
    (hw : s.width c = some w) :
    ∃ r, s.drawChar c = some r ∧ r.1.font = s.font ∧ r.1.pos.y = s.pos.y ∧
      r.1.pos.x = (s.pos.x + w) % 256 := by
  unfold width at hw
  unfold drawChar
  cases hf : s.font with
  | none =>
    simp only [hf] at hw ⊢
    cases hw
    exact ⟨_, rfl, hf, rfl, by simp only [Nat.add_zero]; omega⟩
  | some font =>
    simp only [hf] at hw ⊢
    by_cases h1 : c < font.first
    · rw [if_pos h1] at hw ⊢
      cases hw
      exact ⟨_, rfl, hf, rfl, by simp only [Nat.add_zero]; omega⟩
    · rw [if_neg h1] at hw ⊢
      by_cases h2 : c > font.last
      · rw [if_pos h2] at hw ⊢
        cases hw
        exact ⟨_, rfl, hf, rfl, by simp only [Nat.add_zero]; omega⟩
      · rw [if_neg h2] at hw ⊢
        cases hg : font.glyph[c - font.first]? with
        | none => rw [hg] at hw; simp at hw
        | some g =>
          rw [hg] at hw
          simp only [Option.map_some', Option.some.injEq] at hw
          subst hw
          refine ⟨_, rfl, ?_, ?_, ?_⟩
          · simp only [markDirty_font, hf]
          · simp only [markDirty_pos]
          · simp only [markDirty_pos]

/-- The loop of `drawString` is `drawChar` applied to the characters before the
first zero, in order. -/
theorem drawStringLoop_eq_drawChars :
    ∀ (str : List Nat) (s : GraphicDisplay) (acc : List SinkCall),
      (textChars str).foldlM
          (fun (st : GraphicDisplay × List SinkCall) c =>
            (st.1.drawChar c).map fun r => (r.1, st.2 ++ r.2)) (s, acc) =
        (drawStringLoop str s).map fun r => (r.1, acc ++ r.2) := by
  intro str
  induction str with
  | nil =>
    intro s acc
    show some (s, acc) = some (s, acc ++ [])
    rw [List.append_nil]
  | cons c str ih =>
    intro s acc
    rw [textChars_cons]
    unfold drawStringLoop
    by_cases hc : c = 0
    · simp only [hc, if_true]
      show some (s, acc) = some (s, acc ++ [])
      rw [List.append_nil]
    · simp only [hc, if_false, List.foldlM_cons]
      cases hd : s.drawChar c with
      | none => rfl
      | some r =>
        simp only [Option.map_some', Option.bind_eq_bind, Option.some_bind]
        rw [ih, Option.map_map]
        congr 1
        funext r2
        simp only [Function.comp, List.append_assoc]

/-- The cursor after the loop of `drawString` and the sum the loop of
`width(const char *)` computes for the same string. -/
theorem drawStringLoop_cursor :
    ∀ (str : List Nat) (s s0 : GraphicDisplay) (len : Nat), s.font = s0.font →
      s.pos.x < 256 → len < 256 → (∀ c ∈ textChars str, (s0.width c).isSome = true) →
      ∃ r w, drawStringLoop str s = some r ∧ s0.widthLoop str len = some w ∧
        r.1.font = s0.font ∧ r.1.pos.y = s.pos.y ∧ r.1.pos.x < 256 ∧
        (r.1.pos.x + len) % 256 = (s.pos.x + w) % 256 := by
  intro str
  induction str with
  | nil =>
    intro s s0 len hf hx _ _
    exact ⟨(s, []), len, rfl, rfl, hf, rfl, hx, rfl⟩
  | cons c str ih =>
    intro s s0 len hf hx hlen hw
    rw [textChars_cons] at hw
    unfold drawStringLoop widthLoop
    by_cases hc : c = 0
    · simp only [hc, if_true]
      exact ⟨(s, []), len, rfl, rfl, hf, rfl, hx, rfl⟩
    · simp only [hc, if_false] at hw ⊢
      obtain ⟨wc, hwc⟩ := Option.isSome_iff_exists.1 (hw c (List.mem_cons_self _ _))
      obtain ⟨r1, hr1, hf1, hy1, hx1⟩ := drawChar_of_width s c wc hx
        (by rw [width_congr s s0 hf]; exact hwc)
      obtain ⟨r, w, hr, hwl, hfr, hyr, hxr, hsum⟩ := ih r1.1 s0 ((len + wc) % 256)
        (by rw [hf1, hf]) (by rw [hx1]; exact Nat.mod_lt _ (by decide))
        (Nat.mod_lt _ (by decide)) (fun d hd => hw d (List.mem_cons_of_mem _ hd))
      simp only [hr1, hwc, hr, Option.map_some']
      refine ⟨_, w, rfl, hwl, hfr, by rw [hyr, hy1], hxr, ?_⟩
      show (r.1.pos.x + len) % 256 = (s.pos.x + w) % 256
      rw [hx1] at hsum
      omega

end GraphicDisplay

/-- C35: for every font (or none) and every string, `drawString(text)` is
`drawChar` applied to each character of the string in order; when the characters
in the range of the font have a glyph it returns, and afterwards
`cursor.x = (old cursor.x + width(text)) mod 256`, `cursor.y` is unchanged and
so is the font. -/
theorem drawString_threads (s : GraphicDisplay) (str : List Nat) (hx : s.pos.x < 256)
    (hw : ∀ c ∈ textChars str, (s.width c).isSome = true) :
    s.drawString str = s.drawChars (textChars str) ∧
      ∃ s1 calls w, s.drawString str = some (s1, calls) ∧ s.widthStr str = some w ∧
        s1.pos = ⟨(s.pos.x + w) % 256, s.pos.y⟩ ∧ s1.font = s.font := by
  constructor
  · have h := GraphicDisplay.drawStringLoop_eq_drawChars str s []
    rw [show s.drawChars (textChars str) = _ from h]
    show GraphicDisplay.drawStringLoop str s = _
    cases GraphicDisplay.drawStringLoop str s with
    | none => rfl
    | some r => simp
  · obtain ⟨r, w, hr, hwl, hf, hy, hxr, hsum⟩ :=
      GraphicDisplay.drawStringLoop_cursor str s s 0 rfl hx (by decide) hw
    refine ⟨r.1, r.2, w, hr, hwl, ?_, hf⟩
    have hpx : r.1.pos.x = (s.pos.x + w) % 256 := by omega
    rw [← hpx, ← hy]

theorem drawString_threads_witness :
    (sampleDisplay.pos.x < 256 ∧
      ∀ c ∈ textChars [65, 66, 65, 0, 65], (sampleDisplay.width c).isSome = true) ∧
    (sampleDisplay.drawString [65, 66, 65, 0, 65] =
        sampleDisplay.drawChars (textChars [65, 66, 65, 0, 65]) ∧
      ∃ s1 calls w, sampleDisplay.drawString [65, 66, 65, 0, 65] = some (s1, calls) ∧
        sampleDisplay.widthStr [65, 66, 65, 0, 65] = some w ∧
        s1.pos = ⟨(sampleDisplay.pos.x + w) % 256, sampleDisplay.pos.y⟩ ∧
        s1.font = sampleDisplay.font) :=
  ⟨⟨by decide, by decide⟩,
    drawString_threads sampleDisplay [65, 66, 65, 0, 65] (by decide) (by decide)⟩

/-- The default run loop never leaves when its last value is 255: the test
`i <= 255` holds for every value of the `uint8_t` counter. -/
theorem barLoop_at_255 : ∀ fuel i, barLoop fuel (i % 256) 255 = none := by
  intro fuel
  induction fuel with
  | zero => intro i; rfl
  | succ n ih =>
    intro i
    unfold barLoop
    have h : i % 256 ≤ 255 := by omega
    rw [if_pos h]
    have e : (i % 256 + 1) % 256 = (i % 256 + 1) % 256 % 256 := by omega
    rw [e, ih]
    rfl

/-- C36: with `right = 255` (resp. `bottom = 255`) the loop
`for (uint8_t i = left; i <= right; ++i)` of the default run routines never
ends, whatever the start and however many passes are allowed: the model has no
result for any amount of fuel, and so none for `setHBarInternal(left, 255, y)`
and `setVBarInternal(x, top, 255)`.  The start values `left % 256` range over
all `uint8_t` values. -/
theorem default_run_loops_hang_at_255 (fuel left top x y : Nat) :
    barLoop fuel (left % 256) 255 = none ∧
      GraphicDisplay.setHBarInternal (left % 256) 255 y = none ∧
      GraphicDisplay.setVBarInternal x (top % 256) 255 = none ∧
      GraphicDisplay.setHBarInternal 0 254 y =
        some ((List.range' 0 255).map fun i => SinkCall.setPixel i y) := by
  refine ⟨barLoop_at_255 fuel left, ?_, ?_, ?_⟩
  · unfold GraphicDisplay.setHBarInternal
    rw [barLoop_at_255]
    rfl
  · unfold GraphicDisplay.setVBarInternal
    rw [barLoop_at_255]
    rfl
  · unfold GraphicDisplay.setHBarInternal
    rw [barLoop_eq_range 254 (by decide) barFuel 0 (by decide) (by decide)]
    rfl

set_option maxRecDepth 100000 in
/-- C33: for the radius 50 the `int8_t` walk of `drawCorner` differs from the
walk computed with unbounded integers.  Both reach `(x, y) = (-7, 50)` on pass
64, where the unbounded error term is 137; the walk with unbounded integers
goes on to `(-6, 50)` and ends after 72 passes, the `int8_t` walk goes on to
`(-7, 51)` and `(-6, 52)` and ends after 73.  `drawCorner(100, 100, 50, 0x01)`
so issues `setPixelInternal(107, 151)`, 51 rows from the centre. -/
theorem drawCorner_int8_wraps_at_50 :
    (GraphicDisplay.cornerSteps 50).map (fun l => (l.length, l[64]?, l[65]?, l[66]?)) =
        some (73, some (-7, 50), some (-7, 51), some (-6, 52)) ∧
      (cornerWalk 50).map (fun l => (l.length, l[64]?, l[65]?, l[66]?)) =
        some (72, some (-7, 50), some (-6, 50), some (-5, 50)) ∧
      (GraphicDisplay.drawCorner 100 100 50 1).map (fun l => (l.length, l[65]?)) =
        some (73, some (SinkCall.setPixel 107 151)) ∧
      GraphicDisplay.clampCorner ⟨⟨0, 0⟩, ⟨100, 100⟩⟩ 50 = 50 :=
  ⟨by decide, by decide, by decide, by decide⟩

set_option maxRecDepth 100000 in
/-- C34: on a cleared device whose dirty rectangle is `{origin (0,0), size
(8,8)}` after `paintRect` of that rectangle, with every transport write
succeeding, `writeDisplay` returns `true` and validates, but transmits two
pages: page 0, the only one the rows 0 to 7 touch, and page 1 (address command
`0x00 0xB1 0x10 0x00` followed by the bytes 128 to 135). -/
theorem writeDisplay_sends_page_below :
    (SSD1306.blank.validate.exec
        (SSD1306.blank.validate.gd.paintRect ⟨⟨0, 0⟩, ⟨8, 8⟩⟩)).gd.dirty = ⟨⟨0, 0⟩, ⟨8, 8⟩⟩ ∧
      SSD1306.writeDisplay (fun _ => 0)
          (SSD1306.blank.validate.exec (SSD1306.blank.validate.gd.paintRect ⟨⟨0, 0⟩, ⟨8, 8⟩⟩)) =
        (true,
          (SSD1306.blank.validate.exec
            (SSD1306.blank.validate.gd.paintRect ⟨⟨0, 0⟩, ⟨8, 8⟩⟩)).validate,
          [[0x00, 0xB0, 0x10, 0x00], [0x40, 255, 255, 255, 255, 255, 255, 255, 255],
            [0x00, 0xB1, 0x10, 0x00], [0x40, 0, 0, 0, 0, 0, 0, 0, 0]]) ∧
      (0 + 8 - 1) / 8 = 0 ∧ (⟨⟨0, 0⟩, ⟨8, 8⟩⟩ : GDRect).inDisplay = true := by
  decide

set_option maxRecDepth 100000 in
/-- C32: `frameOval` of the rectangle with origin `(0,0)`, width 4 and height 3
issues 528 calls instead of 16: `y1` is decremented below 0 and wraps to 255,
the test `y0 - y1 <= b` of the second loop stays true for 128 more passes.  The
calls address `(2,10)` and `(2,255)`, far below the box; the reflection
`y -> 2*0 + 3 - y` sends both to negative rows, which no call addresses. -/
theorem frameOval_top_row_not_symmetric :
    (sampleDisplay.frameOval ⟨⟨0, 0⟩, ⟨4, 3⟩⟩).map
        (fun res => (res.2.length, covered res.2 2 10,
          res.2.contains (SinkCall.setPixel 2 255))) = some (528, true, true) ∧
      (2 * 0 + 3 : Int) - 10 < 0 ∧ (2 * 0 + 3 : Int) - 255 < 0 ∧
      (⟨⟨0, 0⟩, ⟨4, 3⟩⟩ : GDRect).inDisplay = true := by
  decide

set_option maxRecDepth 100000 in
/-- C37: `frameOval` of the rectangle with origin `(0,1)`, width 4 and height 3
issues 16 calls; `frameOval` of the same size at the origin `(0,0)` issues 528,
so its calls moved by `(0,1)` are another sequence: the first 16 agree, the
next is `setPixelInternal(2, 5)`. -/
theorem frameOval_origin_zero_not_translate :
    (sampleDisplay.frameOval ⟨⟨0, 1⟩, ⟨4, 3⟩⟩).map (fun res => res.2) =
        some [SinkCall.setPixel 4 3, SinkCall.setPixel 0 3, SinkCall.setPixel 0 2,
          SinkCall.setPixel 4 2, SinkCall.setPixel 3 4, SinkCall.setPixel 1 4,
          SinkCall.setPixel 1 1, SinkCall.setPixel 3 1, SinkCall.setPixel 2 4,
          SinkCall.setPixel 2 4, SinkCall.setPixel 2 1, SinkCall.setPixel 2 1,
          SinkCall.setPixel 2 4, SinkCall.setPixel 2 4, SinkCall.setPixel 2 1,
          SinkCall.setPixel 2 1] ∧
      (sampleDisplay.frameOval ⟨⟨0, 0⟩, ⟨4, 3⟩⟩).map
        (fun res => ((res.2.map (SinkCall.shift 0 1)).length,
          (res.2.map (SinkCall.shift 0 1)).take 16 ==
            ((sampleDisplay.frameOval ⟨⟨0, 1⟩, ⟨4, 3⟩⟩).map (fun r => r.2)).getD [],
          (res.2.map (SinkCall.shift 0 1))[16]?)) =
        some (528, true, some (SinkCall.setPixel 2 5)) ∧
      (⟨⟨0, 0⟩, ⟨4, 3⟩⟩ : GDRect).inDisplay = true ∧
      (⟨⟨0, 1⟩, ⟨4, 3⟩⟩ : GDRect).inDisplay = true := by
  decide

namespace SSD1306

theorem isU8_of_inDisplay (c : SinkCall) (hc : c.inDisplay = true) : c.isU8 = true := by
  cases c <;> simp only [SinkCall.inDisplay, SinkCall.isU8, decide_eq_true_eq] at hc ⊢ <;> omega

theorem apply_eq_writeAll_inDisplay (mode : Nat) (d : List Nat) (c : SinkCall)
    (hc : c.inDisplay = true) : apply mode d c = writeAll mode d (writes c) := by
  apply apply_eq_writeAll
  intro l r y e
  subst e
  simp only [SinkCall.inDisplay, decide_eq_true_eq] at hc
  omega

/-- Two rounds of the same writes, each byte written once per round: a byte
named by a write is blended twice, the others are unchanged. -/
theorem writeAll_twice (m1 m2 : Nat) (ws : List (Nat × Nat)) (d : List Nat)
    (hnd : (ws.map fun w => w.1).Nodup) (f : Nat → Nat → Nat)
    (hf : ∀ old m, blend m2 (blend m1 old m) m = f old m)
    (target : List Nat) (hlen : target.length = d.length)
    (htouched : ∀ o m, (o, m) ∈ ws → o < d.length → target.getD o 0 = f (d.getD o 0) m)
    (hother : ∀ j, (∀ w ∈ ws, w.1 ≠ j) → target.getD j 0 = d.getD j 0) :
    writeAll m2 (writeAll m1 d ws) ws = target := by
  apply ext_getD
  · rw [length_writeAll, length_writeAll, hlen]
  · intro j hj
    rw [length_writeAll, length_writeAll] at hj
    by_cases h : ∃ m, (j, m) ∈ ws
    · obtain ⟨m, hm⟩ := h
      rw [getD_writeAll_nodup m2 ws _ hnd j m hm (by rw [length_writeAll]; exact hj),
        getD_writeAll_nodup m1 ws _ hnd j m hm hj, hf, htouched j m hm hj]
    · have hno : ∀ w ∈ ws, w.1 ≠ j := by
        intro w hw e
        exact h ⟨w.2, by rw [← e]; exact hw⟩
      rw [getD_writeAll_untouched m2 j ws _ hno, getD_writeAll_untouched m1 j ws _ hno,
        hother j hno]

theorem blend_xor_twice (old m : Nat) : blend GL_XOR (blend GL_XOR old m) m = old := by
  rw [blend_xor, blend_xor, Nat.xor_assoc, Nat.xor_self, Nat.xor_zero]

theorem blend_white_twice (old m : Nat) :
    blend GL_WHITE (blend GL_WHITE old m) m = blend GL_WHITE old m := by
  rw [blend_white, blend_white, Nat.or_assoc, Nat.or_self]

theorem blend_black_twice (old m : Nat) :
    blend GL_BLACK (blend GL_BLACK old m) m = blend GL_BLACK old m := by
  rw [blend_black, blend_black, Nat.and_assoc, Nat.and_self]

/-- A bit of the mask is off after a set mode write followed by a clear mode
write with the same mask. -/
theorem blend_black_white_testBit (old m i : Nat) (hi : i < 8) (hm : m.testBit i = true) :
    (blend GL_BLACK (blend GL_WHITE old m) m).testBit i = false := by
  rw [blend_black, Nat.testBit_and, Nat.testBit_xor, testBit_255, hm]
  simp [hi]

/-- The byte of a pixel a call of the display addresses is named by a write of
the call whose mask has the bit of the pixel. -/
theorem covered_pixel_write (c : SinkCall) (px py : Nat) (hc : c.inDisplay = true)
    (hpx : px < 128) (hpy : py < 64) (hcov : c.covers px py = true) :
    ∃ m, (px + py / 8 * 128, m) ∈ writes c ∧ m.testBit (py % 8) = true := by
  have hnd := nodup_writes c (isU8_of_inDisplay c hc)
  have hpix := pixel_apply_white (List.replicate SSD1306_MEMORY 0) c px py
    (List.length_replicate _ _) hc hpx hpy
  rw [hcov, Bool.or_true, apply_eq_writeAll_inDisplay _ _ _ hc] at hpix
  unfold pixel at hpix
  have hlt : px + py / 8 * 128 < (List.replicate SSD1306_MEMORY 0).length := by
    rw [List.length_replicate]
    unfold SSD1306_MEMORY
    omega
  have hzero : (List.replicate SSD1306_MEMORY 0).getD (px + py / 8 * 128) 0 = 0 := by
    rw [List.getD_eq_getElem?_getD, List.getElem?_replicate]
    split_ifs <;> rfl
  by_cases h : ∃ m, (px + py / 8 * 128, m) ∈ writes c
  · obtain ⟨m, hm⟩ := h
    refine ⟨m, hm, ?_⟩
    rw [getD_writeAll_nodup GL_WHITE _ _ hnd _ m hm hlt, hzero, blend_white, Nat.zero_or] at hpix
    exact hpix
  · have hno : ∀ w ∈ writes c, w.1 ≠ px + py / 8 * 128 := by
      intro w hw e
      exact h ⟨w.2, by rw [← e]; exact hw⟩
    rw [getD_writeAll_untouched GL_WHITE _ _ _ hno, hzero] at hpix
    simp at hpix

end SSD1306

/-- C39: for every call of the backend inside the display (single pixel,
horizontal run with `left <= right <= 127`, vertical run with
`top <= bottom <= 63`) and every frame buffer, applying the call twice in invert
mode gives the frame buffer back, applying it twice in set mode or in clear
mode gives the same frame buffer as applying it once, and after a set mode call
followed by the same call in clear mode every pixel the call addresses is 0. -/
theorem mode_algebra (d : List Nat) (c : SinkCall) (hlen : d.length = SSD1306_MEMORY)
    (hc : c.inDisplay = true) :
    SSD1306.apply GL_XOR (SSD1306.apply GL_XOR d c) c = d ∧
      SSD1306.apply GL_WHITE (SSD1306.apply GL_WHITE d c) c = SSD1306.apply GL_WHITE d c ∧
      SSD1306.apply GL_BLACK (SSD1306.apply GL_BLACK d c) c = SSD1306.apply GL_BLACK d c ∧
      ∀ px py, px < 128 → py < 64 → c.covers px py = true →
        SSD1306.pixel (SSD1306.apply GL_BLACK (SSD1306.apply GL_WHITE d c) c) px py = false := by
  have hnd := SSD1306.nodup_writes c (SSD1306.isU8_of_inDisplay c hc)
  have e : ∀ mode (d2 : List Nat), SSD1306.apply mode d2 c =
      SSD1306.writeAll mode d2 (SSD1306.writes c) :=
    fun mode d2 => SSD1306.apply_eq_writeAll_inDisplay mode d2 c hc
  refine ⟨?_, ?_, ?_, ?_⟩
  · rw [e, e]
    exact SSD1306.writeAll_twice GL_XOR GL_XOR _ d hnd (fun old _ => old)
      SSD1306.blend_xor_twice d rfl (fun _ _ _ _ => rfl) (fun _ _ => rfl)
  · rw [e, e]
    refine SSD1306.writeAll_twice GL_WHITE GL_WHITE _ d hnd (fun old m => SSD1306.blend GL_WHITE old m)
      SSD1306.blend_white_twice _ (SSD1306.length_writeAll _ _ _) ?_ ?_
    · intro o m hm ho
      exact SSD1306.getD_writeAll_nodup GL_WHITE _ d hnd o m hm ho
    · intro j hj
      exact SSD1306.getD_writeAll_untouched GL_WHITE j _ d hj
  · rw [e, e]
    refine SSD1306.writeAll_twice GL_BLACK GL_BLACK _ d hnd (fun old m => SSD1306.blend GL_BLACK old m)
      SSD1306.blend_black_twice _ (SSD1306.length_writeAll _ _ _) ?_ ?_
    · intro o m hm ho
      exact SSD1306.getD_writeAll_nodup GL_BLACK _ d hnd o m hm ho
    · intro j hj
      exact SSD1306.getD_writeAll_untouched GL_BLACK j _ d hj
  · intro px py hpx hpy hcov
    obtain ⟨m, hm, hbit⟩ := SSD1306.covered_pixel_write c px py hc hpx hpy hcov
    have hlt : px + py / 8 * 128 < d.length := by
      rw [hlen]
      unfold SSD1306_MEMORY
      omega
    rw [e, e]
    unfold SSD1306.pixel
    rw [SSD1306.getD_writeAll_nodup GL_BLACK _ _ hnd _ m hm
        (by rw [SSD1306.length_writeAll]; exact hlt),
      SSD1306.getD_writeAll_nodup GL_WHITE _ d hnd _ m hm hlt]
    exact SSD1306.blend_black_white_testBit _ m _ (Nat.mod_lt _ (by decide)) hbit

theorem mode_algebra_witness :
    ((List.replicate SSD1306_MEMORY 170).length = SSD1306_MEMORY ∧
      (SinkCall.setVBar 5 3 20).inDisplay = true) ∧
    (SSD1306.apply GL_XOR (SSD1306.apply GL_XOR (List.replicate SSD1306_MEMORY 170)
        (SinkCall.setVBar 5 3 20)) (SinkCall.setVBar 5 3 20) =
        List.replicate SSD1306_MEMORY 170 ∧
      SSD1306.apply GL_WHITE (SSD1306.apply GL_WHITE (List.replicate SSD1306_MEMORY 170)
        (SinkCall.setVBar 5 3 20)) (SinkCall.setVBar 5 3 20) =
        SSD1306.apply GL_WHITE (List.replicate SSD1306_MEMORY 170) (SinkCall.setVBar 5 3 20) ∧
      SSD1306.apply GL_BLACK (SSD1306.apply GL_BLACK (List.replicate SSD1306_MEMORY 170)
        (SinkCall.setVBar 5 3 20)) (SinkCall.setVBar 5 3 20) =
        SSD1306.apply GL_BLACK (List.replicate SSD1306_MEMORY 170) (SinkCall.setVBar 5 3 20) ∧
      ∀ px py, px < 128 → py < 64 → (SinkCall.setVBar 5 3 20).covers px py = true →
        SSD1306.pixel (SSD1306.apply GL_BLACK (SSD1306.apply GL_WHITE
          (List.replicate SSD1306_MEMORY 170) (SinkCall.setVBar 5 3 20))
          (SinkCall.setVBar 5 3 20)) px py = false) :=
  ⟨⟨List.length_replicate _ _, by decide⟩,
    mode_algebra (List.replicate SSD1306_MEMORY 170) (SinkCall.setVBar 5 3 20)
      (List.length_replicate _ _) (by decide)⟩

namespace GraphicDisplay

/-- A glyph without columns or without rows issues no call. -/
theorem drawCharBits_of_empty (font : GFXfont) (g : GFXglyph) (xo yo : Nat)
    (h : g.width = 0 ∨ g.height = 0) : drawCharBits font g xo yo = [] := by
  have hconst : ∀ (l : List Nat) (st : Nat × List SinkCall),
      l.foldl (fun st _ => st) st = st := by
    intro l
    induction l with
    | nil => intro st; rfl
    | cons a l ih => intro st; exact ih st
  unfold drawCharBits
  rcases h with h | h
  · rw [h]
    simp only [List.range_zero, List.foldl_nil]
    rw [hconst]
  · rw [h]
    rfl

/-- `drawChar` without a font or with a code outside `[first, last]` returns the
state it was given and issues no call. -/
theorem drawChar_of_rejected (s : GraphicDisplay) (c : Nat)
    (h : s.font = none ∨ ∃ font, s.font = some font ∧ (c < font.first ∨ font.last < c)) :
    s.drawChar c = some (s, []) := by
  unfold drawChar
  rcases h with h | ⟨font, hf, h⟩
  · rw [h]
  · rw [hf]
    simp only
    by_cases h1 : c < font.first
    · rw [if_pos h1]
    · rw [if_neg h1, if_pos (by omega)]

/-- The dirty rectangle after `drawChar` of a code the font holds, on an empty
dirty rectangle: the render box of the glyph when it has a column and a row,
the unchanged rectangle (and no call) otherwise. -/
theorem drawChar_dirty (s : GraphicDisplay) (c : Nat) (font : GFXfont) (g : GFXglyph)
    (he : s.dirty.isEmpty = true) (hf : s.font = some font) (h1 : font.first ≤ c)
    (h2 : c ≤ font.last) (hg : font.glyph[c - font.first]? = some g) :
    ∃ s1 calls, s.drawChar c = some (s1, calls) ∧
      (1 ≤ g.width → 1 ≤ g.height → s1.dirty =
        ⟨⟨toU8 ((s.pos.x : Int) + g.xOffset), toU8 ((s.pos.y : Int) + g.yOffset)⟩,
          ⟨g.width, g.height⟩⟩) ∧
      (g.width = 0 ∨ g.height = 0 → calls = [] ∧ s1.dirty = s.dirty) := by
  unfold drawChar
  rw [hf]
  simp only
  rw [if_neg (by omega), if_neg (by omega), hg]
  refine ⟨_, _, rfl, ?_, ?_⟩
  · intro hw hh
    exact markDirty_of_empty _ _ _ _ _ he hw hh
  · intro h0
    refine ⟨drawCharBits_of_empty _ _ _ _ h0, ?_⟩
    show (markDirty s _ _ _ _).dirty = s.dirty
    unfold markDirty
    rw [if_pos h0]

/-- The dirty rectangle after `markDirty` of a non-empty box on a non-empty
rectangle when no far edge reaches 256: the origin is the minimum of the two
origins, and a size changes only when the far edge of the box lies beyond the
far edge of the rectangle. -/
theorem markDirty_of_nonempty (s : GraphicDisplay) (left top width height : Nat)
    (hw : 1 ≤ width) (hh : 1 ≤ height)
    (hdw : 1 ≤ s.dirty.size.width) (hdh : 1 ≤ s.dirty.size.height)
    (hr : left + width < 256) (hb : top + height < 256)
    (hdr : s.dirty.origin.x + s.dirty.size.width < 256)
    (hdb : s.dirty.origin.y + s.dirty.size.height < 256) :
    (markDirty s left top width height).dirty =
      ⟨⟨min s.dirty.origin.x left, min s.dirty.origin.y top⟩,
        ⟨if s.dirty.origin.x + s.dirty.size.width < left + width then
            left + width - min s.dirty.origin.x left else s.dirty.size.width,
          if s.dirty.origin.y + s.dirty.size.height < top + height then
            top + height - min s.dirty.origin.y top else s.dirty.size.height⟩⟩ := by
  unfold markDirty
  rw [if_neg (by omega), if_neg (by omega)]
  simp only [Nat.mod_eq_of_lt hr, Nat.mod_eq_of_lt hb, Nat.mod_eq_of_lt hdr, Nat.mod_eq_of_lt hdb]
  have ex : (if s.dirty.origin.x > left then left else s.dirty.origin.x) =
      min s.dirty.origin.x left := by
    split_ifs <;> omega
  have ey : (if s.dirty.origin.y > top then top else s.dirty.origin.y) =
      min s.dirty.origin.y top := by
    split_ifs <;> omega
  rw [ex, ey]
  have tx : toU8 (((left + width : Nat) : Int) - ((min s.dirty.origin.x left : Nat) : Int)) =
      left + width - min s.dirty.origin.x left := toU8_eq _ _ (by omega) (by omega)
  have ty : toU8 (((top + height : Nat) : Int) - ((min s.dirty.origin.y top : Nat) : Int)) =
      top + height - min s.dirty.origin.y top := toU8_eq _ _ (by omega) (by omega)
  rw [tx, ty]

theorem inBox_iff (x0 x1 y0 y1 px py : Nat) :
    inBox (x0, x1, y0, y1) px py ↔ x0 ≤ px ∧ px ≤ x1 ∧ y0 ≤ py ∧ py ≤ y1 := Iff.rfl

/-- The runs of the columns `x0, ..., x0 + n - 1` over the rows `t` to `b`
address every pixel of those columns and rows. -/
theorem covered_columns_of_mem (x0 n t b px py : Nat) (hx : x0 ≤ px) (hx1 : px < x0 + n)
    (hy : t ≤ py) (hy1 : py ≤ b) :
    covered ((List.range' x0 n).map fun x => SinkCall.setVBar x t b) px py = true := by
  rw [covered_iff]
  refine ⟨SinkCall.setVBar px t b, ?_, ?_⟩
  · rw [List.mem_map]
    exact ⟨px, by rw [List.mem_range'_1]; omega, rfl⟩
  · rw [covers_iff_setVBar]
    omega

/-- `paintRoundRect` of a rectangle of the display whose width and height are
at least `2 * c + 3`, on an empty dirty rectangle, returns, leaves the
rectangle as the dirty rectangle, and the rectangle is the box of the pixels
its calls address. -/
theorem paintRoundRect_box (s : GraphicDisplay) (r : GDRect) (c : Nat)
    (he : s.dirty.isEmpty = true) (hin : r.inDisplay = true)
    (hw : 2 * c + 3 ≤ r.size.width) (hh : 2 * c + 3 ≤ r.size.height) :
    ∃ s1 calls, s.paintRoundRect r c = some (s1, calls) ∧ s1.dirty = r ∧
      IsBoundingBox calls r := by
  have hin' := hin
  simp only [GDRect.inDisplay, decide_eq_true_eq] at hin'
  obtain ⟨hx, hy⟩ := hin'
  have hc : clampCorner r c = c := by
    rw [clampCorner_eq_min]; omega
  obtain ⟨c1, h1, k1⟩ := drawCorner_topLeft (r.origin.x + c) (r.origin.y + c) c
    (by omega) (by omega) (by omega) (by omega) (by omega)
  obtain ⟨c2, h2, k2⟩ := drawCorner_topRight (r.origin.x + r.size.width - c - 1)
    (r.origin.y + c) c (by omega) (by omega) (by omega) (by omega)
  obtain ⟨c3, h3, k3⟩ := drawCorner_bottomRight
    (r.origin.x + r.size.width - c - 1) (r.origin.y + r.size.height - c - 1) c
    (by omega) (by omega) (by omega)
  obtain ⟨c4, h4, k4⟩ := drawCorner_bottomLeft (r.origin.x + c)
    (r.origin.y + r.size.height - c - 1) c (by omega) (by omega) (by omega) (by omega)
  have hrun : s.paintRoundRect r c = some
      ((paintRect (paintRect (paintRect s
          ⟨⟨r.origin.x, r.origin.y + c + 1⟩, ⟨r.size.width, r.size.height - 2 * c - 2⟩⟩).1
          ⟨⟨r.origin.x + c + 1, r.origin.y⟩, ⟨r.size.width - 2 * c - 2, c + 1⟩⟩).1
          ⟨⟨r.origin.x + c + 1, r.origin.y + r.size.height - c - 1⟩,
            ⟨r.size.width - 2 * c - 2, c + 1⟩⟩).1,
        c1 ++ c2 ++ c3 ++ c4 ++
          (paintRect s
            ⟨⟨r.origin.x, r.origin.y + c + 1⟩, ⟨r.size.width, r.size.height - 2 * c - 2⟩⟩).2 ++
          (paintRect s
            ⟨⟨r.origin.x + c + 1, r.origin.y⟩, ⟨r.size.width - 2 * c - 2, c + 1⟩⟩).2 ++
          (paintRect s ⟨⟨r.origin.x + c + 1, r.origin.y + r.size.height - c - 1⟩,
            ⟨r.size.width - 2 * c - 2, c + 1⟩⟩).2) := by
    have e1 : toU8 ((r.origin.x : Int) + (c : Int)) = r.origin.x + c :=
      toU8_eq _ _ (by omega) (by omega)
    have e2 : toU8 ((r.origin.y : Int) + (c : Int)) = r.origin.y + c :=
      toU8_eq _ _ (by omega) (by omega)
    have e3 : toU8 ((r.origin.x : Int) + r.size.width - (c : Int) - 1) =
        r.origin.x + r.size.width - c - 1 := toU8_eq _ _ (by omega) (by omega)
    have e4 : toU8 ((r.origin.y : Int) + r.size.height - (c : Int) - 1) =
        r.origin.y + r.size.height - c - 1 := toU8_eq _ _ (by omega) (by omega)
    have e5 : toU8 ((r.origin.y : Int) + (c : Int) + 1) = r.origin.y + c + 1 :=
      toU8_eq _ _ (by omega) (by omega)
    have e6 : toU8 ((r.size.height : Int) - (c : Int) * 2 - 2) = r.size.height - 2 * c - 2 :=
      toU8_eq _ _ (by omega) (by omega)
    have e7 : toU8 ((r.origin.x : Int) + (c : Int) + 1) = r.origin.x + c + 1 :=
      toU8_eq _ _ (by omega) (by omega)
    have e8 : toU8 ((r.size.width : Int) - (c : Int) * 2 - 2) = r.size.width - 2 * c - 2 :=
      toU8_eq _ _ (by omega) (by omega)
    have e9 : toU8 ((c : Int) + 1) = c + 1 := toU8_eq _ _ (by omega) (by omega)
    unfold paintRoundRect
    simp only [hc, e1, e2, e3, e4, e5, e6, e7, e8, e9, h1, h2, h3, h4, Option.some_bind,
      Option.map_some']
    rfl
  have q1 := paintRect_calls s ⟨⟨r.origin.x, r.origin.y + c + 1⟩,
    ⟨r.size.width, r.size.height - 2 * c - 2⟩⟩ (by simp only; omega)
    (by simp only [GDRect.inDisplay, decide_eq_true_eq]; omega)
  have q2 := paintRect_calls s ⟨⟨r.origin.x + c + 1, r.origin.y⟩,
    ⟨r.size.width - 2 * c - 2, c + 1⟩⟩ (by simp only; omega)
    (by simp only [GDRect.inDisplay, decide_eq_true_eq]; omega)
  have q3 := paintRect_calls s
    ⟨⟨r.origin.x + c + 1, r.origin.y + r.size.height - c - 1⟩,
      ⟨r.size.width - 2 * c - 2, c + 1⟩⟩ (by simp only; omega)
    (by simp only [GDRect.inDisplay, decide_eq_true_eq]; omega)
  simp only at q1 q2 q3
  rw [q1, q2, q3] at hrun
  refine ⟨_, _, hrun, ?_, ?_⟩
  · have d1 : (paintRect s ⟨⟨r.origin.x, r.origin.y + c + 1⟩,
        ⟨r.size.width, r.size.height - 2 * c - 2⟩⟩).1.dirty =
        ⟨⟨r.origin.x, r.origin.y + c + 1⟩, ⟨r.size.width, r.size.height - 2 * c - 2⟩⟩ :=
      markDirty_of_empty s _ _ _ _ he (by simp only; omega) (by simp only; omega)
    have d2 : (paintRect (paintRect s ⟨⟨r.origin.x, r.origin.y + c + 1⟩,
        ⟨r.size.width, r.size.height - 2 * c - 2⟩⟩).1
        ⟨⟨r.origin.x + c + 1, r.origin.y⟩, ⟨r.size.width - 2 * c - 2, c + 1⟩⟩).1.dirty =
        ⟨⟨r.origin.x, r.origin.y⟩, ⟨r.size.width, r.size.height - 2 * c - 2⟩⟩ := by
      show (markDirty _ _ _ _ _).dirty = _
      rw [markDirty_of_nonempty _ _ _ _ _ (by simp only; omega) (by simp only; omega)
        (by rw [d1]; simp only; omega) (by rw [d1]; simp only; omega)
        (by simp only; omega) (by simp only; omega)
        (by rw [d1]; simp only; omega) (by rw [d1]; simp only; omega), d1]
      simp only
      rw [if_neg (by omega), if_neg (by omega)]
      congr 2 <;> omega
    show (markDirty _ _ _ _ _).dirty = r
    rw [markDirty_of_nonempty _ _ _ _ _ (by simp only; omega) (by simp only; omega)
      (by rw [d2]; simp only; omega) (by rw [d2]; simp only; omega)
      (by simp only; omega) (by simp only; omega)
      (by rw [d2]; simp only; omega) (by rw [d2]; simp only; omega), d2]
    simp only
    rw [if_neg (by omega), if_pos (by omega)]
    have : (⟨⟨r.origin.x, r.origin.y⟩, ⟨r.size.width, r.size.height⟩⟩ : GDRect) = r := rfl
    rw [← this]
    congr 2 <;> simp only <;> omega
  · have k5 := fun px py => covered_columns r.origin.x r.size.width (r.origin.y + c + 1)
      (r.origin.y + c + 1 + (r.size.height - 2 * c - 2) - 1) px py
    have k6 := fun px py => covered_columns (r.origin.x + c + 1) (r.size.width - 2 * c - 2)
      r.origin.y (r.origin.y + (c + 1) - 1) px py
    have k7 := fun px py => covered_columns (r.origin.x + c + 1) (r.size.width - 2 * c - 2)
      (r.origin.y + r.size.height - c - 1) (r.origin.y + r.size.height - c - 1 + (c + 1) - 1)
      px py
    have m5 := fun px py => covered_columns_of_mem r.origin.x r.size.width (r.origin.y + c + 1)
      (r.origin.y + c + 1 + (r.size.height - 2 * c - 2) - 1) px py
    have m6 := fun px py => covered_columns_of_mem (r.origin.x + c + 1)
      (r.size.width - 2 * c - 2) r.origin.y (r.origin.y + (c + 1) - 1) px py
    have m7 := fun px py => covered_columns_of_mem (r.origin.x + c + 1)
      (r.size.width - 2 * c - 2) (r.origin.y + r.size.height - c - 1)
      (r.origin.y + r.size.height - c - 1 + (c + 1) - 1) px py
    refine isBoundingBox_of_touching _ r ?_ ?_ ?_ ?_ ?_
    · intro px py hcov
      simp only [covered_append, Bool.or_eq_true] at hcov
      rw [contains_iff]
      rcases hcov with (((((hc1 | hc2) | hc3) | hc4) | hb1) | hb2) | hb3
      · have := (inBox_iff _ _ _ _ _ _).1 (k1 px py hc1); omega
      · have := (inBox_iff _ _ _ _ _ _).1 (k2 px py hc2); omega
      · have := (inBox_iff _ _ _ _ _ _).1 (k3 px py hc3); omega
      · have := (inBox_iff _ _ _ _ _ _).1 (k4 px py hc4); omega
      · have := (inBox_iff _ _ _ _ _ _).1 (k5 px py hb1); omega
      · have := (inBox_iff _ _ _ _ _ _).1 (k6 px py hb2); omega
      · have := (inBox_iff _ _ _ _ _ _).1 (k7 px py hb3); omega
    · refine ⟨r.origin.y + c + 1, ?_⟩
      simp only [covered_append, Bool.or_eq_true]
      exact Or.inl (Or.inl (Or.inr (m5 _ _ (by omega) (by omega) (by omega) (by omega))))
    · refine ⟨r.origin.x + r.size.width - 1, r.origin.y + c + 1, by omega, ?_⟩
      simp only [covered_append, Bool.or_eq_true]
      exact Or.inl (Or.inl (Or.inr (m5 _ _ (by omega) (by omega) (by omega) (by omega))))
    · refine ⟨r.origin.x + c + 1, ?_⟩
      simp only [covered_append, Bool.or_eq_true]
      exact Or.inl (Or.inr (m6 _ _ (by omega) (by omega) (by omega) (by omega)))
    · refine ⟨r.origin.x + c + 1, r.origin.y + r.size.height - 1, by omega, ?_⟩
      simp only [covered_append, Bool.or_eq_true]
      exact Or.inr (m7 _ _ (by omega) (by omega) (by omega) (by omega))

end GraphicDisplay

set_option maxRecDepth 100000 in
/-- C1 (as stated): one call that starts from `validate()` and ends with a dirty
rectangle that is not the smallest box of the pixels written.  `drawChar(65)`
with `sampleFont` at the cursor `(0,0)`, the render box of the glyph inside the
display, issues `setPixelInternal(0, 0)` only and marks the whole 2x2 render
box `{origin (0,0), size (2,2)}`; the smaller rectangle
`{origin (0,0), size (1,1)}` contains the pixel written.  On the cleared
device in set mode the frame buffer afterwards has bit 0 of byte 0 set and
nothing else. -/
theorem drawChar_dirty_not_smallest_box :
    ((DrawCall.drawChar 65).run sampleDisplay.validate).map (fun res => (res.2, res.1.dirty))
        = some ([SinkCall.setPixel 0 0], ⟨⟨0, 0⟩, ⟨2, 2⟩⟩) ∧
      ¬ IsBoundingBox [SinkCall.setPixel 0 0] ⟨⟨0, 0⟩, ⟨2, 2⟩⟩ ∧
      IsBoundingBox [SinkCall.setPixel 0 0] ⟨⟨0, 0⟩, ⟨1, 1⟩⟩ ∧
      (SSD1306.exec? ⟨sampleDisplay.validate, List.replicate SSD1306_MEMORY 0, GL_WHITE⟩
          (sampleDisplay.validate.drawChar 65)).map (fun dev => dev.display) =
        some ((List.replicate SSD1306_MEMORY 0).set 0 1) := by
  refine ⟨by decide, ?_, ?_, by decide⟩
  · intro h
    have h1 := h.2 ⟨⟨0, 0⟩, ⟨1, 1⟩⟩ (fun px py hc => by
      rw [covered_singleton, covers_iff_setPixel] at hc
      rw [contains_iff]
      obtain ⟨rfl, rfl⟩ := hc
      decide) 1 1 (by decide)
    exact absurd h1 (by decide)
  · apply isBoundingBox_of_eq
    intro px py
    rw [covered_singleton, Bool.eq_iff_iff, covers_iff_setPixel, contains_iff]
    show _ ↔ 0 ≤ px ∧ px < 0 + 1 ∧ 0 ≤ py ∧ py < 0 + 1
    omega

/-- C1 (amended): starting from `validate()`, one drawing call among `setPixel`,
`lineTo`, `paintRect` (width and height at least 1), `frameRect`,
`paintRoundRect` (width and height at least `2 * corner + 3`) and `drawChar`
whose arguments lie inside the 128x64 display returns and leaves a dirty
rectangle that contains every pixel the call wrote to the backend.  For
`setPixel`, `lineTo`, `paintRect`, `frameRect` and `paintRoundRect` it is the
smallest such box.  For `drawChar` of a code the font holds it is the whole
render box of the glyph, `{origin (pos.x + xOffset, pos.y + yOffset),
size (width, height)}`, when the glyph has width and height at least 1, and
otherwise, as for `drawChar` without a font or of a code outside
`[first, last]`, nothing is written and the rectangle stays
`{origin (0,0), size (0,0)}`. -/
theorem single_call_dirty_box (s : GraphicDisplay) (c : DrawCall) (hin : c.inDisplay s) :
    ∃ s1 calls, c.run s.validate = some (s1, calls) ∧
      (∀ px py, covered calls px py = true → s1.dirty.contains px py = true) ∧
      (c.marksExactBox = true → IsBoundingBox calls s1.dirty) ∧
      (∀ code font g, c = DrawCall.drawChar code → s.font = some font →
        font.first ≤ code → code ≤ font.last → font.glyph[code - font.first]? = some g →
        (1 ≤ g.width → 1 ≤ g.height → s1.dirty =
          ⟨⟨toU8 ((s.pos.x : Int) + g.xOffset), toU8 ((s.pos.y : Int) + g.yOffset)⟩,
            ⟨g.width, g.height⟩⟩) ∧
        (g.width = 0 ∨ g.height = 0 → calls = [] ∧ s1.dirty = ⟨⟨0, 0⟩, ⟨0, 0⟩⟩)) ∧
      (∀ code, c = DrawCall.drawChar code →
        (s.font = none ∨ ∃ font, s.font = some font ∧ (code < font.first ∨ font.last < code)) →
        calls = [] ∧ s1.dirty = ⟨⟨0, 0⟩, ⟨0, 0⟩⟩) := by
  have he := GraphicDisplay.validate_isEmpty s
  cases c with
  | setPixel x y =>
    have hb := GraphicDisplay.setPixel_box s.validate x y he
    exact ⟨_, _, rfl, hb.1, fun _ => hb, fun _ _ _ h => (by cases h), fun _ h => (by cases h)⟩
  | lineTo pt =>
    obtain ⟨s1, calls, hl, hb⟩ := GraphicDisplay.lineTo_box s.validate pt he hin.1 hin.2
    exact ⟨s1, calls, hl, hb.1, fun _ => hb, fun _ _ _ h => (by cases h), fun _ h => (by cases h)⟩
  | paintRect r =>
    have hb := GraphicDisplay.paintRect_box s.validate r he hin.1 hin.2.1 hin.2.2
    exact ⟨_, _, rfl, hb.1, fun _ => hb, fun _ _ _ h => (by cases h), fun _ h => (by cases h)⟩
  | frameRect r =>
    have hb := GraphicDisplay.frameRect_box s.validate r he hin
    exact ⟨_, _, rfl, hb.1, fun _ => hb, fun _ _ _ h => (by cases h), fun _ h => (by cases h)⟩
  | paintRoundRect r corner =>
    obtain ⟨s1, calls, hl, hd, hb⟩ :=
      GraphicDisplay.paintRoundRect_box s.validate r corner he hin.1 hin.2.1 hin.2.2
    rw [← hd] at hb
    exact ⟨s1, calls, hl, hb.1, fun _ => hb, fun _ _ _ h => (by cases h), fun _ h => (by cases h)⟩
  | drawChar code =>
    obtain ⟨s1, calls, hl, hb⟩ := GraphicDisplay.drawChar_box s.validate code he hin
    refine ⟨s1, calls, hl, hb, fun h => by simp [DrawCall.marksExactBox] at h, ?_, ?_⟩
    · intro code2 font g hc hf h1 h2 hg
      cases hc
      obtain ⟨s2, calls2, hl2, hbox, hnone⟩ :=
        GraphicDisplay.drawChar_dirty s.validate code font g he hf h1 h2 hg
      have e : (s1, calls) = (s2, calls2) := Option.some.inj (hl.symm.trans hl2)
      cases e
      exact ⟨hbox, hnone⟩
    · intro code2 hc hrej
      cases hc
      have hl2 := GraphicDisplay.drawChar_of_rejected s.validate code hrej
      have e : (s1, calls) = (s.validate, []) := Option.some.inj (hl.symm.trans hl2)
      cases e
      exact ⟨rfl, rfl⟩

theorem single_call_dirty_box_witness :
    (DrawCall.drawChar 65).inDisplay sampleDisplay ∧
    ∃ s1 calls, (DrawCall.drawChar 65).run sampleDisplay.validate = some (s1, calls) ∧
      (∀ px py, covered calls px py = true → s1.dirty.contains px py = true) ∧
      ((DrawCall.drawChar 65).marksExactBox = true → IsBoundingBox calls s1.dirty) ∧
      (∀ code font g, DrawCall.drawChar 65 = DrawCall.drawChar code →
        sampleDisplay.font = some font →
        font.first ≤ code → code ≤ font.last → font.glyph[code - font.first]? = some g →
        (1 ≤ g.width → 1 ≤ g.height → s1.dirty =
          ⟨⟨toU8 ((sampleDisplay.pos.x : Int) + g.xOffset),
            toU8 ((sampleDisplay.pos.y : Int) + g.yOffset)⟩, ⟨g.width, g.height⟩⟩) ∧
        (g.width = 0 ∨ g.height = 0 → calls = [] ∧ s1.dirty = ⟨⟨0, 0⟩, ⟨0, 0⟩⟩)) ∧
      (∀ code, DrawCall.drawChar 65 = DrawCall.drawChar code →
        (sampleDisplay.font = none ∨
          ∃ font, sampleDisplay.font = some font ∧ (code < font.first ∨ font.last < code)) →
        calls = [] ∧ s1.dirty = ⟨⟨0, 0⟩, ⟨0, 0⟩⟩) :=
  ⟨Or.inr (Or.inr ⟨⟨0, 2, 2, 3, 0, 0⟩, rfl, by decide, by decide, by decide, by decide⟩),
    single_call_dirty_box sampleDisplay (DrawCall.drawChar 65)
      (Or.inr (Or.inr ⟨⟨0, 2, 2, 3, 0, 0⟩, rfl, by decide, by decide, by decide, by decide⟩))⟩

set_option maxRecDepth 100000 in
/-- C38: for the rectangle with origin `(0,7)`, width 1 and height 57, inside
the display, `frameOval` ends with `setPixelInternal(0, 64)` and
`setPixelInternal(0, 7)`, and the only run of `paintOval` that addresses the
pixel `(0,7)` is its last one in that column, `setVBarInternal(0, 7, 64)`:
both routines reach the row `origin.y + height = 64`.  The backend masks the
pages of both ends of the run to page 0 and writes the pattern
`0x80 & 0x01 = 0`, so on the cleared device in set mode the pixel `(0,7)` is on
after `frameOval` and off after `paintOval`. -/
theorem frameOval_pixel_missed_by_paintOval :
    (⟨⟨0, 7⟩, ⟨1, 57⟩⟩ : GDRect).inDisplay = true ∧
      (⟨⟨0, 7⟩, ⟨1, 57⟩⟩ : GDRect).contains 0 7 = true ∧
      (sampleDisplay.frameOval ⟨⟨0, 7⟩, ⟨1, 57⟩⟩).map
          (fun res => (res.2.length, res.2.drop 116)) =
        some (120, [SinkCall.setPixel 0 64, SinkCall.setPixel 1 64, SinkCall.setPixel 0 7,
          SinkCall.setPixel 1 7]) ∧
      (sampleDisplay.paintOval ⟨⟨0, 7⟩, ⟨1, 57⟩⟩).map
          (fun res => res.2.filter fun c => c.covers 0 7) = some [SinkCall.setVBar 0 7 64] ∧
      SSD1306.setVBarWrites 0 7 64 = [(0, 0)] ∧
      (SSD1306.blank.exec? (SSD1306.blank.gd.frameOval ⟨⟨0, 7⟩, ⟨1, 57⟩⟩)).map
        (fun dev => SSD1306.pixel dev.display 0 7) = some true ∧
      (SSD1306.blank.exec? (SSD1306.blank.gd.paintOval ⟨⟨0, 7⟩, ⟨1, 57⟩⟩)).map
        (fun dev => SSD1306.pixel dev.display 0 7) = some false ∧
      SSD1306.blank.mode = GL_WHITE ∧
      SSD1306.pixel SSD1306.blank.display 0 7 = false := by
  refine ⟨by decide, by decide, by decide, by decide, by decide, by decide, by decide,
    by decide, by decide⟩

end PIC32MX
